import Mathlib

/-!
# WINC flasher (flasher/winc.go): serial flashing protocol

A shallow embedding of the WINC flasher.  Bytes are natural numbers, a Go
byte slice is a list of them, machine integers are natural numbers reduced
explicitly (uint16 modulo 65536, uint32 modulo 4294967296).  The serial
port is a pair of step functions over an arbitrary port state; loops that
Go does not bound (the send loop, the chunk loops) take fuel and report
a run that is still going as none, together with the state reached so far.
-/

namespace Flasher

/-! ## Errors and the serial port -/

/-- The error values of the package.  `port` is an error returned by the
serial port itself, `flasher err arg` is `FlasherError{err}` whose text is
`err` followed by the bytes `arg` (the `%s` operand, empty when there is
none), `plain` is `errors.New`, and `payloadTooSmall n` is the `fmt.Errorf`
of `NewWincFlasher`, "programmer reports n as maximum payload size
(1024 is needed)". -/
inductive Error where
  | port (msg : String)
  | flasher (err : String) (arg : List Nat)
  | plain (msg : String)
  | payloadTooSmall (n : Nat)
  deriving DecidableEq

/-- The result of a call that always returns: a value or an error. -/
inductive Res (α : Type) where
  | ok (a : α)
  | error (e : Error)
  deriving DecidableEq

/-- What a call on the serial port returns: a value, or the port's own
error, given by its text. -/
inductive PortResult (α : Type) where
  | ok (a : α)
  | error (msg : String)
  deriving DecidableEq

/-- The `serial.Port` the flasher talks to: `Read s cap` is a call of
`port.Read` on a buffer of `cap` bytes in port state `s`, giving the bytes
placed in the buffer (their number is the returned count) or an error;
`Write s data` is a call of `port.Write`, giving the count of bytes
accepted or an error.  Both give the next port state. -/
structure Port (σ : Type) where
  Read : σ → Nat → PortResult (List Nat) × σ
  Write : σ → List Nat → PortResult Nat × σ

/-- A call `port.Read(buf)` with `len(buf) = cap`.  A read places at most
`cap` bytes (`0 <= n <= len(buf)`), which `take` builds in. -/
def portRead {σ : Type} (p : Port σ) (s : σ) (cap : Nat) : Res (List Nat) × σ :=
  match p.Read s cap with
  | (PortResult.ok bytes, s1) => (Res.ok (bytes.take cap), s1)
  | (PortResult.error msg, s1) => (Res.error (Error.port msg), s1)

/-- A call `port.Write(data)`.  A write accepts at most the bytes offered
(`0 <= n <= len(data)`), which `min` builds in. -/
def portWrite {σ : Type} (p : Port σ) (s : σ) (data : List Nat) : Res Nat × σ :=
  match p.Write s data with
  | (PortResult.ok sent, s1) => (Res.ok (min sent data.length), s1)
  | (PortResult.error msg, s1) => (Res.error (Error.port msg), s1)

/-! ## The flasher -/

/-- The `CommandData` record handed to `sendCommand`: `Command` is a byte,
`Address` and `Value` are uint32, `Payload` is a byte slice that may be
nil (`none`). -/
structure CommandData where
  Command : Nat
  Address : Nat
  Value : Nat
  Payload : Option (List Nat)
  deriving DecidableEq

/-- The `WincFlasher` of winc.go: `port` is the current state of its serial
port and `payloadSize` its field of that name.  Two observation fields
record what the code emits: `sent` lists, in order, the buffers
`sendCommand` has built and handed to the port, and `stdout` lists the
percentages printed by `flashChunk`. -/
structure WincFlasher (σ : Type) where
  port : σ
  payloadSize : Nat
  sent : List (List Nat)
  stdout : List Int
  deriving DecidableEq

/-- The flasher with its port in state `s`. -/
def WincFlasher.setPort {σ : Type} (f : WincFlasher σ) (s : σ) : WincFlasher σ :=
  WincFlasher.mk s f.payloadSize f.sent f.stdout

/-- The conversion `uint16(x)`. -/
def uint16 (x : Nat) : Nat := x % 65536

/-- The conversion `uint32(x)`. -/
def uint32 (x : Nat) : Nat := x % 4294967296

/-- The bytes `binary.Write(buff, binary.BigEndian, v)` appends for a
uint16: `byte(v >> 8), byte(v)`. -/
def putUint16 (v : Nat) : List Nat := [v / 256 % 256, v % 256]

/-- The bytes `binary.Write(buff, binary.BigEndian, v)` appends for a
uint32: `byte(v >> 24), byte(v >> 16), byte(v >> 8), byte(v)`. -/
def putUint32 (v : Nat) : List Nat :=
  [v / 16777216 % 256, v / 65536 % 256, v / 256 % 256, v % 256]

/-- The contents of `buff` when `sendCommand` reaches its send loop
(winc.go lines 212 to 235). -/
def sendCommandBuffer (data : CommandData) : List Nat :=
  let length : Nat :=
    match data.Payload with
    | none => 0
    | some payload => uint16 payload.length
  [data.Command % 256] ++ putUint32 data.Address ++ putUint32 data.Value ++ putUint16 length ++
    (match data.Payload with
     | none => []
     | some payload => payload)

/-- The send loop of `sendCommand` (winc.go lines 236 to 246) on the port
state alone: write, stop when the whole of `bufferData` was accepted,
otherwise go on with `bufferData[sent:]`. -/
def sendCommandLoop {σ : Type} (p : Port σ) : Nat → σ → List Nat → Option (Res Unit) × σ
  | 0, s, _ => (none, s)
  | fuel + 1, s, bufferData =>
    match portWrite p s bufferData with
    | (Res.error e, s1) => (some (Res.error e), s1)
    | (Res.ok sent, s1) =>
      if sent = bufferData.length then (some (Res.ok ()), s1)
      else sendCommandLoop p fuel s1 (bufferData.drop sent)

/-- The method `sendCommand`. -/
def sendCommand {σ : Type} (p : Port σ) (fuel : Nat) (f : WincFlasher σ) (data : CommandData) :
    Option (Res Unit) × WincFlasher σ :=
  let buff := sendCommandBuffer data
  match sendCommandLoop p fuel f.port buff with
  | (r, s1) => (r, WincFlasher.mk s1 f.payloadSize (f.sent ++ [buff]) f.stdout)

/-- Writing `bytes` into `buffer` from index `read` on, as `port.Read`
does on `buffer[read:]`. -/
def fillAt (buffer : List Nat) (read : Nat) (bytes : List Nat) : List Nat :=
  buffer.take read ++ bytes ++ buffer.drop (read + bytes.length)

/-- The loop of `serialFillBuffer` on the port state.  The first argument
counts the iterations left; every iteration that goes on adds at least one
byte, so `len(buffer) - read` of them always suffice. -/
def serialFillBufferLoop {σ : Type} (p : Port σ) :
    Nat → σ → Nat → List Nat → Res (List Nat) × σ
  | 0, s, _, buffer => (Res.ok buffer, s)
  | k + 1, s, read, buffer =>
    if read < buffer.length then
      match portRead p s (buffer.length - read) with
      | (Res.error e, s1) => (Res.error e, s1)
      | (Res.ok bytes, s1) =>
        if bytes.length = 0 then
          (Res.error (Error.flasher "Serial port closed unexpectedly" []), s1)
        else serialFillBufferLoop p k s1 (read + bytes.length) (fillAt buffer read bytes)
    else (Res.ok buffer, s)

/-- The method `serialFillBuffer`: on success the filled buffer. -/
def serialFillBuffer {σ : Type} (p : Port σ) (f : WincFlasher σ) (buffer : List Nat) :
    Res (List Nat) × WincFlasher σ :=
  match serialFillBufferLoop p buffer.length f.port 0 buffer with
  | (r, s1) => (r, f.setPort s1)

/-- The bytes of the string "OK". -/
def ackOK : List Nat := [79, 75]

/-- What `make([]byte, n)` allocates. -/
def makeBytes (n : Nat) : List Nat := List.replicate n 0

/-- The method `write`: send the FLASH_WRITE frame, read the two
acknowledgment bytes, compare them with "OK". -/
def write {σ : Type} (p : Port σ) (fuel : Nat) (f : WincFlasher σ) (address : Nat)
    (buffer : List Nat) : Option (Res Unit) × WincFlasher σ :=
  match sendCommand p fuel f (CommandData.mk 0x02 address 0 (some buffer)) with
  | (none, f1) => (none, f1)
  | (some (Res.error e), f1) => (some (Res.error e), f1)
  | (some (Res.ok _), f1) =>
    match serialFillBuffer p f1 (makeBytes 2) with
    | (Res.error e, f2) => (some (Res.error e), f2)
    | (Res.ok ack, f2) =>
      if ack ≠ ackOK then (some (Res.error (Error.flasher "Missing ack on write: " ack)), f2)
      else (some (Res.ok ()), f2)

/-- The method `erase` (its `log.Printf` line, written to the standard
logger, is left out). -/
def erase {σ : Type} (p : Port σ) (fuel : Nat) (f : WincFlasher σ) (address length : Nat) :
    Option (Res Unit) × WincFlasher σ :=
  match sendCommand p fuel f (CommandData.mk 0x03 address length none) with
  | (none, f1) => (none, f1)
  | (some (Res.error e), f1) => (some (Res.error e), f1)
  | (some (Res.ok _), f1) =>
    match serialFillBuffer p f1 (makeBytes 2) with
    | (Res.error e, f2) => (some (Res.error e), f2)
    | (Res.ok ack, f2) =>
      if ack ≠ ackOK then (some (Res.error (Error.flasher "Missing ack on erase: " ack)), f2)
      else (some (Res.ok ()), f2)

/-- The method `read`. -/
def read {σ : Type} (p : Port σ) (fuel : Nat) (f : WincFlasher σ) (address length : Nat) :
    Option (Res (List Nat)) × WincFlasher σ :=
  match sendCommand p fuel f (CommandData.mk 0x01 address length none) with
  | (none, f1) => (none, f1)
  | (some (Res.error e), f1) => (some (Res.error e), f1)
  | (some (Res.ok _), f1) =>
    match serialFillBuffer p f1 (makeBytes length) with
    | (Res.error e, f2) => (some (Res.error e), f2)
    | (Res.ok result, f2) =>
      match serialFillBuffer p f2 (makeBytes 2) with
      | (Res.error e, f3) => (some (Res.error e), f3)
      | (Res.ok ack, f3) =>
        if ack ≠ ackOK then (some (Res.error (Error.flasher "Missing ack on read: " ack)), f3)
        else (some (Res.ok result), f3)

/-- The conversion of an integer to Go's `int` of `intSize` bits: the
arithmetic of `int` wraps around in two's complement. -/
def goInt (intSize : Nat) (x : Int) : Int :=
  (x + ((2 ^ (intSize - 1) : Nat) : Int)) % ((2 ^ intSize : Nat) : Int) -
    ((2 ^ (intSize - 1) : Nat) : Int)

/-- The percentage `(i*100)/bufferLength` of winc.go line 143, computed in
Go's `int` of `intSize` bits (32 or 64, the constant `strconv.IntSize` of the
build): the product wraps around and the division truncates toward zero. -/
def percentage (intSize i bufferLength : Nat) : Int :=
  Int.tdiv (goInt intSize ((i : Int) * 100)) (bufferLength : Int)

/-- The first loop of `flashChunk` (winc.go lines 142 to 152), from index
`i`; the argument before `i` counts the iterations allowed, and `intSize`
is the width of `int` of the build, in which the percentage is computed. -/
def flashChunkWriteLoop {σ : Type} (intSize : Nat) (p : Port σ) (fuel offset : Nat)
    (buffer : List Nat) :
    Nat → Nat → WincFlasher σ → Option (Res Unit) × WincFlasher σ
  | 0, _, f => (none, f)
  | n + 1, i, f =>
    if i < buffer.length then
      let f1 := WincFlasher.mk f.port f.payloadSize f.sent
        (f.stdout ++ [percentage intSize i buffer.length])
      let start := i
      let stop := if i + f.payloadSize > buffer.length then buffer.length else i + f.payloadSize
      match write p fuel f1 (uint32 (offset + i)) ((buffer.take stop).drop start) with
      | (none, f2) => (none, f2)
      | (some (Res.error e), f2) => (some (Res.error e), f2)
      | (some (Res.ok _), f2) =>
        flashChunkWriteLoop intSize p fuel offset buffer n (i + f2.payloadSize) f2
    else (some (Res.ok ()), f)

/-- The second loop of `flashChunk` (winc.go lines 155 to 167), from index
`i` with `flashData` read so far. -/
def flashChunkReadLoop {σ : Type} (p : Port σ) (fuel offset : Nat) (buffer : List Nat) :
    Nat → Nat → List Nat → WincFlasher σ → Option (Res (List Nat)) × WincFlasher σ
  | 0, _, _, f => (none, f)
  | n + 1, i, flashData, f =>
    if i < buffer.length then
      let readLength :=
        if i + f.payloadSize > buffer.length then buffer.length % f.payloadSize
        else f.payloadSize
      match read p fuel f (uint32 (offset + i)) (uint32 readLength) with
      | (none, f2) => (none, f2)
      | (some (Res.error e), f2) => (some (Res.error e), f2)
      | (some (Res.ok data), f2) =>
        flashChunkReadLoop p fuel offset buffer n (i + f2.payloadSize) (flashData ++ data) f2
    else (some (Res.ok flashData), f)

/-- The method `flashChunk`.  `fuel` bounds each send loop and each of the
two chunk loops; `intSize` is the width of `int` of the build. -/
def flashChunk {σ : Type} (intSize : Nat) (p : Port σ) (fuel : Nat) (f : WincFlasher σ)
    (offset : Nat) (buffer : List Nat) : Option (Res Unit) × WincFlasher σ :=
  let bufferLength := buffer.length
  match erase p fuel f (uint32 offset) (uint32 bufferLength) with
  | (none, f1) => (none, f1)
  | (some (Res.error e), f1) => (some (Res.error e), f1)
  | (some (Res.ok _), f1) =>
    match flashChunkWriteLoop intSize p fuel offset buffer fuel 0 f1 with
    | (none, f2) => (none, f2)
    | (some (Res.error e), f2) => (some (Res.error e), f2)
    | (some (Res.ok _), f2) =>
      match flashChunkReadLoop p fuel offset buffer fuel 0 [] f2 with
      | (none, f3) => (none, f3)
      | (some (Res.error e), f3) => (some (Res.error e), f3)
      | (some (Res.ok flashData), f3) =>
        if buffer ≠ flashData then
          (some (Res.error (Error.plain "flash data does not match written")), f3)
        else (some (Res.ok ()), f3)

/-- The method `getMaximumPayloadSize`. -/
def getMaximumPayloadSize {σ : Type} (p : Port σ) (fuel : Nat) (f : WincFlasher σ) :
    Option (Res Nat) × WincFlasher σ :=
  match sendCommand p fuel f (CommandData.mk 0x50 0 0 none) with
  | (none, f1) => (none, f1)
  | (some (Res.error e), f1) => (some (Res.error e), f1)
  | (some (Res.ok _), f1) =>
    match serialFillBuffer p f1 (makeBytes 2) with
    | (Res.error e, f2) => (some (Res.error e), f2)
    | (Res.ok res, f2) =>
      (some (Res.ok (uint16 (uint16 (uint16 (res.getD 0 0) * 256) + uint16 (res.getD 1 0)))), f2)

/-- The function `NewWincFlasher` from the point where `openSerial` has
returned the port, in state `s`.  On rejection no flasher is returned, so
the result carries the flasher only on success; the second component is
the flasher the construction worked on, for what was sent meanwhile. -/
def NewWincFlasher {σ : Type} (p : Port σ) (fuel : Nat) (s : σ) :
    Option (Res (WincFlasher σ)) × WincFlasher σ :=
  let f := WincFlasher.mk s 0 [] []
  match getMaximumPayloadSize p fuel f with
  | (none, f1) => (none, f1)
  | (some (Res.error e), f1) => (some (Res.error e), f1)
  | (some (Res.ok payloadSize), f1) =>
    if payloadSize < 1024 then (some (Res.error (Error.payloadTooSmall payloadSize)), f1)
    else
      (some (Res.ok (WincFlasher.mk f1.port payloadSize f1.sent f1.stdout)),
        WincFlasher.mk f1.port payloadSize f1.sent f1.stdout)

/-- The method `hello`: send the HELLO frame, read once into a buffer of
65535 bytes, keep the last 6 of the `n` bytes read when `n >= 6`, and
compare with "v10000" (bytes 118, 49, 48, 48, 48, 48).  The pause of 100 ms
is left out. -/
def hello {σ : Type} (p : Port σ) (fuel : Nat) (f : WincFlasher σ) :
    Option (Res Unit) × WincFlasher σ :=
  match sendCommand p fuel f (CommandData.mk 0x99 0x11223344 0x55667788 none) with
  | (none, f1) => (none, f1)
  | (some (Res.error e), f1) => (some (Res.error e), f1)
  | (some (Res.ok _), f1) =>
    match portRead p f1.port 65535 with
    | (Res.error e, s2) => (some (Res.error e), f1.setPort s2)
    | (Res.ok bytes, s2) =>
      let n := bytes.length
      let res0 := fillAt (makeBytes 65535) 0 bytes
      let res := if n ≥ 6 then (res0.take n).drop (n - 6) else res0
      if res.getD 0 0 ≠ 118 then
        (some (Res.error (Error.flasher "Programmer is not responding" [])), f1.setPort s2)
      else if res ≠ [118, 49, 48, 48, 48, 48] then
        (some (Res.error (Error.flasher "Programmer version mismatch, v10000 needed: " res)),
          f1.setPort s2)
      else (some (Res.ok ()), f1.setPort s2)

/-! ## Devices behind the port -/

/-- A device that answers frames: `reply s frame` is the bytes it sends
back for `frame` in state `s`, and its next state. -/
structure Device (δ : Type) where
  reply : δ → List Nat → List Nat × δ

/-- The serial port of a device on a line that loses nothing: a write is
accepted in full and the device's answer joins the receive queue; a read
hands over the head of the queue, as many bytes as the buffer holds (none
when the queue is empty).  The port state is the device state and the
queue. -/
def devicePort {δ : Type} (d : Device δ) : Port (δ × List Nat) where
  Read s cap := (PortResult.ok (s.2.take cap), (s.1, s.2.drop cap))
  Write s data :=
    (PortResult.ok data.length, ((d.reply s.1 data).2, s.2 ++ (d.reply s.1 data).1))

/-- The device that answers the successive frames with the successive
entries of a script, whatever the frames are (nothing once the script is
used up). -/
def scriptDevice : Device (List (List Nat)) where
  reply s _ := (s.headD [], s.tail)

/-- A port whose successive reads return the successive entries of a
script, and no byte once the script is used up; it accepts every write. -/
def scriptedReads : Port (List (List Nat)) where
  Read s _ := (PortResult.ok (s.headD []), s.tail)
  Write s data := (PortResult.ok data.length, s)

/-! ## The wire format in the words of the specification -/

/-- The `n` bytes of `v` in big-endian order: the base-256 digits of `v`,
most significant first. -/
def specBigEndian (n v : Nat) : List Nat :=
  ((List.range n).map (fun k => v / 256 ^ k % 256)).reverse

/-- The number a byte sequence denotes in big-endian order. -/
def specBigEndianValue (bs : List Nat) : Nat :=
  bs.foldl (fun acc b => acc * 256 + b) 0

/-- The header fields read off the first 11 bytes of a frame: opcode (1
byte), address (4 bytes), value (4 bytes), payload length (2 bytes). -/
structure Header where
  opcode : Nat
  address : Nat
  value : Nat
  length : Nat
  deriving DecidableEq

/-- Parsing the first 11 bytes of a frame as opcode:1, address:4, value:4,
length:2, the integers big-endian. -/
def specParseHeader (frame : List Nat) : Header :=
  Header.mk (frame.getD 0 0) (specBigEndianValue ((frame.drop 1).take 4))
    (specBigEndianValue ((frame.drop 5).take 4)) (specBigEndianValue ((frame.drop 9).take 2))

/-- The payload bytes of a command, none when the payload is nil. -/
def payloadBytes (payload : Option (List Nat)) : List Nat :=
  match payload with
  | none => []
  | some bytes => bytes

/-! ## The chunk plan in the words of the specification -/

/-- The chunks of an image of length `L` for payload size `P`, as pairs of
offset and length: one chunk per offset `k * P < L`, reaching to
`min (k * P + P) L`. -/
def specChunkPlan (L P : Nat) : List (Nat × Nat) :=
  (List.range ((L + P - 1) / P)).map (fun k => (k * P, min (k * P + P) L - k * P))

/-- The erase frame for the range of `L` bytes at address `A`. -/
def specEraseFrame (A L : Nat) : List Nat :=
  sendCommandBuffer (CommandData.mk 0x03 A L none)

/-- The write frame for the chunk `c` of `image` based at address `A`. -/
def specWriteFrame (A : Nat) (image : List Nat) (c : Nat × Nat) : List Nat :=
  sendCommandBuffer (CommandData.mk 0x02 (A + c.1) 0 (some ((image.drop c.1).take c.2)))

/-- The read frame for the chunk `c` of an image based at address `A`. -/
def specReadFrame (A : Nat) (c : Nat × Nat) : List Nat :=
  sendCommandBuffer (CommandData.mk 0x01 (A + c.1) c.2 none)

/-! ## The fault-free device: a byte memory -/

/-- The memory with `bytes` stored from `address` on. -/
def store (m : Nat → Nat) (address : Nat) (bytes : List Nat) : Nat → Nat :=
  fun a => if address ≤ a ∧ a < address + bytes.length then bytes.getD (a - address) 0 else m a

/-- The `length` bytes of the memory from `address` on. -/
def load (m : Nat → Nat) (address length : Nat) : List Nat :=
  (List.range length).map (fun j => m (address + j))

/-- The fault-free device: a byte memory that answers "OK" to a write
frame after storing the payload (as many bytes as the header's length
field says) at the frame's address, answers "OK" to an erase frame (what
erasing does to the memory is the parameter `wipe`), and answers a read
frame with the stored bytes of the requested range followed by "OK". -/
def memDevice (wipe : (Nat → Nat) → Nat → Nat → (Nat → Nat)) : Device (Nat → Nat) where
  reply m frame :=
    if (specParseHeader frame).opcode = 0x02 then
      (ackOK, store m (specParseHeader frame).address
        ((frame.drop 11).take (specParseHeader frame).length))
    else if (specParseHeader frame).opcode = 0x03 then
      (ackOK, wipe m (specParseHeader frame).address (specParseHeader frame).value)
    else if (specParseHeader frame).opcode = 0x01 then
      (load m (specParseHeader frame).address (specParseHeader frame).value ++ ackOK, m)
    else ([], m)

/-! ## Transports that split reads and writes -/

/-- A port that delivers a byte stream in pieces: the state is the bytes
still to come and the sizes of the coming reads; a read hands over the next
bytes of the stream, at most the buffer's size and at most the next size
(all that fit once the sizes are used up), and none when the stream is
exhausted.  It accepts every write. -/
def streamPort : Port (List Nat × List Nat) where
  Read s cap :=
    (PortResult.ok (s.1.take (min cap (s.2.headD cap))),
      (s.1.drop (min cap (s.2.headD cap)), s.2.tail))
  Write s data := (PortResult.ok data.length, s)

/-- A port that accepts writes in pieces: the state is the counts the
coming writes will accept and the bytes accepted so far; a write accepts
the next count of the bytes offered (all of them when the count is larger
or the counts are used up).  Its reads return no byte. -/
def scriptedWrites : Port (List Nat × List Nat) where
  Read s _ := (PortResult.ok [], s)
  Write s data := (PortResult.ok (s.1.headD data.length),
    (s.1.tail, s.2 ++ data.take (s.1.headD data.length)))

/-- The scripted device that also keeps the frames it received: the state
is the script of answers and the frames received so far. -/
def recordingDevice : Device (List (List Nat) × List (List Nat)) where
  reply s frame := (s.1.headD [], (s.1.tail, s.2 ++ [frame]))

/-! ## Auxiliary notions of the proofs -/

/-- The chunks the loops of `flashChunk` go through from index `i` in at
most `n` iterations (a proof device: the loops unrolled). -/
def chunksFrom (L P : Nat) : Nat → Nat → List (Nat × Nat)
  | 0, _ => []
  | n + 1, i => if i < L then (i, min (i + P) L - i) :: chunksFrom L P n (i + P) else []

/-- The errors that come from an exchange with the port: every error but
an `errors.New` one. -/
def exchangeError (e : Error) : Prop := ∀ msg, e ≠ Error.plain msg

end Flasher

/-! # Firmware index (indexes/firmwareindex/firmwareindex.go) -/

namespace Firmwareindex

/-! The pointers of the index (`[]*IndexBoard`, `[]*IndexFirmware`,
`*IndexLoaderSketch`, `*IndexUploaderCommand`) are modelled by the values they
point to: an index is one whose slices and fields hold no nil pointer, as
`json.Unmarshal` yields for an array of objects that give every field.  Go
strings are `String`, compared by equality. -/

/-- An error made by `fmt.Errorf`: the format string and its arguments. -/
structure Error where
  format : String
  args : List String
  deriving DecidableEq

/-- The type `IndexUploaderCommand`. -/
structure IndexUploaderCommand where
  Linux : String
  Windows : String
  Macosx : String
  deriving DecidableEq

/-- The type `IndexFirmware`; `Size` is a `json.Number`, a string type. -/
structure IndexFirmware where
  Version : String
  URL : String
  Checksum : String
  Size : String
  Module : String
  deriving DecidableEq

/-- The type `IndexLoaderSketch`. -/
structure IndexLoaderSketch where
  URL : String
  Checksum : String
  Size : String
  deriving DecidableEq

/-- The type `IndexBoard`. -/
structure IndexBoard where
  Fqbn : String
  Firmwares : List IndexFirmware
  LoaderSketch : IndexLoaderSketch
  Module : String
  Name : String
  Uploader : String
  UploadTouch : Bool
  UploadWait : Bool
  UploaderCommand : IndexUploaderCommand
  deriving DecidableEq

/-- The type `Index`. -/
structure Index where
  Boards : List IndexBoard
  IsTrusted : Bool
  deriving DecidableEq

/-- The loop of `GetBoard` over the boards still to visit. -/
def getBoardLoop (fqbn : String) : List IndexBoard → Option IndexBoard
  | [] => none
  | b :: rest => if b.Fqbn = fqbn then some b else getBoardLoop fqbn rest

/-- The method `Index.GetBoard`; `none` is the nil pointer. -/
def GetBoard (i : Index) (fqbn : String) : Option IndexBoard :=
  getBoardLoop fqbn i.Boards

/-- The loop of `GetFirmwareURL` over the firmware entries still to visit,
with the return after the loop. -/
def getFirmwareURLLoop (version : String) : List IndexFirmware → Except Error String
  | [] => Except.error (Error.mk "invalid version: %s" [version])
  | firmware :: rest =>
    if firmware.Version = version then Except.ok firmware.URL
    else getFirmwareURLLoop version rest

/-- The method `Index.GetFirmwareURL`. -/
def GetFirmwareURL (i : Index) (fqbn version : String) : Except Error String :=
  match GetBoard i fqbn with
  | none => Except.error (Error.mk "invalid FQBN: %s" [fqbn])
  | some board => getFirmwareURLLoop version board.Firmwares

/-- The method `IndexBoard.GetUploaderCommand`; `GOOS` is the constant
`runtime.GOOS` of the running program. -/
def GetUploaderCommand (GOOS : String) (b : IndexBoard) : String :=
  if GOOS = "windows" ∧ b.UploaderCommand.Windows ≠ "" then
    b.UploaderCommand.Linux
  else if GOOS = "darwin" ∧ b.UploaderCommand.Macosx ≠ "" then
    b.UploaderCommand.Macosx
  else
    b.UploaderCommand.Linux

/-- A WINC1500 board with four firmware entries, two of them of the greatest
version under `natSemver`. -/
def exampleBoard : IndexBoard :=
  IndexBoard.mk "arduino:samd:mkr1000"
    [IndexFirmware.mk "1" "url-a" "" "0" "WINC1500",
      IndexFirmware.mk "333" "url-b" "" "0" "WINC1500",
      IndexFirmware.mk "22" "url-c" "" "0" "WINC1500",
      IndexFirmware.mk "444" "url-d" "" "0" "WINC1500"]
    (IndexLoaderSketch.mk "" "" "0") "WINC1500" "MKR1000" "bossac" true true
    (IndexUploaderCommand.mk "linux-command" "windows-command" "")

end Firmwareindex

namespace Flasher

variable (intSize : Nat)

/-! ## Lemmas on the wire format -/

theorem putUint32_eq_specBigEndian (v : Nat) : putUint32 v = specBigEndian 4 v := by
  simp [putUint32, specBigEndian, List.range_succ]

theorem putUint16_eq_specBigEndian (v : Nat) : putUint16 v = specBigEndian 2 v := by
  simp [putUint16, specBigEndian, List.range_succ]

theorem putUint32_uint32 (v : Nat) : putUint32 (uint32 v) = putUint32 v := by
  simp only [putUint32, uint32, List.cons.injEq, and_true]
  omega

theorem specBigEndianValue_putUint32 (v : Nat) (h : v < 4294967296) :
    specBigEndianValue (putUint32 v) = v := by
  simp only [putUint32, specBigEndianValue, List.foldl]
  omega

theorem specBigEndianValue_putUint16 (v : Nat) (h : v < 65536) :
    specBigEndianValue (putUint16 v) = v := by
  simp only [putUint16, specBigEndianValue, List.foldl]
  omega

theorem sendCommandBuffer_bytes (data : CommandData) :
    sendCommandBuffer data =
      data.Command % 256 :: (putUint32 data.Address ++ (putUint32 data.Value ++
        (putUint16 (uint16 (payloadBytes data.Payload).length) ++ payloadBytes data.Payload))) := by
  cases data with
  | mk c a v pl =>
    cases pl <;> simp [sendCommandBuffer, payloadBytes, uint16]

theorem sendCommandBuffer_uint32 (c a v : Nat) (pl : Option (List Nat)) :
    sendCommandBuffer (CommandData.mk c (uint32 a) (uint32 v) pl) =
      sendCommandBuffer (CommandData.mk c a v pl) := by
  simp [sendCommandBuffer_bytes, putUint32_uint32]

theorem sendCommandBuffer_length (data : CommandData) :
    (sendCommandBuffer data).length = 11 + (payloadBytes data.Payload).length := by
  simp [sendCommandBuffer_bytes, putUint32, putUint16]
  omega

theorem sendCommandBuffer_drop (data : CommandData) :
    (sendCommandBuffer data).drop 11 = payloadBytes data.Payload := by
  simp [sendCommandBuffer_bytes, putUint32, putUint16]

theorem specParseHeader_sendCommandBuffer (data : CommandData) :
    specParseHeader (sendCommandBuffer data) =
      Header.mk (data.Command % 256) (uint32 data.Address) (uint32 data.Value)
        (uint16 (payloadBytes data.Payload).length) := by
  rw [sendCommandBuffer_bytes]
  simp only [specParseHeader, putUint32, putUint16, uint16, uint32,
    specBigEndianValue, List.getD_cons_zero, List.drop_succ_cons, List.drop_zero,
    List.cons_append, List.nil_append, List.take_succ_cons, List.take_zero, List.foldl,
    Header.mk.injEq, true_and]
  omega

/-- The loop of `sendCommand` on a port that accepts the buffer at once. -/
theorem sendCommandLoop_accept {σ : Type} (p : Port σ) (fuel : Nat) (s s1 : σ)
    (bufferData : List Nat) (h : p.Write s bufferData = (PortResult.ok bufferData.length, s1)) :
    sendCommandLoop p (fuel + 1) s bufferData = (some (Res.ok ()), s1) := by
  simp [sendCommandLoop, portWrite, h]

theorem sendCommand_sent {σ : Type} (p : Port σ) (fuel : Nat) (f : WincFlasher σ)
    (data : CommandData) :
    (sendCommand p fuel f data).2.sent = f.sent ++ [sendCommandBuffer data] ∧
      (sendCommand p fuel f data).2.payloadSize = f.payloadSize ∧
      (sendCommand p fuel f data).2.stdout = f.stdout := by
  simp [sendCommand]

theorem sendCommand_devicePort {δ : Type} (d : Device δ) (fuel : Nat)
    (f : WincFlasher (δ × List Nat)) (data : CommandData) :
    sendCommand (devicePort d) (fuel + 1) f data =
      (some (Res.ok ()),
        WincFlasher.mk ((d.reply f.port.1 (sendCommandBuffer data)).2,
            f.port.2 ++ (d.reply f.port.1 (sendCommandBuffer data)).1)
          f.payloadSize (f.sent ++ [sendCommandBuffer data]) f.stdout) := by
  simp [sendCommand, sendCommandLoop, portWrite, devicePort]

theorem parse_long_payload (payload : List Nat) (h : payload.length = 65536) :
    (specParseHeader (sendCommandBuffer (CommandData.mk 2 0 0 (some payload)))).length = 0 ∧
      ((sendCommandBuffer (CommandData.mk 2 0 0 (some payload))).drop 11).length = 65536 := by
  rw [specParseHeader_sendCommandBuffer, sendCommandBuffer_drop]
  simp [payloadBytes, uint16, h]

/-! ## Lemmas on `serialFillBuffer` -/

theorem portRead_length {σ : Type} (p : Port σ) (s s1 : σ) (cap : Nat) (bytes : List Nat)
    (h : portRead p s cap = (Res.ok bytes, s1)) : bytes.length ≤ cap := by
  unfold portRead at h
  rcases hr : p.Read s cap with ⟨r, s2⟩
  rw [hr] at h
  cases r with
  | ok b =>
    simp only [Prod.mk.injEq, Res.ok.injEq] at h
    rw [← h.1, List.length_take]
    exact Nat.min_le_left _ _
  | error msg => simp at h

theorem fillAt_length (buffer bytes : List Nat) (read : Nat)
    (h : read + bytes.length ≤ buffer.length) :
    (fillAt buffer read bytes).length = buffer.length := by
  simp only [fillAt, List.length_append, List.length_take, List.length_drop]
  omega

theorem fillAt_take (buffer bytes : List Nat) (read : Nat) (h : read ≤ buffer.length) :
    (fillAt buffer read bytes).take (read + bytes.length) = buffer.take read ++ bytes := by
  unfold fillAt
  apply List.take_left'
  simp only [List.length_append, List.length_take]
  omega

theorem serialFillBufferLoop_length {σ : Type} (p : Port σ) (k : Nat) :
    ∀ (s s1 : σ) (read : Nat) (buffer out : List Nat),
      serialFillBufferLoop p k s read buffer = (Res.ok out, s1) → out.length = buffer.length := by
  induction k with
  | zero =>
    intro s s1 read buffer out h
    simp only [serialFillBufferLoop, Prod.mk.injEq, Res.ok.injEq] at h
    rw [h.1]
  | succ k ih =>
    intro s s1 read buffer out h
    unfold serialFillBufferLoop at h
    by_cases hlt : read < buffer.length
    · rw [if_pos hlt] at h
      rcases hr : portRead p s (buffer.length - read) with ⟨r, s2⟩
      rw [hr] at h
      cases r with
      | error e => simp at h
      | ok bytes =>
        have hle := portRead_length p s s2 _ bytes hr
        by_cases hz : bytes.length = 0
        · simp [hz] at h
        · simp only [hz, if_false] at h
          rw [ih _ _ _ _ _ h]
          exact fillAt_length _ _ _ (by omega)
    · rw [if_neg hlt] at h
      simp only [Prod.mk.injEq, Res.ok.injEq] at h
      rw [h.1]

/-- The iteration count of the loop of `serialFillBuffer` is never used
up: any two counts of at least the space left give the same run. -/
theorem serialFillBufferLoop_count {σ : Type} (p : Port σ) (k : Nat) :
    ∀ (k1 : Nat) (s : σ) (read : Nat) (buffer : List Nat),
      buffer.length - read ≤ k → buffer.length - read ≤ k1 →
      serialFillBufferLoop p k s read buffer = serialFillBufferLoop p k1 s read buffer := by
  induction k with
  | zero =>
    intro k1 s read buffer hk _
    cases k1 with
    | zero => rfl
    | succ k1 =>
      unfold serialFillBufferLoop
      rw [if_neg (by omega)]
  | succ k ih =>
    intro k1 s read buffer hk hk1
    cases k1 with
    | zero =>
      unfold serialFillBufferLoop
      rw [if_neg (by omega)]
    | succ k1 =>
      unfold serialFillBufferLoop
      by_cases hlt : read < buffer.length
      · rw [if_pos hlt, if_pos hlt]
        rcases hr : portRead p s (buffer.length - read) with ⟨r, s1⟩
        cases r with
        | error e => rfl
        | ok bytes =>
          have hle := portRead_length p s s1 _ bytes hr
          dsimp only
          by_cases hz : bytes.length = 0
          · rw [if_pos hz, if_pos hz]
          · rw [if_neg hz, if_neg hz]
            have hfl : (fillAt buffer read bytes).length = buffer.length :=
              fillAt_length _ _ _ (by omega)
            exact ih k1 s1 _ _ (by rw [hfl]; omega) (by rw [hfl]; omega)
      · rw [if_neg hlt, if_neg hlt]

/-- A success of `serialFillBuffer` returns a buffer of the requested
length; port aside, the flasher is unchanged. -/
theorem serialFillBuffer_length {σ : Type} (p : Port σ) (f f1 : WincFlasher σ)
    (buffer out : List Nat) (h : serialFillBuffer p f buffer = (Res.ok out, f1)) :
    out.length = buffer.length := by
  unfold serialFillBuffer at h
  rcases hr : serialFillBufferLoop p buffer.length f.port 0 buffer with ⟨r, s1⟩
  rw [hr] at h
  simp only [Prod.mk.injEq] at h
  rw [h.1] at hr
  exact serialFillBufferLoop_length p _ _ _ _ _ _ hr

theorem serialFillBuffer_fields {σ : Type} (p : Port σ) (f : WincFlasher σ)
    (buffer : List Nat) :
    (serialFillBuffer p f buffer).2.sent = f.sent ∧
      (serialFillBuffer p f buffer).2.payloadSize = f.payloadSize ∧
      (serialFillBuffer p f buffer).2.stdout = f.stdout := by
  simp [serialFillBuffer, WincFlasher.setPort]

/-- The loop of `serialFillBuffer` when the scripted reads `cs`, none of
them empty, add up to the space left. -/
theorem serialFillBufferLoop_scripted_full (rest : List (List Nat)) (cs : List (List Nat)) :
    ∀ (k read : Nat) (buffer : List Nat), (∀ c ∈ cs, c ≠ []) →
      read + cs.flatten.length = buffer.length → buffer.length - read ≤ k →
      serialFillBufferLoop scriptedReads k (cs ++ rest) read buffer =
        (Res.ok (buffer.take read ++ cs.flatten), rest) := by
  induction cs with
  | nil =>
    intro k read buffer _ hsum _
    simp only [List.flatten_nil, List.length_nil, Nat.add_zero] at hsum
    cases k with
    | zero => simp [serialFillBufferLoop, hsum]
    | succ k => simp [serialFillBufferLoop, hsum]
  | cons c cs ih =>
    intro k read buffer hne hsum hk
    have hc : c ≠ [] := hne c (List.mem_cons_self _ _)
    have hcl : 0 < c.length := List.length_pos.mpr hc
    simp only [List.flatten_cons, List.length_append] at hsum
    cases k with
    | zero => omega
    | succ k =>
      have hlt : read < buffer.length := by omega
      have htake : List.take (buffer.length - read) c = c :=
        List.take_of_length_le (by omega)
      have hz : ¬ c.length = 0 := by omega
      simp only [serialFillBufferLoop, hlt, if_true, portRead, scriptedReads, List.cons_append,
        List.headD_cons, List.tail_cons, htake, hz, if_false]
      have hfl : (fillAt buffer read c).length = buffer.length :=
        fillAt_length _ _ _ (by omega)
      have h := ih k (read + c.length) (fillAt buffer read c)
        (fun x hx => hne x (List.mem_cons_of_mem _ hx)) (by rw [hfl]; omega) (by rw [hfl]; omega)
      have hsc : scriptedReads = (Port.mk (fun s _ => (PortResult.ok (s.headD []), s.tail))
          (fun s data => (PortResult.ok data.length, s)) : Port (List (List Nat))) := rfl
      rw [← hsc, h, fillAt_take _ _ _ (by omega)]
      simp

/-- The loop of `serialFillBuffer` when the scripted reads `cs`, none of
them empty, add up to less than the space left and the next read returns
no byte. -/
theorem serialFillBufferLoop_scripted_closed (tl : List (List Nat)) (htl : tl.headD [] = [])
    (cs : List (List Nat)) :
    ∀ (k read : Nat) (buffer : List Nat), (∀ c ∈ cs, c ≠ []) →
      read + cs.flatten.length < buffer.length → buffer.length - read ≤ k →
      serialFillBufferLoop scriptedReads k (cs ++ tl) read buffer =
        (Res.error (Error.flasher "Serial port closed unexpectedly" []), tl.tail) := by
  induction cs with
  | nil =>
    intro k read buffer _ hsum hk
    simp only [List.flatten_nil, List.length_nil, Nat.add_zero] at hsum
    cases k with
    | zero => omega
    | succ k =>
      have htl1 : tl.head?.getD [] = [] := by simpa using htl
      simp [serialFillBufferLoop, hsum, portRead, scriptedReads, htl1]
  | cons c cs ih =>
    intro k read buffer hne hsum hk
    have hc : c ≠ [] := hne c (List.mem_cons_self _ _)
    have hcl : 0 < c.length := List.length_pos.mpr hc
    simp only [List.flatten_cons, List.length_append] at hsum
    cases k with
    | zero => omega
    | succ k =>
      have hlt : read < buffer.length := by omega
      have htake : List.take (buffer.length - read) c = c :=
        List.take_of_length_le (by omega)
      have hz : ¬ c.length = 0 := by omega
      simp only [serialFillBufferLoop, hlt, if_true, portRead, scriptedReads, List.cons_append,
        List.headD_cons, List.tail_cons, htake, hz, if_false]
      have hfl : (fillAt buffer read c).length = buffer.length :=
        fillAt_length _ _ _ (by omega)
      have h := ih k (read + c.length) (fillAt buffer read c)
        (fun x hx => hne x (List.mem_cons_of_mem _ hx)) (by rw [hfl]; omega) (by rw [hfl]; omega)
      have hsc : scriptedReads = (Port.mk (fun s _ => (PortResult.ok (s.headD []), s.tail))
          (fun s data => (PortResult.ok data.length, s)) : Port (List (List Nat))) := rfl
      rw [← hsc, h]

/-! ## Lemmas on the chunk plan -/

theorem lt_chunks_iff (L P k : Nat) (hP : 0 < P) : k < (L + P - 1) / P ↔ k * P < L := by
  rw [Nat.lt_iff_add_one_le, Nat.le_div_iff_mul_le hP, Nat.add_mul]
  omega

theorem chunksFrom_range (L P : Nat) (hP : 0 < P) :
    ∀ (n j : Nat), (L + P - 1) / P - j ≤ n →
      chunksFrom L P n (j * P) =
        (List.range' j ((L + P - 1) / P - j)).map
          (fun k => (k * P, min (k * P + P) L - k * P)) := by
  intro n
  induction n with
  | zero =>
    intro j hj
    have : (L + P - 1) / P - j = 0 := by omega
    simp [chunksFrom, this]
  | succ n ih =>
    intro j hj
    unfold chunksFrom
    by_cases hlt : j * P < L
    · have hk : j < (L + P - 1) / P := (lt_chunks_iff L P j hP).mpr hlt
      have hs : (L + P - 1) / P - j = ((L + P - 1) / P - (j + 1)) + 1 := by omega
      rw [if_pos hlt, hs, List.range'_succ, List.map_cons]
      have hstep : j * P + P = (j + 1) * P := by rw [Nat.add_mul, Nat.one_mul]
      rw [hstep, ih (j + 1) (by omega)]
    · have hk : ¬ j < (L + P - 1) / P := fun h => hlt ((lt_chunks_iff L P j hP).mp h)
      have : (L + P - 1) / P - j = 0 := by omega
      rw [if_neg hlt, this]
      simp

theorem chunksFrom_eq_specChunkPlan (L P n : Nat) (hP : 0 < P) (hn : (L + P - 1) / P ≤ n) :
    chunksFrom L P n 0 = specChunkPlan L P := by
  have h := chunksFrom_range L P hP n 0 (by omega)
  simp only [Nat.zero_mul, Nat.sub_zero] at h
  rw [h, specChunkPlan, List.range_eq_range']

theorem chunks_le (L P : Nat) (hP : 0 < P) : (L + P - 1) / P ≤ L := by
  rcases Nat.eq_zero_or_pos L with h | h
  · subst h
    have h0 : (0 + P - 1) / P = 0 := Nat.div_eq_of_lt (by omega)
    omega
  · apply Nat.le_of_lt_succ
    rw [Nat.div_lt_iff_lt_mul hP]
    calc L + P - 1 < L + P := by omega
      _ ≤ L + P + L * (P - 1) := Nat.le_add_right _ _
      _ = (L + 1) * P := by
        rcases P with _ | P
        · omega
        · simp only [Nat.add_sub_cancel]
          ring

/-! ## Lemmas on the operations, for every port -/

theorem write_fields {σ : Type} (p : Port σ) (fuel : Nat) (f : WincFlasher σ) (address : Nat)
    (buffer : List Nat) :
    (write p fuel f address buffer).2.sent =
        f.sent ++ [sendCommandBuffer (CommandData.mk 0x02 address 0 (some buffer))] ∧
      (write p fuel f address buffer).2.payloadSize = f.payloadSize ∧
      (write p fuel f address buffer).2.stdout = f.stdout := by
  unfold write
  have hs := sendCommand_sent p fuel f (CommandData.mk 0x02 address 0 (some buffer))
  rcases hsend : sendCommand p fuel f (CommandData.mk 0x02 address 0 (some buffer)) with ⟨r, f1⟩
  rw [hsend] at hs
  rcases r with _ | r
  · exact hs
  · cases r with
    | error e => exact hs
    | ok u =>
      dsimp only
      have hf := serialFillBuffer_fields p f1 (makeBytes 2)
      rcases hfill : serialFillBuffer p f1 (makeBytes 2) with ⟨r2, f2⟩
      rw [hfill] at hf
      simp only at hs hf
      cases r2 with
      | error e => simp only [hf, hs, and_self]
      | ok ack =>
        by_cases hack : ack ≠ ackOK
        · dsimp only
          rw [if_pos hack]
          simp only [hf, hs, and_self]
        · dsimp only
          rw [if_neg hack]
          simp only [hf, hs, and_self]

theorem erase_fields {σ : Type} (p : Port σ) (fuel : Nat) (f : WincFlasher σ)
    (address length : Nat) :
    (erase p fuel f address length).2.sent =
        f.sent ++ [sendCommandBuffer (CommandData.mk 0x03 address length none)] ∧
      (erase p fuel f address length).2.payloadSize = f.payloadSize ∧
      (erase p fuel f address length).2.stdout = f.stdout := by
  unfold erase
  have hs := sendCommand_sent p fuel f (CommandData.mk 0x03 address length none)
  rcases hsend : sendCommand p fuel f (CommandData.mk 0x03 address length none) with ⟨r, f1⟩
  rw [hsend] at hs
  rcases r with _ | r
  · exact hs
  · cases r with
    | error e => exact hs
    | ok u =>
      dsimp only
      have hf := serialFillBuffer_fields p f1 (makeBytes 2)
      rcases hfill : serialFillBuffer p f1 (makeBytes 2) with ⟨r2, f2⟩
      rw [hfill] at hf
      simp only at hs hf
      cases r2 with
      | error e => simp only [hf, hs, and_self]
      | ok ack =>
        by_cases hack : ack ≠ ackOK
        · dsimp only
          rw [if_pos hack]
          simp only [hf, hs, and_self]
        · dsimp only
          rw [if_neg hack]
          simp only [hf, hs, and_self]

theorem read_fields {σ : Type} (p : Port σ) (fuel : Nat) (f : WincFlasher σ)
    (address length : Nat) :
    (read p fuel f address length).2.sent =
        f.sent ++ [sendCommandBuffer (CommandData.mk 0x01 address length none)] ∧
      (read p fuel f address length).2.payloadSize = f.payloadSize ∧
      (read p fuel f address length).2.stdout = f.stdout := by
  unfold read
  have hs := sendCommand_sent p fuel f (CommandData.mk 0x01 address length none)
  rcases hsend : sendCommand p fuel f (CommandData.mk 0x01 address length none) with ⟨r, f1⟩
  rw [hsend] at hs
  rcases r with _ | r
  · exact hs
  · cases r with
    | error e => exact hs
    | ok u =>
      dsimp only
      have hf := serialFillBuffer_fields p f1 (makeBytes length)
      rcases hfill : serialFillBuffer p f1 (makeBytes length) with ⟨r2, f2⟩
      rw [hfill] at hf
      simp only at hs hf
      cases r2 with
      | error e => simp only [hf, hs, and_self]
      | ok result =>
        dsimp only
        have hf3 := serialFillBuffer_fields p f2 (makeBytes 2)
        rcases hfill3 : serialFillBuffer p f2 (makeBytes 2) with ⟨r3, f3⟩
        rw [hfill3] at hf3
        simp only at hf3
        cases r3 with
        | error e => simp only [hf3, hf, hs, and_self]
        | ok ack =>
          by_cases hack : ack ≠ ackOK
          · dsimp only
            rw [if_pos hack]
            simp only [hf3, hf, hs, and_self]
          · dsimp only
            rw [if_neg hack]
            simp only [hf3, hf, hs, and_self]

/-! ## Lemmas on the loops of `flashChunk`, for every port -/

theorem writeLoop_frame (A i P : Nat) (image : List Nat) :
    sendCommandBuffer (CommandData.mk 0x02 (uint32 (A + i)) 0
        (some ((image.take (if i + P > image.length then image.length else i + P)).drop i))) =
      specWriteFrame A image (i, min (i + P) image.length - i) := by
  have h0 : (0 : Nat) = uint32 0 := rfl
  have hstop : (if i + P > image.length then image.length else i + P) =
      min (i + P) image.length := by
    by_cases h : i + P > image.length
    · rw [if_pos h]; omega
    · rw [if_neg h]; omega
  unfold specWriteFrame
  rw [hstop, List.drop_take]
  conv_lhs => rw [h0, sendCommandBuffer_uint32]

theorem readLength_eq (L P i : Nat) (hdvd : P ∣ i) (hlt : i < L) :
    (if i + P > L then L % P else P) = min (i + P) L - i := by
  by_cases h : i + P > L
  · rw [if_pos h]
    obtain ⟨q, rfl⟩ := hdvd
    have hL : L = (L - P * q) + P * q := by omega
    have hr : L - P * q < P := by omega
    rw [Nat.min_eq_right (by omega)]
    conv_lhs => rw [hL, Nat.add_mul_mod_self_left, Nat.mod_eq_of_lt hr]
  · rw [if_neg h]
    omega

theorem readLoop_frame (A i P L : Nat) (hdvd : P ∣ i) (hlt : i < L) :
    sendCommandBuffer (CommandData.mk 0x01 (uint32 (A + i))
        (uint32 (if i + P > L then L % P else P)) none) =
      specReadFrame A (i, min (i + P) L - i) := by
  rw [sendCommandBuffer_uint32, readLength_eq L P i hdvd hlt]
  rfl

theorem flashChunkWriteLoop_sent {σ : Type} (p : Port σ) (fuel A : Nat) (image : List Nat) :
    ∀ (n i : Nat) (f : WincFlasher σ),
      (flashChunkWriteLoop intSize p fuel A image n i f).2.payloadSize = f.payloadSize ∧
      (∃ m, (flashChunkWriteLoop intSize p fuel A image n i f).2.sent =
        f.sent ++ ((chunksFrom image.length f.payloadSize n i).take m).map
          (specWriteFrame A image)) ∧
      ((flashChunkWriteLoop intSize p fuel A image n i f).1 = some (Res.ok ()) →
        (flashChunkWriteLoop intSize p fuel A image n i f).2.sent =
            f.sent ++ (chunksFrom image.length f.payloadSize n i).map (specWriteFrame A image) ∧
          ∀ k, chunksFrom image.length f.payloadSize (n + k) i =
            chunksFrom image.length f.payloadSize n i) := by
  intro n
  induction n with
  | zero =>
    intro i f
    refine ⟨rfl, ⟨0, by simp [flashChunkWriteLoop]⟩, ?_⟩
    intro h
    simp [flashChunkWriteLoop] at h
  | succ n ih =>
    intro i f
    unfold flashChunkWriteLoop
    by_cases hlt : i < image.length
    · rw [if_pos hlt]
      dsimp only
      have hw := write_fields p fuel
        (WincFlasher.mk f.port f.payloadSize f.sent
          (f.stdout ++ [percentage intSize i image.length]))
        (uint32 (A + i))
        ((image.take (if i + f.payloadSize > image.length then image.length
          else i + f.payloadSize)).drop i)
      rw [writeLoop_frame] at hw
      rcases hwr : write p fuel
        (WincFlasher.mk f.port f.payloadSize f.sent
          (f.stdout ++ [percentage intSize i image.length]))
        (uint32 (A + i))
        ((image.take (if i + f.payloadSize > image.length then image.length
          else i + f.payloadSize)).drop i) with ⟨r, f2⟩
      rw [hwr] at hw
      dsimp only at hw
      have hcf : ∀ m, chunksFrom image.length f.payloadSize (m + 1) i =
          (i, min (i + f.payloadSize) image.length - i) ::
            chunksFrom image.length f.payloadSize m (i + f.payloadSize) := by
        intro m
        simp [chunksFrom, hlt]
      rcases r with _ | r
      · dsimp only
        refine ⟨hw.2.1, ⟨1, ?_⟩, ?_⟩
        · rw [hw.1, hcf]
          simp
        · intro h
          simp at h
      · cases r with
        | error e =>
          dsimp only
          refine ⟨hw.2.1, ⟨1, ?_⟩, ?_⟩
          · rw [hw.1, hcf]
            simp
          · intro h
            simp at h
        | ok u =>
          dsimp only
          have h := ih (i + f2.payloadSize) f2
          rw [hw.2.1] at h
          rw [hw.2.1]
          obtain ⟨hp, ⟨m, hm⟩, hok⟩ := h
          refine ⟨hp, ⟨m + 1, ?_⟩, ?_⟩
          · rw [hm, hw.1, hcf]
            simp
          · intro hres
            obtain ⟨hs, hstab⟩ := hok hres
            refine ⟨?_, ?_⟩
            · rw [hs, hw.1, hcf]
              simp
            · intro k
              have hk : n + 1 + k = (n + k) + 1 := by omega
              rw [hk, hcf, hcf, hstab]
    · rw [if_neg hlt]
      have hcf : ∀ m, chunksFrom image.length f.payloadSize (m + 1) i = [] := by
        intro m
        simp [chunksFrom, hlt]
      refine ⟨rfl, ⟨0, by simp⟩, ?_⟩
      intro _
      refine ⟨by simp [hcf], ?_⟩
      intro k
      have hk : n + 1 + k = (n + k) + 1 := by omega
      rw [hk, hcf, hcf]

theorem flashChunkReadLoop_sent {σ : Type} (p : Port σ) (fuel A : Nat) (image : List Nat) :
    ∀ (n i : Nat) (flashData : List Nat) (f : WincFlasher σ), f.payloadSize ∣ i →
      (flashChunkReadLoop p fuel A image n i flashData f).2.payloadSize = f.payloadSize ∧
      (∃ m, (flashChunkReadLoop p fuel A image n i flashData f).2.sent =
        f.sent ++ ((chunksFrom image.length f.payloadSize n i).take m).map (specReadFrame A)) ∧
      (∀ data, (flashChunkReadLoop p fuel A image n i flashData f).1 = some (Res.ok data) →
        (flashChunkReadLoop p fuel A image n i flashData f).2.sent =
            f.sent ++ (chunksFrom image.length f.payloadSize n i).map (specReadFrame A) ∧
          ∀ k, chunksFrom image.length f.payloadSize (n + k) i =
            chunksFrom image.length f.payloadSize n i) := by
  intro n
  induction n with
  | zero =>
    intro i flashData f _
    refine ⟨rfl, ⟨0, by simp [flashChunkReadLoop]⟩, ?_⟩
    intro data h
    simp [flashChunkReadLoop] at h
  | succ n ih =>
    intro i flashData f hdvd
    unfold flashChunkReadLoop
    by_cases hlt : i < image.length
    · rw [if_pos hlt]
      dsimp only
      have hw := read_fields p fuel f (uint32 (A + i))
        (uint32 (if i + f.payloadSize > image.length then image.length % f.payloadSize
          else f.payloadSize))
      rw [readLoop_frame A i f.payloadSize image.length hdvd hlt] at hw
      rcases hwr : read p fuel f (uint32 (A + i))
        (uint32 (if i + f.payloadSize > image.length then image.length % f.payloadSize
          else f.payloadSize)) with ⟨r, f2⟩
      rw [hwr] at hw
      dsimp only at hw
      have hcf : ∀ m, chunksFrom image.length f.payloadSize (m + 1) i =
          (i, min (i + f.payloadSize) image.length - i) ::
            chunksFrom image.length f.payloadSize m (i + f.payloadSize) := by
        intro m
        simp [chunksFrom, hlt]
      rcases r with _ | r
      · dsimp only
        refine ⟨hw.2.1, ⟨1, ?_⟩, ?_⟩
        · rw [hw.1, hcf]
          simp
        · intro data h
          simp at h
      · cases r with
        | error e =>
          dsimp only
          refine ⟨hw.2.1, ⟨1, ?_⟩, ?_⟩
          · rw [hw.1, hcf]
            simp
          · intro data h
            simp at h
        | ok d =>
          dsimp only
          have h := ih (i + f2.payloadSize) (flashData ++ d) f2
            (by rw [hw.2.1]; exact Dvd.dvd.add hdvd (dvd_refl _))
          rw [hw.2.1] at h
          rw [hw.2.1]
          obtain ⟨hp, ⟨m, hm⟩, hok⟩ := h
          refine ⟨hp, ⟨m + 1, ?_⟩, ?_⟩
          · rw [hm, hw.1, hcf]
            simp
          · intro data hres
            obtain ⟨hs, hstab⟩ := hok data hres
            refine ⟨?_, ?_⟩
            · rw [hs, hw.1, hcf]
              simp
            · intro k
              have hk : n + 1 + k = (n + k) + 1 := by omega
              rw [hk, hcf, hcf, hstab]
    · rw [if_neg hlt]
      have hcf : ∀ m, chunksFrom image.length f.payloadSize (m + 1) i = [] := by
        intro m
        simp [chunksFrom, hlt]
      refine ⟨rfl, ⟨0, by simp⟩, ?_⟩
      intro _ _
      refine ⟨by simp [hcf], ?_⟩
      intro k
      have hk : n + 1 + k = (n + k) + 1 := by omega
      rw [hk, hcf, hcf]

/-! ## The errors of the exchanges -/

theorem sendCommand_error {σ : Type} (p : Port σ) (fuel : Nat) (f : WincFlasher σ)
    (data : CommandData) (e : Error) (h : (sendCommand p fuel f data).1 = some (Res.error e)) :
    exchangeError e := by
  have hloop : ∀ (n : Nat) (s : σ) (b : List Nat),
      (sendCommandLoop p n s b).1 = some (Res.error e) → exchangeError e := by
    intro n
    induction n with
    | zero =>
      intro s b h
      simp [sendCommandLoop] at h
    | succ n ih =>
      intro s b h
      unfold sendCommandLoop portWrite at h
      rcases hw : p.Write s b with ⟨r, s1⟩
      rw [hw] at h
      cases r with
      | error msg =>
        simp only [Option.some.injEq, Res.error.injEq] at h
        intro m
        rw [← h]
        simp
      | ok sent =>
        dsimp only at h
        by_cases hs : min sent b.length = b.length
        · rw [if_pos hs] at h
          simp at h
        · rw [if_neg hs] at h
          exact ih _ _ h
  unfold sendCommand at h
  exact hloop _ _ _ h

theorem serialFillBuffer_error {σ : Type} (p : Port σ) (f : WincFlasher σ) (buffer : List Nat)
    (e : Error) (h : (serialFillBuffer p f buffer).1 = Res.error e) : exchangeError e := by
  have hloop : ∀ (k : Nat) (s : σ) (read : Nat) (b : List Nat),
      (serialFillBufferLoop p k s read b).1 = Res.error e → exchangeError e := by
    intro k
    induction k with
    | zero =>
      intro s read b h
      simp [serialFillBufferLoop] at h
    | succ k ih =>
      intro s read b h
      unfold serialFillBufferLoop portRead at h
      by_cases hlt : read < b.length
      · rw [if_pos hlt] at h
        rcases hr : p.Read s (b.length - read) with ⟨r, s1⟩
        rw [hr] at h
        cases r with
        | error msg =>
          simp only [Res.error.injEq] at h
          intro m
          rw [← h]
          simp
        | ok bytes =>
          dsimp only at h
          by_cases hz : (List.take (b.length - read) bytes).length = 0
          · rw [if_pos hz] at h
            simp only [Res.error.injEq] at h
            intro m
            rw [← h]
            simp
          · rw [if_neg hz] at h
            exact ih _ _ _ h
      · rw [if_neg hlt] at h
        simp at h
  unfold serialFillBuffer at h
  exact hloop _ _ _ _ h

theorem write_error {σ : Type} (p : Port σ) (fuel : Nat) (f : WincFlasher σ) (address : Nat)
    (buffer : List Nat) (e : Error)
    (h : (write p fuel f address buffer).1 = some (Res.error e)) : exchangeError e := by
  unfold write at h
  have hs := sendCommand_error p fuel f (CommandData.mk 0x02 address 0 (some buffer)) e
  rcases hsend : sendCommand p fuel f (CommandData.mk 0x02 address 0 (some buffer)) with ⟨r, f1⟩
  rw [hsend] at h hs
  rcases r with _ | r
  · simp at h
  · cases r with
    | error e1 => exact hs h
    | ok u =>
      dsimp only at h
      have hf := serialFillBuffer_error p f1 (makeBytes 2) e
      rcases hfill : serialFillBuffer p f1 (makeBytes 2) with ⟨r2, f2⟩
      rw [hfill] at h hf
      cases r2 with
      | error e2 =>
        simp only [Option.some.injEq, Res.error.injEq] at h
        apply hf
        simp [h]
      | ok ack =>
        dsimp only at h
        by_cases hack : ack ≠ ackOK
        · rw [if_pos hack] at h
          simp only [Option.some.injEq, Res.error.injEq] at h
          intro m
          rw [← h]
          simp
        · rw [if_neg hack] at h
          simp at h

theorem erase_error {σ : Type} (p : Port σ) (fuel : Nat) (f : WincFlasher σ)
    (address length : Nat) (e : Error)
    (h : (erase p fuel f address length).1 = some (Res.error e)) : exchangeError e := by
  unfold erase at h
  have hs := sendCommand_error p fuel f (CommandData.mk 0x03 address length none) e
  rcases hsend : sendCommand p fuel f (CommandData.mk 0x03 address length none) with ⟨r, f1⟩
  rw [hsend] at h hs
  rcases r with _ | r
  · simp at h
  · cases r with
    | error e1 => exact hs h
    | ok u =>
      dsimp only at h
      have hf := serialFillBuffer_error p f1 (makeBytes 2) e
      rcases hfill : serialFillBuffer p f1 (makeBytes 2) with ⟨r2, f2⟩
      rw [hfill] at h hf
      cases r2 with
      | error e2 =>
        simp only [Option.some.injEq, Res.error.injEq] at h
        apply hf
        simp [h]
      | ok ack =>
        dsimp only at h
        by_cases hack : ack ≠ ackOK
        · rw [if_pos hack] at h
          simp only [Option.some.injEq, Res.error.injEq] at h
          intro m
          rw [← h]
          simp
        · rw [if_neg hack] at h
          simp at h

theorem read_error {σ : Type} (p : Port σ) (fuel : Nat) (f : WincFlasher σ)
    (address length : Nat) (e : Error)
    (h : (read p fuel f address length).1 = some (Res.error e)) : exchangeError e := by
  unfold read at h
  have hs := sendCommand_error p fuel f (CommandData.mk 0x01 address length none) e
  rcases hsend : sendCommand p fuel f (CommandData.mk 0x01 address length none) with ⟨r, f1⟩
  rw [hsend] at h hs
  rcases r with _ | r
  · simp at h
  · cases r with
    | error e1 =>
      dsimp only at h
      simp only [Option.some.injEq, Res.error.injEq] at h
      exact hs (by rw [h])
    | ok u =>
      dsimp only at h
      have hf := serialFillBuffer_error p f1 (makeBytes length) e
      rcases hfill : serialFillBuffer p f1 (makeBytes length) with ⟨r2, f2⟩
      rw [hfill] at h hf
      cases r2 with
      | error e2 =>
        simp only [Option.some.injEq, Res.error.injEq] at h
        apply hf
        simp [h]
      | ok result =>
        dsimp only at h
        have hf3 := serialFillBuffer_error p f2 (makeBytes 2) e
        rcases hfill3 : serialFillBuffer p f2 (makeBytes 2) with ⟨r3, f3⟩
        rw [hfill3] at h hf3
        cases r3 with
        | error e3 =>
          simp only [Option.some.injEq, Res.error.injEq] at h
          apply hf3
          simp [h]
        | ok ack =>
          dsimp only at h
          by_cases hack : ack ≠ ackOK
          · rw [if_pos hack] at h
            simp only [Option.some.injEq, Res.error.injEq] at h
            intro m
            rw [← h]
            simp
          · rw [if_neg hack] at h
            simp at h

theorem flashChunkWriteLoop_error {σ : Type} (p : Port σ) (fuel A : Nat) (image : List Nat)
    (e : Error) :
    ∀ (n i : Nat) (f : WincFlasher σ),
      (flashChunkWriteLoop intSize p fuel A image n i f).1 = some (Res.error e) → exchangeError e := by
  intro n
  induction n with
  | zero =>
    intro i f h
    simp [flashChunkWriteLoop] at h
  | succ n ih =>
    intro i f h
    unfold flashChunkWriteLoop at h
    by_cases hlt : i < image.length
    · rw [if_pos hlt] at h
      dsimp only at h
      have hw := write_error p fuel
        (WincFlasher.mk f.port f.payloadSize f.sent
          (f.stdout ++ [percentage intSize i image.length]))
        (uint32 (A + i))
        ((image.take (if i + f.payloadSize > image.length then image.length
          else i + f.payloadSize)).drop i) e
      rcases hwr : write p fuel
        (WincFlasher.mk f.port f.payloadSize f.sent
          (f.stdout ++ [percentage intSize i image.length]))
        (uint32 (A + i))
        ((image.take (if i + f.payloadSize > image.length then image.length
          else i + f.payloadSize)).drop i) with ⟨r, f2⟩
      rw [hwr] at h hw
      rcases r with _ | r
      · simp at h
      · cases r with
        | error e1 => exact hw h
        | ok u => exact ih _ _ h
    · rw [if_neg hlt] at h
      simp at h

theorem flashChunkReadLoop_error {σ : Type} (p : Port σ) (fuel A : Nat) (image : List Nat)
    (e : Error) :
    ∀ (n i : Nat) (flashData : List Nat) (f : WincFlasher σ),
      (flashChunkReadLoop p fuel A image n i flashData f).1 = some (Res.error e) →
        exchangeError e := by
  intro n
  induction n with
  | zero =>
    intro i flashData f h
    simp [flashChunkReadLoop] at h
  | succ n ih =>
    intro i flashData f h
    unfold flashChunkReadLoop at h
    by_cases hlt : i < image.length
    · rw [if_pos hlt] at h
      dsimp only at h
      have hw := read_error p fuel f (uint32 (A + i))
        (uint32 (if i + f.payloadSize > image.length then image.length % f.payloadSize
          else f.payloadSize)) e
      rcases hwr : read p fuel f (uint32 (A + i))
        (uint32 (if i + f.payloadSize > image.length then image.length % f.payloadSize
          else f.payloadSize)) with ⟨r, f2⟩
      rw [hwr] at h hw
      rcases r with _ | r
      · simp at h
      · cases r with
        | error e1 => exact hw h
        | ok d => exact ih _ _ _ h
    · rw [if_neg hlt] at h
      simp at h

/-! ## The frames of a whole run of `flashChunk`, for every port -/

theorem chunksFrom_zero_length (L : Nat) :
    ∀ (n i : Nat), i < L → (chunksFrom L 0 n i).length = n := by
  intro n
  induction n with
  | zero =>
    intro i _
    simp [chunksFrom]
  | succ n ih =>
    intro i h
    simp [chunksFrom, h, ih i h]

theorem chunksFrom_stable_plan (L P n : Nat)
    (h : ∀ k, chunksFrom L P (n + k) 0 = chunksFrom L P n 0) :
    chunksFrom L P n 0 = specChunkPlan L P := by
  rcases Nat.eq_zero_or_pos P with hP | hP
  · subst hP
    have hplan : specChunkPlan L 0 = [] := by simp [specChunkPlan]
    rw [hplan]
    rcases Nat.eq_zero_or_pos L with hL | hL
    · subst hL
      cases n with
      | zero => simp [chunksFrom]
      | succ n => simp [chunksFrom]
    · have h1 := congrArg List.length (h 1)
      rw [chunksFrom_zero_length L _ 0 hL, chunksFrom_zero_length L _ 0 hL] at h1
      omega
  · rw [← h L]
    exact chunksFrom_eq_specChunkPlan L P (n + L) hP
      (Nat.le_trans (chunks_le L P hP) (Nat.le_add_left _ _))

theorem specEraseFrame_head (A L : Nat) : (specEraseFrame A L).head? = some 3 := by
  simp [specEraseFrame, sendCommandBuffer_bytes]

theorem specWriteFrame_head (A : Nat) (image : List Nat) (c : Nat × Nat) :
    (specWriteFrame A image c).head? = some 2 := by
  simp [specWriteFrame, sendCommandBuffer_bytes]

theorem specReadFrame_head (A : Nat) (c : Nat × Nat) : (specReadFrame A c).head? = some 1 := by
  simp [specReadFrame, sendCommandBuffer_bytes]

theorem erase_frame (A L : Nat) :
    sendCommandBuffer (CommandData.mk 0x03 (uint32 A) (uint32 L) none) = specEraseFrame A L := by
  rw [sendCommandBuffer_uint32]
  rfl

/-- The run of `flashChunk` in terms of its three phases. -/
theorem flashChunk_phases {σ : Type} (p : Port σ) (fuel : Nat) (f : WincFlasher σ) (A : Nat)
    (image : List Nat) :
    flashChunk intSize p fuel f A image =
      (match erase p fuel f (uint32 A) (uint32 image.length) with
       | (none, f1) => (none, f1)
       | (some (Res.error e), f1) => (some (Res.error e), f1)
       | (some (Res.ok _), f1) =>
         match flashChunkWriteLoop intSize p fuel A image fuel 0 f1 with
         | (none, f2) => (none, f2)
         | (some (Res.error e), f2) => (some (Res.error e), f2)
         | (some (Res.ok _), f2) =>
           match flashChunkReadLoop p fuel A image fuel 0 [] f2 with
           | (none, f3) => (none, f3)
           | (some (Res.error e), f3) => (some (Res.error e), f3)
           | (some (Res.ok flashData), f3) =>
             if image ≠ flashData then
               (some (Res.error (Error.plain "flash data does not match written")), f3)
             else (some (Res.ok ()), f3)) := rfl

/-! ## The exchanges with a device on a line that loses nothing -/

theorem serialFillBufferLoop_done {σ : Type} (p : Port σ) (k : Nat) (s : σ) (read : Nat)
    (buffer : List Nat) (h : buffer.length ≤ read) :
    serialFillBufferLoop p k s read buffer = (Res.ok buffer, s) := by
  cases k with
  | zero => rfl
  | succ k =>
    unfold serialFillBufferLoop
    rw [if_neg (by omega)]

theorem serialFillBuffer_devicePort {δ : Type} (d : Device δ) (f : WincFlasher (δ × List Nat))
    (buffer : List Nat) (h : buffer.length ≤ f.port.2.length) :
    serialFillBuffer (devicePort d) f buffer =
      (Res.ok (f.port.2.take buffer.length),
        f.setPort (f.port.1, f.port.2.drop buffer.length)) := by
  unfold serialFillBuffer
  rcases hn : buffer.length with _ | k
  · have hb : buffer = [] := List.length_eq_zero.mp hn
    subst hb
    simp [serialFillBufferLoop, WincFlasher.setPort]
  · unfold serialFillBufferLoop
    have hlt : 0 < buffer.length := by omega
    have hlen : (List.take (k + 1) f.port.2).length = k + 1 := by
      rw [List.length_take]
      omega
    have hfill : fillAt buffer 0 (List.take (k + 1) f.port.2) = List.take (k + 1) f.port.2 := by
      unfold fillAt
      rw [hlen, List.drop_of_length_le (by omega)]
      simp
    rw [if_pos hlt]
    simp only [portRead, devicePort, hn, Nat.sub_zero, List.take_take, Nat.min_self, hlen,
      Nat.zero_add, hfill]
    rw [if_neg (by omega), serialFillBufferLoop_done _ _ _ _ _ (by rw [hlen])]

theorem write_devicePort {δ : Type} (d : Device δ) (fuel : Nat)
    (f : WincFlasher (δ × List Nat)) (address : Nat) (buffer ack : List Nat)
    (hq : f.port.2 = [])
    (hr : (d.reply f.port.1
      (sendCommandBuffer (CommandData.mk 0x02 address 0 (some buffer)))).1 = ack)
    (hl : ack.length = 2) :
    write (devicePort d) (fuel + 1) f address buffer =
      (if ack ≠ ackOK then some (Res.error (Error.flasher "Missing ack on write: " ack))
        else some (Res.ok ()),
        WincFlasher.mk ((d.reply f.port.1
            (sendCommandBuffer (CommandData.mk 0x02 address 0 (some buffer)))).2, [])
          f.payloadSize
          (f.sent ++ [sendCommandBuffer (CommandData.mk 0x02 address 0 (some buffer))])
          f.stdout) := by
  unfold write
  rw [sendCommand_devicePort]
  dsimp only
  rw [serialFillBuffer_devicePort _ _ _ (by simp [makeBytes, hq, hr, hl])]
  simp only [hq, hr, List.nil_append, makeBytes, List.length_replicate, WincFlasher.setPort]
  rw [List.take_of_length_le (by omega), List.drop_of_length_le (by omega)]
  by_cases hack : ack ≠ ackOK
  · simp only [if_pos hack]
  · simp only [if_neg hack]

theorem erase_devicePort {δ : Type} (d : Device δ) (fuel : Nat)
    (f : WincFlasher (δ × List Nat)) (address length : Nat) (ack : List Nat)
    (hq : f.port.2 = [])
    (hr : (d.reply f.port.1
      (sendCommandBuffer (CommandData.mk 0x03 address length none))).1 = ack)
    (hl : ack.length = 2) :
    erase (devicePort d) (fuel + 1) f address length =
      (if ack ≠ ackOK then some (Res.error (Error.flasher "Missing ack on erase: " ack))
        else some (Res.ok ()),
        WincFlasher.mk ((d.reply f.port.1
            (sendCommandBuffer (CommandData.mk 0x03 address length none))).2, [])
          f.payloadSize
          (f.sent ++ [sendCommandBuffer (CommandData.mk 0x03 address length none)])
          f.stdout) := by
  unfold erase
  rw [sendCommand_devicePort]
  dsimp only
  rw [serialFillBuffer_devicePort _ _ _ (by simp [makeBytes, hq, hr, hl])]
  simp only [hq, hr, List.nil_append, makeBytes, List.length_replicate, WincFlasher.setPort]
  rw [List.take_of_length_le (by omega), List.drop_of_length_le (by omega)]
  by_cases hack : ack ≠ ackOK
  · simp only [if_pos hack]
  · simp only [if_neg hack]

theorem read_devicePort {δ : Type} (d : Device δ) (fuel : Nat)
    (f : WincFlasher (δ × List Nat)) (address length : Nat) (data ack : List Nat)
    (hq : f.port.2 = [])
    (hr : (d.reply f.port.1
      (sendCommandBuffer (CommandData.mk 0x01 address length none))).1 = data ++ ack)
    (hd : data.length = length) (hl : ack.length = 2) :
    read (devicePort d) (fuel + 1) f address length =
      (if ack ≠ ackOK then some (Res.error (Error.flasher "Missing ack on read: " ack))
        else some (Res.ok data),
        WincFlasher.mk ((d.reply f.port.1
            (sendCommandBuffer (CommandData.mk 0x01 address length none))).2, [])
          f.payloadSize
          (f.sent ++ [sendCommandBuffer (CommandData.mk 0x01 address length none)])
          f.stdout) := by
  unfold read
  rw [sendCommand_devicePort]
  dsimp only
  rw [serialFillBuffer_devicePort _ _ _ (by simp [makeBytes, hq, hr, hl, hd])]
  simp only [hq, hr, List.nil_append, makeBytes, List.length_replicate, WincFlasher.setPort]
  rw [List.take_left' hd, List.drop_left' hd]
  rw [serialFillBuffer_devicePort _ _ _ (by simp [hl])]
  simp only [List.length_replicate, WincFlasher.setPort]
  rw [List.take_of_length_le (by omega), List.drop_of_length_le (by omega)]
  by_cases hack : ack ≠ ackOK
  · simp only [if_pos hack]
  · simp only [if_neg hack]

theorem NewWincFlasher_devicePort {δ : Type} (d : Device δ) (fuel : Nat) (s : δ)
    (b0 b1 : Nat) (hb0 : b0 < 256) (hb1 : b1 < 256)
    (hr : (d.reply s (sendCommandBuffer (CommandData.mk 0x50 0 0 none))).1 = [b0, b1]) :
    (NewWincFlasher (devicePort d) (fuel + 1) (s, [])).1 =
      (if 256 * b0 + b1 < 1024 then some (Res.error (Error.payloadTooSmall (256 * b0 + b1)))
       else some (Res.ok (WincFlasher.mk
        ((d.reply s (sendCommandBuffer (CommandData.mk 0x50 0 0 none))).2, [])
        (256 * b0 + b1) [sendCommandBuffer (CommandData.mk 0x50 0 0 none)] []))) := by
  have hv : uint16 (uint16 (uint16 b0 * 256) + uint16 b1) = 256 * b0 + b1 := by
    simp only [uint16]
    omega
  unfold NewWincFlasher getMaximumPayloadSize
  dsimp only
  rw [sendCommand_devicePort]
  dsimp only
  rw [serialFillBuffer_devicePort _ _ _ (by simp [makeBytes, hr])]
  simp only [hr, List.nil_append, makeBytes, List.length_replicate, WincFlasher.setPort,
    List.take_succ_cons, List.take_zero, List.getD_cons_zero, List.getD_cons_succ, hv,
    List.drop_succ_cons, List.drop_zero]
  by_cases hlt : 256 * b0 + b1 < 1024
  · simp only [if_pos hlt]
  · simp only [if_neg hlt]

/-! ## The loops of `flashChunk` against a scripted device -/

theorem chunksFrom_cons (L P n i : Nat) (h : i < L) :
    chunksFrom L P (n + 1) i = (i, min (i + P) L - i) :: chunksFrom L P n (i + P) := by
  simp [chunksFrom, h]

theorem chunksFrom_nil (L P n i : Nat) (h : ¬ i < L) : chunksFrom L P n i = [] := by
  cases n with
  | zero => rfl
  | succ n => simp [chunksFrom, h]

theorem flashChunkWriteLoop_scripted (fuel A : Nat) (image : List Nat) :
    ∀ (n i P : Nat) (script rest : List (List Nat)) (sent : List (List Nat)) (out : List Int),
      script = List.replicate (chunksFrom image.length P n i).length ackOK ++ rest →
      (chunksFrom image.length P n i).length < n →
      flashChunkWriteLoop intSize (devicePort scriptDevice) (fuel + 1) A image n i
          (WincFlasher.mk (script, []) P sent out) =
        (some (Res.ok ()),
          WincFlasher.mk (rest, []) P
            (sent ++ (chunksFrom image.length P n i).map (specWriteFrame A image))
            (out ++ (chunksFrom image.length P n i).map
              (fun c => percentage intSize c.1 image.length))) := by
  intro n
  induction n with
  | zero =>
    intro i P script rest sent out _ h
    simp at h
  | succ n ih =>
    intro i P script rest sent out hs hlen
    unfold flashChunkWriteLoop
    by_cases hlt : i < image.length
    · rw [chunksFrom_cons _ _ _ _ hlt] at hs hlen ⊢
      rw [if_pos hlt]
      dsimp only
      simp only [List.length_cons, List.replicate_succ, List.cons_append] at hs hlen
      rw [write_devicePort scriptDevice fuel _ _ _ ackOK rfl (by rw [hs]; rfl) rfl]
      rw [if_neg (by simp)]
      dsimp only
      rw [writeLoop_frame]
      have htail : ∀ fr, (scriptDevice.reply script fr).2 =
          List.replicate (chunksFrom image.length P n (i + P)).length ackOK ++ rest := by
        intro fr
        rw [hs]
        rfl
      rw [htail, ih (i + P) P _ rest _ _ rfl (by omega)]
      simp
    · rw [if_neg hlt]
      rw [chunksFrom_nil _ _ _ _ hlt] at hs ⊢
      simp only [List.length_nil, List.replicate_zero, List.nil_append] at hs
      simp [hs]

theorem flashChunkWriteLoop_scripted_bad (fuel A : Nat) (image : List Nat) (bad : List Nat)
    (hbl : bad.length = 2) (hbad : bad ≠ ackOK) :
    ∀ (n i P k : Nat) (script rest : List (List Nat)) (sent : List (List Nat)) (out : List Int),
      script = List.replicate k ackOK ++ bad :: rest →
      k < (chunksFrom image.length P n i).length →
      flashChunkWriteLoop intSize (devicePort scriptDevice) (fuel + 1) A image n i
          (WincFlasher.mk (script, []) P sent out) =
        (some (Res.error (Error.flasher "Missing ack on write: " bad)),
          WincFlasher.mk (rest, []) P
            (sent ++ ((chunksFrom image.length P n i).take (k + 1)).map
              (specWriteFrame A image))
            (out ++ ((chunksFrom image.length P n i).take (k + 1)).map
              (fun c => percentage intSize c.1 image.length))) := by
  intro n
  induction n with
  | zero =>
    intro i P k script rest sent out _ h
    simp [chunksFrom] at h
  | succ n ih =>
    intro i P k script rest sent out hs hlen
    unfold flashChunkWriteLoop
    by_cases hlt : i < image.length
    · rw [chunksFrom_cons _ _ _ _ hlt] at hlen ⊢
      rw [if_pos hlt]
      dsimp only
      cases k with
      | zero =>
        simp only [List.replicate_zero, List.nil_append] at hs
        rw [write_devicePort scriptDevice fuel _ _ _ bad rfl (by rw [hs]; rfl) hbl]
        rw [if_pos hbad]
        dsimp only
        rw [writeLoop_frame]
        have htail : ∀ fr, (scriptDevice.reply script fr).2 = rest := by
          intro fr
          rw [hs]
          rfl
        rw [htail]
        simp
      | succ k =>
        simp only [List.replicate_succ, List.cons_append] at hs
        simp only [List.length_cons] at hlen
        rw [write_devicePort scriptDevice fuel _ _ _ ackOK rfl (by rw [hs]; rfl) rfl]
        rw [if_neg (by simp)]
        dsimp only
        rw [writeLoop_frame]
        have htail : ∀ fr, (scriptDevice.reply script fr).2 =
            List.replicate k ackOK ++ bad :: rest := by
          intro fr
          rw [hs]
          rfl
        rw [htail, ih (i + P) P k _ rest _ _ rfl (by omega)]
        simp
    · rw [chunksFrom_nil _ _ _ _ hlt] at hlen
      simp at hlen

theorem flashChunkReadLoop_scripted (fuel A : Nat) (image : List Nat) :
    ∀ (n i P : Nat) (flashData : List Nat) (datas script rest : List (List Nat))
      (sent : List (List Nat)) (out : List Int),
      P ∣ i →
      script = datas.map (fun d => d ++ ackOK) ++ rest →
      datas.map List.length = (chunksFrom image.length P n i).map (fun c => uint32 c.2) →
      (chunksFrom image.length P n i).length < n →
      flashChunkReadLoop (devicePort scriptDevice) (fuel + 1) A image n i flashData
          (WincFlasher.mk (script, []) P sent out) =
        (some (Res.ok (flashData ++ datas.flatten)),
          WincFlasher.mk (rest, []) P
            (sent ++ (chunksFrom image.length P n i).map (specReadFrame A)) out) := by
  intro n
  induction n with
  | zero =>
    intro i P flashData datas script rest sent out _ _ _ h
    simp at h
  | succ n ih =>
    intro i P flashData datas script rest sent out hdvd hs hd hlen
    unfold flashChunkReadLoop
    by_cases hlt : i < image.length
    · rw [chunksFrom_cons _ _ _ _ hlt] at hd hlen ⊢
      rw [if_pos hlt]
      dsimp only
      simp only [List.length_cons] at hlen
      cases datas with
      | nil => simp at hd
      | cons d ds =>
        simp only [List.map_cons, List.cons.injEq, List.cons_append] at hd hs
        have hrl := readLength_eq image.length P i hdvd hlt
        rw [read_devicePort scriptDevice fuel _ _ _ d ackOK rfl (by rw [hs]; rfl)
          (by rw [hd.1, hrl]) rfl]
        rw [if_neg (by simp)]
        dsimp only
        rw [readLoop_frame A i P image.length hdvd hlt]
        have htail : ∀ fr, (scriptDevice.reply script fr).2 =
            ds.map (fun d => d ++ ackOK) ++ rest := by
          intro fr
          rw [hs]
          rfl
        rw [htail, ih (i + P) P _ ds _ rest _ _ (Dvd.dvd.add hdvd (dvd_refl _)) rfl hd.2
          (by omega)]
        simp
    · rw [if_neg hlt]
      rw [chunksFrom_nil _ _ _ _ hlt] at hd ⊢
      simp only [List.map_nil, List.map_eq_nil_iff] at hd
      subst hd
      simp [hs]

theorem specChunkPlan_length (L P : Nat) : (specChunkPlan L P).length = (L + P - 1) / P := by
  simp [specChunkPlan]

theorem scriptDevice_reply (script : List (List Nat)) (frame : List Nat) :
    scriptDevice.reply script frame = (script.headD [], script.tail) := rfl

/-- A whole run of `flashChunk` against the scripted device that answers
"OK" to the erase frame and to every write frame, and the chunks `datas`,
each followed by "OK", to the read frames. -/
theorem flashChunk_scripted (fuel A P : Nat) (image : List Nat)
    (datas script rest : List (List Nat)) (sent : List (List Nat)) (out : List Int)
    (hP : 0 < P)
    (hs : script = ackOK :: (List.replicate (specChunkPlan image.length P).length ackOK ++
      (datas.map (fun d => d ++ ackOK) ++ rest)))
    (hd : datas.map List.length = (specChunkPlan image.length P).map (fun c => uint32 c.2))
    (hfuel : (specChunkPlan image.length P).length < fuel) :
    flashChunk intSize (devicePort scriptDevice) fuel (WincFlasher.mk (script, []) P sent out) A image =
      (if image ≠ datas.flatten then
          some (Res.error (Error.plain "flash data does not match written"))
        else some (Res.ok ()),
        WincFlasher.mk (rest, []) P
          (sent ++ specEraseFrame A image.length ::
            ((specChunkPlan image.length P).map (specWriteFrame A image) ++
              (specChunkPlan image.length P).map (specReadFrame A)))
          (out ++ (specChunkPlan image.length P).map (fun c => percentage intSize c.1 image.length))) := by
  obtain ⟨g, rfl⟩ : ∃ g, fuel = g + 1 := ⟨fuel - 1, by omega⟩
  have hplan : chunksFrom image.length P (g + 1) 0 = specChunkPlan image.length P :=
    chunksFrom_eq_specChunkPlan _ _ _ hP (by rw [← specChunkPlan_length]; omega)
  rw [flashChunk_phases]
  rw [erase_devicePort scriptDevice g _ _ _ ackOK rfl (by rw [hs]; rfl) rfl]
  rw [if_neg (by simp)]
  dsimp only
  rw [erase_frame, scriptDevice_reply, hs]
  simp only [List.tail_cons]
  rw [← hplan] at hd hfuel ⊢
  rw [flashChunkWriteLoop_scripted intSize g A image (g + 1) 0 P _ _ _ _ rfl hfuel]
  dsimp only
  rw [flashChunkReadLoop_scripted g A image (g + 1) 0 P [] datas _ rest _ _ (dvd_zero _) rfl hd
    hfuel]
  dsimp only
  by_cases hne : image ≠ datas.flatten
  · simp [hne]
  · simp [hne]

/-- A run of `flashChunk` against the scripted device that answers "OK" to
the erase frame and to the first `k` write frames, and `bad` to the next. -/
theorem flashChunk_scripted_bad (fuel A P k : Nat) (image bad : List Nat)
    (script rest : List (List Nat)) (sent : List (List Nat)) (out : List Int)
    (hP : 0 < P) (hbl : bad.length = 2) (hbad : bad ≠ ackOK)
    (hs : script = ackOK :: (List.replicate k ackOK ++ bad :: rest))
    (hk : k < (specChunkPlan image.length P).length)
    (hfuel : (specChunkPlan image.length P).length ≤ fuel) :
    flashChunk intSize (devicePort scriptDevice) fuel (WincFlasher.mk (script, []) P sent out) A image =
      (some (Res.error (Error.flasher "Missing ack on write: " bad)),
        WincFlasher.mk (rest, []) P
          (sent ++ specEraseFrame A image.length ::
            ((specChunkPlan image.length P).take (k + 1)).map (specWriteFrame A image))
          (out ++ ((specChunkPlan image.length P).take (k + 1)).map
            (fun c => percentage intSize c.1 image.length))) := by
  obtain ⟨g, rfl⟩ : ∃ g, fuel = g + 1 := ⟨fuel - 1, by omega⟩
  have hplan : chunksFrom image.length P (g + 1) 0 = specChunkPlan image.length P :=
    chunksFrom_eq_specChunkPlan _ _ _ hP (by rw [← specChunkPlan_length]; omega)
  rw [flashChunk_phases]
  rw [erase_devicePort scriptDevice g _ _ _ ackOK rfl (by rw [hs]; rfl) rfl]
  rw [if_neg (by simp)]
  dsimp only
  rw [erase_frame, scriptDevice_reply, hs]
  simp only [List.tail_cons]
  rw [← hplan] at hk ⊢
  rw [flashChunkWriteLoop_scripted_bad intSize g A image bad hbl hbad (g + 1) 0 P k _ rest _ _ rfl hk]
  simp

/-! ## Facts on the chunk plan -/

theorem specChunkPlan_getElem (L P k : Nat) (h : k < (specChunkPlan L P).length) :
    (specChunkPlan L P)[k]? = some (k * P, min (k * P + P) L - k * P) := by
  rw [specChunkPlan_length] at h
  simp [specChunkPlan, List.getElem?_range, h]

theorem specChunkPlan_mem (L P : Nat) (hP : 0 < P) (c : Nat × Nat) (h : c ∈ specChunkPlan L P) :
    ∃ k, c = (k * P, min (k * P + P) L - k * P) ∧ k * P < L := by
  simp only [specChunkPlan, List.mem_map, List.mem_range] at h
  obtain ⟨k, hk, rfl⟩ := h
  exact ⟨k, rfl, (lt_chunks_iff L P k hP).mp hk⟩

theorem specChunkPlan_bounds (L P : Nat) (hP : 0 < P) (c : Nat × Nat)
    (h : c ∈ specChunkPlan L P) : 1 ≤ c.2 ∧ c.2 ≤ P ∧ c.1 + c.2 ≤ L := by
  obtain ⟨k, rfl, hk⟩ := specChunkPlan_mem L P hP c h
  dsimp only
  omega

theorem specChunkPlan_last (L P : Nat) (hP : 0 < P) (hL : 0 < L) :
    (specChunkPlan L P).getLast? =
      some (((L + P - 1) / P - 1) * P, if L % P = 0 then P else L % P) := by
  have hN : 0 < (L + P - 1) / P := by
    have := (lt_chunks_iff L P 0 hP).mpr (by omega)
    omega
  have hlt : ((L + P - 1) / P - 1) * P < L :=
    (lt_chunks_iff L P _ hP).mp (by omega)
  have hge : ¬ ((L + P - 1) / P - 1 + 1) * P < L := by
    intro h
    have := (lt_chunks_iff L P _ hP).mpr h
    omega
  rw [List.getLast?_eq_getElem?, specChunkPlan_getElem L P _ (by rw [specChunkPlan_length]; omega),
    specChunkPlan_length]
  generalize (L + P - 1) / P - 1 = q at hlt hge
  rw [Nat.add_mul, Nat.one_mul] at hge
  have hmin : min (q * P + P) L - q * P = L - q * P := by omega
  rw [hmin]
  have hL2 : L = (L - q * P) + q * P := by omega
  by_cases hr : L - q * P = P
  · have hmod : L % P = 0 := by
      rw [hL2, hr]
      simp
    rw [if_pos hmod, hr]
  · have hlt2 : L - q * P < P := by omega
    have hmod : L % P = L - q * P := by
      conv_lhs => rw [hL2, Nat.add_mul_mod_self_right, Nat.mod_eq_of_lt hlt2]
    have hne : ¬ L % P = 0 := by omega
    rw [if_neg hne, hmod]

theorem flashChunk_done_sent {σ : Type} (p : Port σ) (fuel : Nat) (f f1 : WincFlasher σ)
    (A : Nat) (image : List Nat) (r : Res Unit)
    (h : flashChunk intSize p fuel f A image = (some r, f1))
    (hr : r = Res.ok () ∨ r = Res.error (Error.plain "flash data does not match written")) :
    f1.sent = f.sent ++ specEraseFrame A image.length ::
      ((specChunkPlan image.length f.payloadSize).map (specWriteFrame A image) ++
        (specChunkPlan image.length f.payloadSize).map (specReadFrame A)) := by
  have hnot : ∀ e, exchangeError e → r ≠ Res.error e := by
    intro e he hre
    rcases hr with hr | hr
    · rw [hr] at hre
      simp at hre
    · rw [hr] at hre
      simp only [Res.error.injEq] at hre
      exact he _ hre.symm
  rw [flashChunk_phases] at h
  have he := erase_fields p fuel f (uint32 A) (uint32 image.length)
  have hee := erase_error p fuel f (uint32 A) (uint32 image.length)
  rw [erase_frame] at he
  rcases her : erase p fuel f (uint32 A) (uint32 image.length) with ⟨r1, g1⟩
  rw [her] at he hee h
  dsimp only at he hee h
  rcases r1 with _ | r1
  · simp at h
  · cases r1 with
    | error e =>
      simp only [Prod.mk.injEq, Option.some.injEq] at h
      exact absurd h.1.symm (hnot e (hee e rfl))
    | ok u =>
      dsimp only at h
      have hw := flashChunkWriteLoop_sent intSize p fuel A image fuel 0 g1
      have hwe := fun e => flashChunkWriteLoop_error intSize p fuel A image e fuel 0 g1
      rcases hwr : flashChunkWriteLoop intSize p fuel A image fuel 0 g1 with ⟨r2, g2⟩
      rw [hwr] at hw hwe h
      dsimp only at hw hwe h
      rcases r2 with _ | r2
      · simp at h
      · cases r2 with
        | error e =>
          simp only [Prod.mk.injEq, Option.some.injEq] at h
          exact absurd h.1.symm (hnot e (hwe e rfl))
        | ok u2 =>
          dsimp only at h
          obtain ⟨hwp, _, hwok⟩ := hw
          obtain ⟨hws, hstab⟩ := hwok rfl
          have hplan := chunksFrom_stable_plan image.length g1.payloadSize fuel hstab
          have hr3 := flashChunkReadLoop_sent p fuel A image fuel 0 [] g2 (dvd_zero _)
          have hre := fun e => flashChunkReadLoop_error p fuel A image e fuel 0 [] g2
          rcases hrr : flashChunkReadLoop p fuel A image fuel 0 [] g2 with ⟨r3, g3⟩
          rw [hrr] at hr3 hre h
          dsimp only at hr3 hre h
          rcases r3 with _ | r3
          · simp at h
          · cases r3 with
            | error e =>
              simp only [Prod.mk.injEq, Option.some.injEq] at h
              exact absurd h.1.symm (hnot e (hre e rfl))
            | ok d =>
              dsimp only at h
              obtain ⟨_, _, hrok⟩ := hr3
              obtain ⟨hrs, _⟩ := hrok d rfl
              have hg : g3 = f1 := by
                by_cases hne : image ≠ d
                · rw [if_pos hne] at h
                  exact (Prod.mk.inj h).2
                · rw [if_neg hne] at h
                  exact (Prod.mk.inj h).2
              rw [← hg, hrs, hws, hwp, hplan, he.1, he.2.1]
              simp

/-! ## The exchanges with the fault-free device -/

theorem memDevice_reply_write (wipe : (Nat → Nat) → Nat → Nat → (Nat → Nat)) (m : Nat → Nat)
    (a : Nat) (chunk : List Nat) (h : chunk.length < 65536) :
    (memDevice wipe).reply m (sendCommandBuffer (CommandData.mk 0x02 a 0 (some chunk))) =
      (ackOK, store m (uint32 a) chunk) := by
  simp only [memDevice, specParseHeader_sendCommandBuffer, sendCommandBuffer_drop, payloadBytes,
    uint16, Nat.mod_eq_of_lt h]
  rw [if_pos (by decide), List.take_of_length_le (Nat.le_refl _)]

theorem memDevice_reply_erase (wipe : (Nat → Nat) → Nat → Nat → (Nat → Nat)) (m : Nat → Nat)
    (a n : Nat) :
    (memDevice wipe).reply m (sendCommandBuffer (CommandData.mk 0x03 a n none)) =
      (ackOK, wipe m (uint32 a) (uint32 n)) := by
  simp only [memDevice, specParseHeader_sendCommandBuffer]
  rw [if_neg (by decide), if_pos (by decide)]

theorem memDevice_reply_read (wipe : (Nat → Nat) → Nat → Nat → (Nat → Nat)) (m : Nat → Nat)
    (a n : Nat) :
    (memDevice wipe).reply m (sendCommandBuffer (CommandData.mk 0x01 a n none)) =
      (load m (uint32 a) (uint32 n) ++ ackOK, m) := by
  simp only [memDevice, specParseHeader_sendCommandBuffer]
  rw [if_neg (by decide), if_neg (by decide), if_pos (by decide)]

theorem load_length (m : Nat → Nat) (a n : Nat) : (load m a n).length = n := by
  simp [load]

theorem load_eq_slice (m : Nat → Nat) (image : List Nat) (i n : Nat) (hin : i + n ≤ image.length)
    (hm : ∀ a, a < image.length → m a = image.getD a 0) :
    load m i n = (image.drop i).take n := by
  apply List.ext_getElem
  · rw [load_length, List.length_take, List.length_drop]
    omega
  · intro j h1 h2
    rw [load_length] at h1
    simp only [load, List.getElem_map, List.getElem_range, List.getElem_take, List.getElem_drop]
    rw [hm (i + j) (by omega), List.getD_eq_getElem _ _ (by omega)]

theorem slice_getD (image : List Nat) (i stop a : Nat) (h1 : i ≤ a) (h2 : a < stop) :
    ((image.take stop).drop i).getD (a - i) 0 = image.getD a 0 := by
  have h : i + (a - i) = a := by omega
  simp [List.getD_eq_getElem?_getD, List.getElem?_drop, List.getElem?_take, h, h2]

theorem uint32_of_lt (x : Nat) (h : x < 4294967296) : uint32 x = x :=
  Nat.mod_eq_of_lt h

theorem flashChunkWriteLoop_mem (wipe : (Nat → Nat) → Nat → Nat → (Nat → Nat)) (fuel P : Nat)
    (image : List Nat) (hP : 0 < P) (hP2 : P < 65536) (hL : image.length ≤ 4294967296) :
    ∀ (n i : Nat) (m : Nat → Nat) (sent : List (List Nat)) (out : List Int),
      (∀ a, a < i → a < image.length → m a = image.getD a 0) →
      (chunksFrom image.length P n i).length < n →
      ∃ m1 : Nat → Nat,
        flashChunkWriteLoop intSize (devicePort (memDevice wipe)) (fuel + 1) 0 image n i
            (WincFlasher.mk (m, []) P sent out) =
          (some (Res.ok ()),
            WincFlasher.mk (m1, []) P
              (sent ++ (chunksFrom image.length P n i).map (specWriteFrame 0 image))
              (out ++ (chunksFrom image.length P n i).map
                (fun c => percentage intSize c.1 image.length))) ∧
        ∀ a, a < image.length → m1 a = image.getD a 0 := by
  intro n
  induction n with
  | zero =>
    intro i m sent out _ h
    simp at h
  | succ n ih =>
    intro i m sent out hm hlen
    unfold flashChunkWriteLoop
    by_cases hlt : i < image.length
    · rw [chunksFrom_cons _ _ _ _ hlt] at hlen ⊢
      rw [if_pos hlt]
      dsimp only
      simp only [List.length_cons] at hlen
      have hstop : (if i + P > image.length then image.length else i + P) =
          min (i + P) image.length := by
        by_cases h : i + P > image.length
        · rw [if_pos h]; omega
        · rw [if_neg h]; omega
      have hclen : ((image.take (if i + P > image.length then image.length
          else i + P)).drop i).length = min (i + P) image.length - i := by
        rw [hstop, List.length_drop, List.length_take]
        omega
      have hreply := memDevice_reply_write wipe m (uint32 (0 + i))
        ((image.take (if i + P > image.length then image.length else i + P)).drop i)
        (by rw [hclen]; omega)
      have hu : uint32 (uint32 (0 + i)) = i := by
        rw [Nat.zero_add, uint32_of_lt i (by omega), uint32_of_lt i (by omega)]
      rw [hu] at hreply
      rw [write_devicePort (memDevice wipe) fuel _ _ _ ackOK rfl (by rw [hreply]) rfl]
      rw [if_neg (by simp)]
      dsimp only
      rw [hreply, writeLoop_frame]
      dsimp only
      obtain ⟨m1, h1, h2⟩ := ih (i + P)
        (store m i ((image.take (if i + P > image.length then image.length
          else i + P)).drop i))
        (sent ++ [specWriteFrame 0 image (i, min (i + P) image.length - i)])
        (out ++ [percentage intSize i image.length])
        (by
          intro a ha haL
          unfold store
          by_cases hia : i ≤ a
          · rw [if_pos ⟨hia, by rw [hclen]; omega⟩, hstop]
            exact slice_getD image i _ a hia (by omega)
          · rw [if_neg (fun h => hia h.1)]
            exact hm a (by omega) haL)
        (by omega)
      refine ⟨m1, ?_, h2⟩
      rw [h1]
      simp
    · rw [if_neg hlt]
      rw [chunksFrom_nil _ _ _ _ hlt]
      refine ⟨m, by simp, ?_⟩
      intro a ha
      exact hm a (by omega) ha

theorem flashChunkReadLoop_mem (wipe : (Nat → Nat) → Nat → Nat → (Nat → Nat)) (fuel P : Nat)
    (image : List Nat) (hP : 0 < P) (hP2 : P < 65536) (hL : image.length ≤ 4294967296)
    (m : Nat → Nat) (hm : ∀ a, a < image.length → m a = image.getD a 0) :
    ∀ (n i : Nat) (flashData : List Nat) (sent : List (List Nat)) (out : List Int),
      P ∣ i →
      (chunksFrom image.length P n i).length < n →
      flashChunkReadLoop (devicePort (memDevice wipe)) (fuel + 1) 0 image n i flashData
          (WincFlasher.mk (m, []) P sent out) =
        (some (Res.ok (flashData ++ image.drop i)),
          WincFlasher.mk (m, []) P
            (sent ++ (chunksFrom image.length P n i).map (specReadFrame 0)) out) := by
  intro n
  induction n with
  | zero =>
    intro i flashData sent out _ h
    simp at h
  | succ n ih =>
    intro i flashData sent out hdvd hlen
    unfold flashChunkReadLoop
    by_cases hlt : i < image.length
    · rw [chunksFrom_cons _ _ _ _ hlt] at hlen ⊢
      rw [if_pos hlt]
      dsimp only
      simp only [List.length_cons] at hlen
      have hrl := readLength_eq image.length P i hdvd hlt
      have hu : uint32 (0 + i) = i := by
        rw [Nat.zero_add, uint32_of_lt i (by omega)]
      have hv : uint32 (min (i + P) image.length - i) = min (i + P) image.length - i :=
        uint32_of_lt _ (by omega)
      have hreply := memDevice_reply_read wipe m (uint32 (0 + i))
        (uint32 (if i + P > image.length then image.length % P else P))
      rw [hrl, hu, hv, uint32_of_lt i (by omega), hv] at hreply
      rw [hrl, hu, hv]
      rw [read_devicePort (memDevice wipe) fuel _ _ _
        (load m i (min (i + P) image.length - i)) ackOK rfl (by rw [hreply])
        (load_length _ _ _) rfl]
      rw [if_neg (by simp)]
      dsimp only
      rw [hreply]
      dsimp only
      have hfr : sendCommandBuffer (CommandData.mk 1 i (min (i + P) image.length - i) none) =
          specReadFrame 0 (i, min (i + P) image.length - i) := by
        simp [specReadFrame]
      rw [hfr, ih (i + P) _ _ _ (Dvd.dvd.add hdvd (dvd_refl _)) (by omega)]
      have hdata : load m i (min (i + P) image.length - i) ++ image.drop (i + P) =
          image.drop i := by
        rw [load_eq_slice m image i _ (by omega) hm]
        by_cases hle : i + P ≤ image.length
        · have h1 : min (i + P) image.length - i = P := by omega
          rw [h1, ← List.drop_drop, List.take_append_drop]
        · have h1 : min (i + P) image.length - i = image.length - i := by omega
          rw [h1, List.drop_of_length_le (by omega : image.length ≤ i + P),
            List.take_of_length_le (by rw [List.length_drop]), List.append_nil]
      simp [List.append_assoc, hdata]
    · rw [if_neg hlt]
      rw [chunksFrom_nil _ _ _ _ hlt, List.drop_of_length_le (by omega)]
      simp

/-- A whole run of `flashChunk` at base address 0 against the fault-free
device, from any memory. -/
theorem flashChunk_mem (wipe : (Nat → Nat) → Nat → Nat → (Nat → Nat)) (fuel P : Nat)
    (image : List Nat) (m0 : Nat → Nat) (sent : List (List Nat)) (out : List Int)
    (hP : 0 < P) (hP2 : P < 65536) (hL : image.length ≤ 4294967296)
    (hfuel : (specChunkPlan image.length P).length < fuel) :
    ∃ m1 : Nat → Nat,
      flashChunk intSize (devicePort (memDevice wipe)) fuel (WincFlasher.mk (m0, []) P sent out) 0
          image =
        (some (Res.ok ()),
          WincFlasher.mk (m1, []) P
            (sent ++ specEraseFrame 0 image.length ::
              ((specChunkPlan image.length P).map (specWriteFrame 0 image) ++
                (specChunkPlan image.length P).map (specReadFrame 0)))
            (out ++ (specChunkPlan image.length P).map
              (fun c => percentage intSize c.1 image.length))) ∧
      load m1 0 image.length = image ∧
      (∀ (s : List (List Nat)) (o : List Int),
        flashChunkReadLoop (devicePort (memDevice wipe)) fuel 0 image fuel 0 []
            (WincFlasher.mk (m1, []) P s o) =
          (some (Res.ok image),
            WincFlasher.mk (m1, []) P
              (s ++ (specChunkPlan image.length P).map (specReadFrame 0)) o)) := by
  obtain ⟨g, rfl⟩ : ∃ g, fuel = g + 1 := ⟨fuel - 1, by omega⟩
  have hplan : chunksFrom image.length P (g + 1) 0 = specChunkPlan image.length P :=
    chunksFrom_eq_specChunkPlan _ _ _ hP (by rw [← specChunkPlan_length]; omega)
  rw [← hplan] at hfuel ⊢
  have hre := memDevice_reply_erase wipe m0 (uint32 0) (uint32 image.length)
  obtain ⟨m1, hw, hm1⟩ := flashChunkWriteLoop_mem intSize wipe g P image hP hP2 hL (g + 1) 0
    (wipe m0 (uint32 (uint32 0)) (uint32 (uint32 image.length)))
    (sent ++ [specEraseFrame 0 image.length]) out
    (by intro a ha; omega) hfuel
  have hr := flashChunkReadLoop_mem wipe g P image hP hP2 hL m1 hm1 (g + 1) 0 []
  refine ⟨m1, ?_, ?_, ?_⟩
  · rw [flashChunk_phases]
    rw [erase_devicePort (memDevice wipe) g _ _ _ ackOK rfl (by rw [hre]) rfl]
    rw [if_neg (by simp)]
    dsimp only
    rw [hre, erase_frame]
    dsimp only
    rw [hw]
    dsimp only
    rw [hr _ _ (dvd_zero _) hfuel]
    simp
  · have h := load_eq_slice m1 image 0 image.length (by omega) hm1
    rw [h]
    simp
  · intro s o
    rw [hr s o (dvd_zero _) hfuel]
    simp

/-! ## The exchanges over scripted reads -/

theorem sendCommand_scriptedReads (fuel : Nat) (f : WincFlasher (List (List Nat)))
    (data : CommandData) :
    sendCommand scriptedReads (fuel + 1) f data =
      (some (Res.ok ()),
        WincFlasher.mk f.port f.payloadSize (f.sent ++ [sendCommandBuffer data]) f.stdout) := by
  simp [sendCommand, sendCommandLoop, portWrite, scriptedReads]

theorem serialFillBuffer_scripted_full (cs rest : List (List Nat))
    (f : WincFlasher (List (List Nat))) (buffer : List Nat) (hport : f.port = cs ++ rest)
    (hne : ∀ c ∈ cs, c ≠ []) (hsum : cs.flatten.length = buffer.length) :
    serialFillBuffer scriptedReads f buffer = (Res.ok cs.flatten, f.setPort rest) := by
  unfold serialFillBuffer
  rw [hport, serialFillBufferLoop_scripted_full rest cs _ 0 buffer hne (by omega) (by omega)]
  simp

theorem serialFillBuffer_scripted_closed (cs tl : List (List Nat))
    (f : WincFlasher (List (List Nat))) (buffer : List Nat) (hport : f.port = cs ++ tl)
    (hne : ∀ c ∈ cs, c ≠ []) (htl : tl.headD [] = [])
    (hsum : cs.flatten.length < buffer.length) :
    serialFillBuffer scriptedReads f buffer =
      (Res.error (Error.flasher "Serial port closed unexpectedly" []), f.setPort tl.tail) := by
  unfold serialFillBuffer
  rw [hport, serialFillBufferLoop_scripted_closed tl htl cs _ 0 buffer hne (by omega)
    (by omega)]

/-! ## The exchanges over a byte stream delivered in pieces -/

theorem sendCommand_streamPort (fuel : Nat) (f : WincFlasher (List Nat × List Nat))
    (data : CommandData) :
    sendCommand streamPort (fuel + 1) f data =
      (some (Res.ok ()),
        WincFlasher.mk f.port f.payloadSize (f.sent ++ [sendCommandBuffer data]) f.stdout) := by
  simp [sendCommand, sendCommandLoop, portWrite, streamPort]

theorem portRead_streamPort (stream sizes : List Nat) (cap : Nat) :
    portRead streamPort (stream, sizes) cap =
      (Res.ok ((stream.take (min cap (sizes.headD cap))).take cap),
        (stream.drop (min cap (sizes.headD cap)), sizes.tail)) := rfl

theorem headD_sizes (sizes : List Nat) (cap : Nat) (hcap : 1 ≤ cap)
    (hs : ∀ z ∈ sizes, 1 ≤ z) : 1 ≤ sizes.headD cap ∧ ∀ z ∈ sizes.tail, 1 ≤ z := by
  cases sizes with
  | nil => exact ⟨hcap, by simp⟩
  | cons a t =>
    exact ⟨hs a (List.mem_cons_self _ _), fun z hz => hs z (List.mem_cons_of_mem _ hz)⟩

theorem serialFillBufferLoop_stream_full (k : Nat) :
    ∀ (read : Nat) (buffer stream sizes : List Nat), (∀ z ∈ sizes, 1 ≤ z) →
      read ≤ buffer.length → buffer.length - read ≤ stream.length →
      buffer.length - read ≤ k →
      ∃ sizes1 : List Nat, (∀ z ∈ sizes1, 1 ≤ z) ∧
        serialFillBufferLoop streamPort k (stream, sizes) read buffer =
          (Res.ok (buffer.take read ++ stream.take (buffer.length - read)),
            (stream.drop (buffer.length - read), sizes1)) := by
  induction k with
  | zero =>
    intro read buffer stream sizes hs hr _ hk
    have h0 : buffer.length - read = 0 := by omega
    refine ⟨sizes, hs, ?_⟩
    rw [h0, List.take_of_length_le (by omega)]
    simp [serialFillBufferLoop]
  | succ k ih =>
    intro read buffer stream sizes hs hr hst hk
    by_cases hlt : read < buffer.length
    · obtain ⟨hz, htail⟩ := headD_sizes sizes (buffer.length - read) (by omega) hs
      have hm : 1 ≤ min (buffer.length - read) (sizes.headD (buffer.length - read)) := by omega
      have hmle : min (buffer.length - read) (sizes.headD (buffer.length - read)) ≤
          buffer.length - read := Nat.min_le_left _ _
      generalize hmdef : min (buffer.length - read) (sizes.headD (buffer.length - read)) = m
        at hm hmle
      have hbl : (stream.take m).length = m := by
        rw [List.length_take]
        omega
      have hfl : (fillAt buffer read (stream.take m)).length = buffer.length :=
        fillAt_length _ _ _ (by rw [hbl]; omega)
      obtain ⟨sizes1, hs1, h⟩ := ih (read + m) (fillAt buffer read (stream.take m))
        (stream.drop m) sizes.tail htail (by rw [hfl]; omega)
        (by rw [hfl, List.length_drop]; omega) (by rw [hfl]; omega)
      refine ⟨sizes1, hs1, ?_⟩
      unfold serialFillBufferLoop
      rw [if_pos hlt]
      rw [portRead_streamPort]
      simp only [hmdef]
      rw [List.take_of_length_le (by rw [hbl]; exact hmle), hbl, if_neg (by omega), h, hfl]
      have ht := fillAt_take buffer (stream.take m) read (by omega)
      rw [hbl] at ht
      have hsplit : buffer.length - read = m + (buffer.length - (read + m)) := by omega
      rw [ht, List.drop_drop]
      conv_rhs => rw [hsplit, List.take_add]
      simp [List.append_assoc]
    · have h0 : buffer.length - read = 0 := by omega
      refine ⟨sizes, hs, ?_⟩
      unfold serialFillBufferLoop
      rw [if_neg hlt, h0, List.take_of_length_le (by omega)]
      simp

theorem serialFillBufferLoop_stream_closed (k : Nat) :
    ∀ (read : Nat) (buffer stream sizes : List Nat), (∀ z ∈ sizes, 1 ≤ z) →
      stream.length < buffer.length - read → buffer.length - read ≤ k →
      ∃ sizes1 : List Nat,
        serialFillBufferLoop streamPort k (stream, sizes) read buffer =
          (Res.error (Error.flasher "Serial port closed unexpectedly" []), ([], sizes1)) := by
  induction k with
  | zero =>
    intro read buffer stream sizes _ hst hk
    omega
  | succ k ih =>
    intro read buffer stream sizes hs hst hk
    have hlt : read < buffer.length := by omega
    obtain ⟨hz, htail⟩ := headD_sizes sizes (buffer.length - read) (by omega) hs
    have hm : 1 ≤ min (buffer.length - read) (sizes.headD (buffer.length - read)) := by omega
    have hmle : min (buffer.length - read) (sizes.headD (buffer.length - read)) ≤
        buffer.length - read := Nat.min_le_left _ _
    generalize hmdef : min (buffer.length - read) (sizes.headD (buffer.length - read)) = m
      at hm hmle
    have hbl : (stream.take m).length = min m stream.length := List.length_take _ _
    unfold serialFillBufferLoop
    rw [if_pos hlt]
    rw [portRead_streamPort]
    simp only [hmdef]
    rw [List.take_of_length_le (by rw [hbl]; omega)]
    by_cases hempty : stream = []
    · subst hempty
      exact ⟨sizes.tail, by simp⟩
    · have hpos : 0 < stream.length := List.length_pos.mpr hempty
      rw [if_neg (by rw [hbl]; omega)]
      have hfl : (fillAt buffer read (stream.take m)).length = buffer.length :=
        fillAt_length _ _ _ (by rw [hbl]; omega)
      obtain ⟨sizes1, h⟩ := ih (read + (stream.take m).length)
        (fillAt buffer read (stream.take m)) (stream.drop m) sizes.tail htail
        (by rw [hfl, List.length_drop, hbl]; omega) (by rw [hfl, hbl]; omega)
      exact ⟨sizes1, h⟩

theorem serialFillBuffer_stream_full (f : WincFlasher (List Nat × List Nat))
    (buffer : List Nat) (hs : ∀ z ∈ f.port.2, 1 ≤ z) (hlen : buffer.length ≤ f.port.1.length) :
    ∃ sizes1 : List Nat, (∀ z ∈ sizes1, 1 ≤ z) ∧
      serialFillBuffer streamPort f buffer =
        (Res.ok (f.port.1.take buffer.length),
          f.setPort (f.port.1.drop buffer.length, sizes1)) := by
  obtain ⟨sizes1, h1, h⟩ := serialFillBufferLoop_stream_full buffer.length 0 buffer f.port.1
    f.port.2 hs (by omega) (by omega) (by omega)
  refine ⟨sizes1, h1, ?_⟩
  unfold serialFillBuffer
  rw [show f.port = (f.port.1, f.port.2) from rfl, h]
  simp

theorem serialFillBuffer_stream_closed (f : WincFlasher (List Nat × List Nat))
    (buffer : List Nat) (hs : ∀ z ∈ f.port.2, 1 ≤ z) (hlen : f.port.1.length < buffer.length) :
    ∃ sizes1 : List Nat,
      serialFillBuffer streamPort f buffer =
        (Res.error (Error.flasher "Serial port closed unexpectedly" []),
          f.setPort ([], sizes1)) := by
  obtain ⟨sizes1, h⟩ := serialFillBufferLoop_stream_closed buffer.length 0 buffer f.port.1
    f.port.2 hs (by omega) (by omega)
  refine ⟨sizes1, ?_⟩
  unfold serialFillBuffer
  rw [show f.port = (f.port.1, f.port.2) from rfl, h]

theorem read_streamPort (fuel : Nat) (f : WincFlasher (List Nat × List Nat))
    (address length : Nat) (hs : ∀ z ∈ f.port.2, 1 ≤ z)
    (hlen : length + 2 ≤ f.port.1.length) :
    ∃ sizes1 : List Nat, (∀ z ∈ sizes1, 1 ≤ z) ∧
      read streamPort (fuel + 1) f address length =
        (if (f.port.1.drop length).take 2 ≠ ackOK then
            some (Res.error (Error.flasher "Missing ack on read: "
              ((f.port.1.drop length).take 2)))
          else some (Res.ok (f.port.1.take length)),
          WincFlasher.mk (f.port.1.drop (length + 2), sizes1) f.payloadSize
            (f.sent ++ [sendCommandBuffer (CommandData.mk 0x01 address length none)])
            f.stdout) := by
  have hmk : (makeBytes length).length = length := by simp [makeBytes]
  obtain ⟨sizes1, h1, hfill1⟩ := serialFillBuffer_stream_full
    (WincFlasher.mk f.port f.payloadSize
      (f.sent ++ [sendCommandBuffer (CommandData.mk 0x01 address length none)]) f.stdout)
    (makeBytes length) hs (by rw [hmk]; dsimp only; omega)
  obtain ⟨sizes2, h2, hfill2⟩ := serialFillBuffer_stream_full
    (WincFlasher.mk (f.port.1.drop length, sizes1) f.payloadSize
      (f.sent ++ [sendCommandBuffer (CommandData.mk 0x01 address length none)]) f.stdout)
    (makeBytes 2) h1 (by simp only [makeBytes, List.length_replicate, List.length_drop]; omega)
  refine ⟨sizes2, h2, ?_⟩
  unfold read
  rw [sendCommand_streamPort]
  dsimp only
  rw [hfill1, hmk]
  simp only [WincFlasher.setPort]
  rw [hfill2]
  simp only [WincFlasher.setPort, makeBytes, List.length_replicate, List.drop_drop]
  by_cases hack : (f.port.1.drop length).take 2 ≠ ackOK
  · rw [if_pos hack, if_pos hack]
  · rw [if_neg hack, if_neg hack]

theorem read_ok_checked {σ : Type} (p : Port σ) (fuel : Nat) (f : WincFlasher σ)
    (address length : Nat) (data : List Nat)
    (h : (read p fuel f address length).1 = some (Res.ok data)) :
    ∃ f1 f2 f3 : WincFlasher σ,
      sendCommand p fuel f (CommandData.mk 0x01 address length none) = (some (Res.ok ()), f1) ∧
      serialFillBuffer p f1 (makeBytes length) = (Res.ok data, f2) ∧
      serialFillBuffer p f2 (makeBytes 2) = (Res.ok ackOK, f3) ∧
      read p fuel f address length = (some (Res.ok data), f3) := by
  unfold read at h ⊢
  rcases hsend : sendCommand p fuel f (CommandData.mk 0x01 address length none) with ⟨r, f1⟩
  rw [hsend] at h
  rcases r with _ | r
  · simp at h
  · cases r with
    | error e => simp at h
    | ok u =>
      dsimp only at h ⊢
      rcases hfill : serialFillBuffer p f1 (makeBytes length) with ⟨r2, f2⟩
      rw [hfill] at h
      cases r2 with
      | error e => simp at h
      | ok result =>
        dsimp only at h ⊢
        rcases hfill3 : serialFillBuffer p f2 (makeBytes 2) with ⟨r3, f3⟩
        rw [hfill3] at h
        cases r3 with
        | error e => simp at h
        | ok ack =>
          dsimp only at h ⊢
          by_cases hack : ack ≠ ackOK
          · rw [if_pos hack] at h
            simp at h
          · rw [if_neg hack] at h ⊢
            have hd : result = data := by simpa using h
            have ha : ack = ackOK := not_not.mp hack
            subst hd
            subst ha
            exact ⟨f1, f2, f3, rfl, hfill, hfill3, rfl⟩

/-! ## Session construction -/

theorem capability_frame :
    sendCommandBuffer (CommandData.mk 0x50 0 0 none) = [80, 0, 0, 0, 0, 0, 0, 0, 0, 0, 0] := by
  decide

theorem getMaximumPayloadSize_fields {σ : Type} (p : Port σ) (fuel : Nat) (f : WincFlasher σ) :
    (getMaximumPayloadSize p fuel f).2.sent =
        f.sent ++ [sendCommandBuffer (CommandData.mk 0x50 0 0 none)] ∧
      (getMaximumPayloadSize p fuel f).2.stdout = f.stdout ∧
      ∀ v, (getMaximumPayloadSize p fuel f).1 = some (Res.ok v) → v < 65536 := by
  unfold getMaximumPayloadSize
  have hs := sendCommand_sent p fuel f (CommandData.mk 0x50 0 0 none)
  rcases hsend : sendCommand p fuel f (CommandData.mk 0x50 0 0 none) with ⟨r, f1⟩
  rw [hsend] at hs
  rcases r with _ | r
  · exact ⟨hs.1, hs.2.2, by simp⟩
  · cases r with
    | error e => exact ⟨hs.1, hs.2.2, by simp⟩
    | ok u =>
      dsimp only
      have hf := serialFillBuffer_fields p f1 (makeBytes 2)
      rcases hfill : serialFillBuffer p f1 (makeBytes 2) with ⟨r2, f2⟩
      rw [hfill] at hf
      dsimp only at hs hf
      cases r2 with
      | error e =>
        dsimp only
        exact ⟨by rw [hf.1, hs.1], by rw [hf.2.2, hs.2.2], by simp⟩
      | ok res =>
        dsimp only
        refine ⟨by rw [hf.1, hs.1], by rw [hf.2.2, hs.2.2], ?_⟩
        intro v hv
        simp only [Option.some.injEq, Res.ok.injEq] at hv
        rw [← hv]
        exact Nat.mod_lt _ (by decide)

theorem NewWincFlasher_fields {σ : Type} (p : Port σ) (fuel : Nat) (s : σ) :
    (NewWincFlasher p fuel s).2.sent = [sendCommandBuffer (CommandData.mk 0x50 0 0 none)] ∧
      (NewWincFlasher p fuel s).2.stdout = [] ∧
      ∀ g, (NewWincFlasher p fuel s).1 = some (Res.ok g) →
        g = (NewWincFlasher p fuel s).2 ∧ 1024 ≤ g.payloadSize ∧ g.payloadSize ≤ 65535 := by
  unfold NewWincFlasher
  dsimp only
  have hg := getMaximumPayloadSize_fields p fuel (WincFlasher.mk s 0 [] [])
  rcases hq : getMaximumPayloadSize p fuel (WincFlasher.mk s 0 [] []) with ⟨r, f1⟩
  rw [hq] at hg
  dsimp only at hg
  rw [List.nil_append] at hg
  rcases r with _ | r
  · exact ⟨hg.1, hg.2.1, by simp⟩
  · cases r with
    | error e => exact ⟨hg.1, hg.2.1, by simp⟩
    | ok v =>
      dsimp only
      have hv := hg.2.2 v rfl
      by_cases hlt : v < 1024
      · rw [if_pos hlt]
        exact ⟨hg.1, hg.2.1, by simp⟩
      · rw [if_neg hlt]
        refine ⟨hg.1, hg.2.1, ?_⟩
        intro g hgeq
        simp only [Option.some.injEq, Res.ok.injEq] at hgeq
        rw [← hgeq]
        exact ⟨rfl, by dsimp only; omega, by dsimp only; omega⟩

theorem NewWincFlasher_devicePort_port {δ : Type} (d : Device δ) (fuel : Nat) (s : δ)
    (b0 b1 : Nat)
    (hr : (d.reply s (sendCommandBuffer (CommandData.mk 0x50 0 0 none))).1 = [b0, b1]) :
    (NewWincFlasher (devicePort d) (fuel + 1) (s, [])).2.port =
      ((d.reply s (sendCommandBuffer (CommandData.mk 0x50 0 0 none))).2, []) := by
  unfold NewWincFlasher getMaximumPayloadSize
  dsimp only
  rw [sendCommand_devicePort]
  dsimp only
  rw [serialFillBuffer_devicePort _ _ _ (by simp [makeBytes, hr])]
  simp only [hr, List.nil_append, makeBytes, List.length_replicate, WincFlasher.setPort,
    List.take_succ_cons, List.take_zero, List.getD_cons_zero, List.getD_cons_succ,
    List.drop_succ_cons, List.drop_zero]
  split <;> rfl

/-! ## The handshake -/

theorem hello_frame :
    sendCommandBuffer (CommandData.mk 0x99 0x11223344 0x55667788 none) =
      [0x99, 0x11, 0x22, 0x33, 0x44, 0x55, 0x66, 0x77, 0x88, 0, 0] := by
  decide

theorem fillAt_makeBytes (N : Nat) (bytes : List Nat) :
    fillAt (makeBytes N) 0 bytes = bytes ++ List.replicate (N - bytes.length) 0 := by
  simp [fillAt, makeBytes, List.drop_replicate]

theorem hello_buffer (bytes : List Nat) :
    fillAt (makeBytes 65535) 0 bytes = bytes ++ List.replicate (65535 - bytes.length) 0 :=
  fillAt_makeBytes 65535 bytes

theorem replicate_getD (N : Nat) : (List.replicate N 0).getD 0 0 = 0 := by
  cases N with
  | zero => rfl
  | succ N => rfl

/-- The run of `hello` once the frame is sent and the read has returned
`bytes`. -/
theorem hello_after_read {σ : Type} (p : Port σ) (fuel : Nat) (f f1 : WincFlasher σ) (s2 : σ)
    (bytes : List Nat)
    (hsend : sendCommand p fuel f (CommandData.mk 0x99 0x11223344 0x55667788 none) =
      (some (Res.ok ()), f1))
    (hread : portRead p f1.port 65535 = (Res.ok bytes, s2)) :
    hello p fuel f =
      (if 6 ≤ bytes.length then
        (if (bytes.drop (bytes.length - 6)).getD 0 0 ≠ 118 then
          some (Res.error (Error.flasher "Programmer is not responding" []))
        else if bytes.drop (bytes.length - 6) ≠ [118, 49, 48, 48, 48, 48] then
          some (Res.error (Error.flasher "Programmer version mismatch, v10000 needed: "
            (bytes.drop (bytes.length - 6))))
        else some (Res.ok ()))
      else
        (if bytes.getD 0 0 ≠ 118 then
          some (Res.error (Error.flasher "Programmer is not responding" []))
        else
          some (Res.error (Error.flasher "Programmer version mismatch, v10000 needed: "
            (bytes ++ List.replicate (65535 - bytes.length) 0)))), f1.setPort s2) := by
  unfold hello
  rw [hsend]
  dsimp only
  rw [hread]
  dsimp only
  rw [hello_buffer bytes]
  by_cases h6 : 6 ≤ bytes.length
  · have hge : bytes.length ≥ 6 := h6
    rw [if_pos hge, if_pos h6, List.take_left' rfl]
    by_cases hv : (bytes.drop (bytes.length - 6)).getD 0 0 ≠ 118
    · rw [if_pos hv, if_pos hv]
    · rw [if_neg hv, if_neg hv]
      by_cases hm : bytes.drop (bytes.length - 6) ≠ [118, 49, 48, 48, 48, 48]
      · rw [if_pos hm, if_pos hm]
      · rw [if_neg hm, if_neg hm]
  · have hge : ¬ bytes.length ≥ 6 := h6
    rw [if_neg hge, if_neg h6]
    have hget : (bytes ++ List.replicate (65535 - bytes.length) 0).getD 0 0 = bytes.getD 0 0 := by
      cases bytes with
      | nil =>
        rw [List.nil_append]
        exact replicate_getD _
      | cons b bs => simp
    have hlen : bytes ++ List.replicate (65535 - bytes.length) 0 ≠
        [118, 49, 48, 48, 48, 48] := by
      intro h
      have := congrArg List.length h
      simp only [List.length_append, List.length_replicate, List.length_cons,
        List.length_nil] at this
      omega
    rw [hget]
    by_cases hv : bytes.getD 0 0 ≠ 118
    · rw [if_pos hv, if_pos hv]
    · rw [if_neg hv, if_neg hv, if_pos hlen]

/-! ## The shape of the frames of any run of `flashChunk` -/

theorem chunksFrom_bounds (L P : Nat) (hP : 0 < P) :
    ∀ (n i : Nat) (c : Nat × Nat), c ∈ chunksFrom L P n i →
      1 ≤ c.2 ∧ c.2 ≤ P ∧ c.1 + c.2 ≤ L ∧ c.1 < L := by
  intro n
  induction n with
  | zero =>
    intro i c h
    simp [chunksFrom] at h
  | succ n ih =>
    intro i c h
    by_cases hlt : i < L
    · rw [chunksFrom_cons _ _ _ _ hlt, List.mem_cons] at h
      rcases h with h | h
      · subst h
        dsimp only
        omega
      · exact ih _ c h
    · rw [chunksFrom_nil _ _ _ _ hlt] at h
      simp at h

theorem flashChunk_sent_shape {σ : Type} (p : Port σ) (fuel : Nat) (f : WincFlasher σ)
    (A : Nat) (image : List Nat) :
    ∃ m k : Nat,
      (flashChunk intSize p fuel f A image).2.sent =
        f.sent ++ specEraseFrame A image.length ::
          (((chunksFrom image.length f.payloadSize fuel 0).take m).map (specWriteFrame A image) ++
            ((chunksFrom image.length f.payloadSize fuel 0).take k).map (specReadFrame A)) := by
  rw [flashChunk_phases]
  have he := erase_fields p fuel f (uint32 A) (uint32 image.length)
  rw [erase_frame] at he
  rcases her : erase p fuel f (uint32 A) (uint32 image.length) with ⟨r1, f1⟩
  rw [her] at he
  dsimp only at he
  rcases r1 with _ | r1
  · exact ⟨0, 0, by simp [he.1]⟩
  · cases r1 with
    | error e => exact ⟨0, 0, by simp [he.1]⟩
    | ok u =>
      dsimp only
      have hw := flashChunkWriteLoop_sent intSize p fuel A image fuel 0 f1
      rcases hwr : flashChunkWriteLoop intSize p fuel A image fuel 0 f1 with ⟨r2, f2⟩
      rw [hwr] at hw
      dsimp only at hw
      obtain ⟨hwp, ⟨m, hwm⟩, _⟩ := hw
      rw [he.2.1] at hwm hwp
      rcases r2 with _ | r2
      · exact ⟨m, 0, by simp [hwm, he.1]⟩
      · cases r2 with
        | error e => exact ⟨m, 0, by simp [hwm, he.1]⟩
        | ok u2 =>
          dsimp only
          have hr := flashChunkReadLoop_sent p fuel A image fuel 0 [] f2 (dvd_zero _)
          rcases hrr : flashChunkReadLoop p fuel A image fuel 0 [] f2 with ⟨r3, f3⟩
          rw [hrr] at hr
          dsimp only at hr
          obtain ⟨_, ⟨k, hrk⟩, _⟩ := hr
          rw [hwp] at hrk
          have hsent : f3.sent = f.sent ++ specEraseFrame A image.length ::
              (((chunksFrom image.length f.payloadSize fuel 0).take m).map
                  (specWriteFrame A image) ++
                ((chunksFrom image.length f.payloadSize fuel 0).take k).map
                  (specReadFrame A)) := by
            rw [hrk, hwm, he.1]
            simp
          refine ⟨m, k, ?_⟩
          rcases r3 with _ | r3
          · exact hsent
          · cases r3 with
            | error e => exact hsent
            | ok d =>
              dsimp only
              by_cases hne : image ≠ d
              · rw [if_pos hne]
                exact hsent
              · rw [if_neg hne]
                exact hsent

/-! ## The send loop under partial writes -/

theorem sendCommandLoop_progress {σ : Type} (p : Port σ) (inv : σ → Prop)
    (hp : ∀ s, inv s → ∀ data : List Nat, ∃ k s1, p.Write s data = (PortResult.ok k, s1) ∧
      inv s1 ∧ (data ≠ [] → 1 ≤ k)) :
    ∀ (n : Nat) (s : σ) (data : List Nat), inv s → data.length ≤ n + 1 →
      ∃ s1, inv s1 ∧ sendCommandLoop p (n + 1) s data = (some (Res.ok ()), s1) := by
  intro n
  induction n with
  | zero =>
    intro s data hs hlen
    obtain ⟨k, s1, hw, hs1, hk⟩ := hp s hs data
    refine ⟨s1, hs1, ?_⟩
    unfold sendCommandLoop portWrite
    rw [hw]
    dsimp only
    by_cases hd : data = []
    · subst hd
      simp
    · have h1 := hk hd
      rw [if_pos (by omega)]
  | succ n ih =>
    intro s data hs hlen
    obtain ⟨k, s1, hw, hs1, hk⟩ := hp s hs data
    unfold sendCommandLoop portWrite
    rw [hw]
    dsimp only
    by_cases hdone : min k data.length = data.length
    · rw [if_pos hdone]
      exact ⟨s1, hs1, rfl⟩
    · rw [if_neg hdone]
      have hd : data ≠ [] := by
        intro h
        subst h
        simp at hdone
      have h1 := hk hd
      exact ih s1 _ hs1 (by rw [List.length_drop]; omega)

theorem portWrite_scriptedWrites (script wire data : List Nat) :
    portWrite scriptedWrites (script, wire) data =
      (Res.ok (min (script.headD data.length) data.length),
        (script.tail, wire ++ data.take (script.headD data.length))) := rfl

theorem headD_script (script : List Nat) (d : Nat) (hs : ∀ k ∈ script, 1 ≤ k) :
    (script.headD d = d ∨ 1 ≤ script.headD d) ∧ ∀ k ∈ script.tail, 1 ≤ k := by
  cases script with
  | nil => exact ⟨Or.inl rfl, by simp⟩
  | cons a t =>
    exact ⟨Or.inr (hs a (List.mem_cons_self _ _)),
      fun k hk => hs k (List.mem_cons_of_mem _ hk)⟩

theorem sendCommandLoop_scriptedWrites :
    ∀ (n : Nat) (data script wire : List Nat), (∀ k ∈ script, 1 ≤ k) → data.length ≤ n + 1 →
      ∃ script1 : List Nat, (∀ k ∈ script1, 1 ≤ k) ∧
        sendCommandLoop scriptedWrites (n + 1) (script, wire) data =
          (some (Res.ok ()), (script1, wire ++ data)) := by
  intro n
  induction n with
  | zero =>
    intro data script wire hs hlen
    obtain ⟨hk, htail⟩ := headD_script script data.length hs
    refine ⟨script.tail, htail, ?_⟩
    unfold sendCommandLoop
    rw [portWrite_scriptedWrites]
    dsimp only
    rw [if_pos (by omega), List.take_of_length_le (by omega)]
  | succ n ih =>
    intro data script wire hs hlen
    obtain ⟨hk, htail⟩ := headD_script script data.length hs
    unfold sendCommandLoop
    rw [portWrite_scriptedWrites]
    dsimp only
    by_cases hdone : min (script.headD data.length) data.length = data.length
    · rw [if_pos hdone, List.take_of_length_le (by omega)]
      exact ⟨script.tail, htail, rfl⟩
    · rw [if_neg hdone]
      have hlt : script.headD data.length < data.length := by omega
      rw [Nat.min_eq_left (Nat.le_of_lt hlt)]
      obtain ⟨script1, h1, h⟩ := ih (data.drop (script.headD data.length)) script.tail
        (wire ++ data.take (script.headD data.length)) htail
        (by rw [List.length_drop]; omega)
      refine ⟨script1, h1, ?_⟩
      rw [h, List.append_assoc, List.take_append_drop]

/-! ## The percentages printed by `flashChunk` -/

theorem flashChunkWriteLoop_stdout {σ : Type} (p : Port σ) (fuel A : Nat) (image : List Nat) :
    ∀ (n i : Nat) (f : WincFlasher σ),
      ∃ m : Nat,
        (flashChunkWriteLoop intSize p fuel A image n i f).2.stdout =
          f.stdout ++ ((chunksFrom image.length f.payloadSize n i).take m).map
            (fun c => percentage intSize c.1 image.length) := by
  intro n
  induction n with
  | zero =>
    intro i f
    exact ⟨0, by simp [flashChunkWriteLoop]⟩
  | succ n ih =>
    intro i f
    unfold flashChunkWriteLoop
    by_cases hlt : i < image.length
    · rw [if_pos hlt]
      dsimp only
      have hw := write_fields p fuel
        (WincFlasher.mk f.port f.payloadSize f.sent
          (f.stdout ++ [percentage intSize i image.length]))
        (uint32 (A + i))
        ((image.take (if i + f.payloadSize > image.length then image.length
          else i + f.payloadSize)).drop i)
      rcases hwr : write p fuel
        (WincFlasher.mk f.port f.payloadSize f.sent
          (f.stdout ++ [percentage intSize i image.length]))
        (uint32 (A + i))
        ((image.take (if i + f.payloadSize > image.length then image.length
          else i + f.payloadSize)).drop i) with ⟨r, f2⟩
      rw [hwr] at hw
      dsimp only at hw
      have hcf : chunksFrom image.length f.payloadSize (n + 1) i =
          (i, min (i + f.payloadSize) image.length - i) ::
            chunksFrom image.length f.payloadSize n (i + f.payloadSize) := by
        simp [chunksFrom, hlt]
      rcases r with _ | r
      · refine ⟨1, ?_⟩
        rw [hw.2.2, hcf]
        simp
      · cases r with
        | error e =>
          refine ⟨1, ?_⟩
          rw [hw.2.2, hcf]
          simp
        | ok u =>
          dsimp only
          obtain ⟨m, h1⟩ := ih (i + f2.payloadSize) f2
          refine ⟨m + 1, ?_⟩
          rw [h1, hw.2.2, hw.2.1, hcf]
          simp
    · rw [if_neg hlt]
      exact ⟨0, by simp⟩

theorem flashChunkReadLoop_stdout {σ : Type} (p : Port σ) (fuel A : Nat) (image : List Nat) :
    ∀ (n i : Nat) (flashData : List Nat) (f : WincFlasher σ),
      (flashChunkReadLoop p fuel A image n i flashData f).2.stdout = f.stdout := by
  intro n
  induction n with
  | zero =>
    intro i flashData f
    rfl
  | succ n ih =>
    intro i flashData f
    unfold flashChunkReadLoop
    by_cases hlt : i < image.length
    · rw [if_pos hlt]
      dsimp only
      have hw := read_fields p fuel f (uint32 (A + i))
        (uint32 (if i + f.payloadSize > image.length then image.length % f.payloadSize
          else f.payloadSize))
      rcases hwr : read p fuel f (uint32 (A + i))
        (uint32 (if i + f.payloadSize > image.length then image.length % f.payloadSize
          else f.payloadSize)) with ⟨r, f2⟩
      rw [hwr] at hw
      dsimp only at hw
      rcases r with _ | r
      · exact hw.2.2
      · cases r with
        | error e => exact hw.2.2
        | ok d =>
          dsimp only
          rw [ih, hw.2.2]
    · rw [if_neg hlt]

theorem flashChunk_stdout {σ : Type} (p : Port σ) (fuel : Nat) (f : WincFlasher σ) (A : Nat)
    (image : List Nat) :
    ∃ m : Nat,
      (flashChunk intSize p fuel f A image).2.stdout =
        f.stdout ++ ((chunksFrom image.length f.payloadSize fuel 0).take m).map
          (fun c => percentage intSize c.1 image.length) := by
  rw [flashChunk_phases]
  have he := erase_fields p fuel f (uint32 A) (uint32 image.length)
  rcases her : erase p fuel f (uint32 A) (uint32 image.length) with ⟨r1, f1⟩
  rw [her] at he
  dsimp only at he
  rcases r1 with _ | r1
  · exact ⟨0, by simp [he.2.2]⟩
  · cases r1 with
    | error e => exact ⟨0, by simp [he.2.2]⟩
    | ok u =>
      dsimp only
      obtain ⟨m, h1⟩ := flashChunkWriteLoop_stdout intSize p fuel A image fuel 0 f1
      rcases hwr : flashChunkWriteLoop intSize p fuel A image fuel 0 f1 with ⟨r2, f2⟩
      rw [hwr] at h1
      dsimp only at h1
      rw [he.2.2, he.2.1] at h1
      rcases r2 with _ | r2
      · exact ⟨m, h1⟩
      · cases r2 with
        | error e => exact ⟨m, h1⟩
        | ok u2 =>
          dsimp only
          have hr := flashChunkReadLoop_stdout p fuel A image fuel 0 [] f2
          rcases hrr : flashChunkReadLoop p fuel A image fuel 0 [] f2 with ⟨r3, f3⟩
          rw [hrr] at hr
          dsimp only at hr
          rw [h1] at hr
          refine ⟨m, ?_⟩
          rcases r3 with _ | r3
          · exact hr
          · cases r3 with
            | error e => exact hr
            | ok d =>
              dsimp only
              by_cases hne : image ≠ d
              · rw [if_pos hne]
                exact hr
              · rw [if_neg hne]
                exact hr

theorem flashChunk_empty {σ : Type} (p : Port σ) (fuel : Nat) (f f1 : WincFlasher σ) (A : Nat)
    (h : erase p fuel f (uint32 A) 0 = (some (Res.ok ()), f1)) :
    flashChunk intSize p fuel f A [] = (some (Res.ok ()), f1) := by
  have hfuel : fuel ≠ 0 := by
    intro h0
    subst h0
    simp [erase, sendCommand, sendCommandLoop] at h
  obtain ⟨n, rfl⟩ : ∃ n, fuel = n + 1 := ⟨fuel - 1, by omega⟩
  rw [flashChunk_phases]
  have hu : uint32 ([] : List Nat).length = 0 := rfl
  rw [hu, h]
  simp [flashChunkWriteLoop, flashChunkReadLoop]

theorem chunksFrom_start_lt (L P : Nat) :
    ∀ (n i : Nat) (c : Nat × Nat), c ∈ chunksFrom L P n i → c.1 < L := by
  intro n
  induction n with
  | zero =>
    intro i c h
    simp [chunksFrom] at h
  | succ n ih =>
    intro i c h
    by_cases hlt : i < L
    · simp only [chunksFrom, hlt, if_true, List.mem_cons] at h
      rcases h with h | h
      · rw [h]
        exact hlt
      · exact ih _ c h
    · rw [chunksFrom_nil L P (n + 1) i hlt] at h
      simp at h

theorem goInt_of_lt (intSize n : Nat) (hs : 1 ≤ intSize) (h : n < 2 ^ (intSize - 1)) :
    goInt intSize (n : Int) = (n : Int) := by
  obtain ⟨k, rfl⟩ : ∃ k, intSize = k + 1 := ⟨intSize - 1, by omega⟩
  unfold goInt
  rw [Nat.add_sub_cancel, pow_succ] at *
  generalize 2 ^ k = M at *
  rw [Int.emod_eq_of_lt (by omega) (by push_cast; omega)]
  omega

theorem percentage_nat (intSize i L : Nat) (hs : 1 ≤ intSize)
    (ho : i * 100 < 2 ^ (intSize - 1)) :
    percentage intSize i L = (((i * 100) / L : Nat) : Int) := by
  unfold percentage
  have h := goInt_of_lt intSize (i * 100) hs ho
  push_cast at h
  rw [h, Int.ofNat_tdiv]
  push_cast
  rfl

theorem percentage_range (intSize i L : Nat) (hs : 1 ≤ intSize) (h : i < L)
    (ho : i * 100 < 2 ^ (intSize - 1)) :
    0 ≤ percentage intSize i L ∧ percentage intSize i L ≤ 99 := by
  rw [percentage_nat intSize i L hs ho]
  have hpct : (i * 100) / L ≤ 99 := by
    apply Nat.le_of_lt_succ
    rw [Nat.div_lt_iff_lt_mul (by omega)]
    omega
  constructor
  · exact Int.ofNat_nonneg _
  · exact_mod_cast hpct

theorem percentage_wraps (wipe : (Nat → Nat) → Nat → Nat → (Nat → Nat)) (m0 : Nat → Nat)
    (image : List Nat) (h : image.length = 31457280) :
    (-63 : Int) ∈ (flashChunk 32 (devicePort (memDevice wipe)) 30722
      (WincFlasher.mk (m0, []) 1024 [] []) 0 image).2.stdout := by
  obtain ⟨m1, hrun, _, _⟩ := flashChunk_mem 32 wipe 30722 1024 image m0 [] [] (by decide)
    (by decide) (by rw [h]; decide) (by rw [specChunkPlan_length, h]; decide)
  rw [hrun]
  dsimp only
  rw [List.nil_append]
  apply List.mem_map.mpr
  refine ⟨(23068672, 1024), ?_, ?_⟩
  · unfold specChunkPlan
    rw [h]
    exact List.mem_map.mpr ⟨22528, List.mem_range.mpr (by decide), by decide⟩
  · dsimp only
    rw [h]
    decide

theorem flashChunk_empty_sent {σ : Type} (p : Port σ) (fuel : Nat) (f : WincFlasher σ)
    (A : Nat) :
    (flashChunk intSize p fuel f A []).2.sent = f.sent ++ [specEraseFrame A 0] ∧
      (flashChunk intSize p fuel f A []).2.stdout = f.stdout := by
  constructor
  · obtain ⟨m, k, h⟩ := flashChunk_sent_shape intSize p fuel f A []
    rw [h]
    have hn : chunksFrom ([] : List Nat).length f.payloadSize fuel 0 = [] :=
      chunksFrom_nil _ _ _ _ (by simp)
    rw [hn]
    simp
  · obtain ⟨m, h⟩ := flashChunk_stdout intSize p fuel f A []
    rw [h]
    have hn : chunksFrom ([] : List Nat).length f.payloadSize fuel 0 = [] :=
      chunksFrom_nil _ _ _ _ (by simp)
    rw [hn]
    simp

/-! ## A run of `flashChunk` whose addresses wrap around -/

/-- C1: for every opcode, 32-bit address, 32-bit value and payload of at
most 65535 bytes (or no payload), the buffer `sendCommand` builds and hands
to the port is the opcode byte, the address as 4 big-endian bytes, the
value as 4 big-endian bytes, the payload length as 2 big-endian bytes (0
without payload) and the payload bytes unchanged, 11 + len(payload) bytes
in all; the big-endian fields denote the address, the value and the
payload length; the first `port.Write` is called on exactly this buffer,
so a device on a line that accepts it receives exactly these bytes. -/
theorem C1_sendCommand_wire_format (op addr val : Nat) (payload : Option (List Nat))
    (hop : op < 256) (haddr : addr < 4294967296) (hval : val < 4294967296)
    (hlen : (payloadBytes payload).length ≤ 65535) :
    sendCommandBuffer (CommandData.mk op addr val payload) =
        [op] ++ specBigEndian 4 addr ++ specBigEndian 4 val ++
          specBigEndian 2 (payloadBytes payload).length ++ payloadBytes payload ∧
      (sendCommandBuffer (CommandData.mk op addr val payload)).length =
        11 + (payloadBytes payload).length ∧
      specBigEndianValue (specBigEndian 4 addr) = addr ∧
      specBigEndianValue (specBigEndian 4 val) = val ∧
      specBigEndianValue (specBigEndian 2 (payloadBytes payload).length) =
        (payloadBytes payload).length ∧
      (payload = none → specBigEndian 2 (payloadBytes payload).length = [0, 0]) ∧
      (∀ (σ : Type) (p : Port σ) (fuel : Nat) (f : WincFlasher σ),
        sendCommand p (fuel + 1) f (CommandData.mk op addr val payload) =
          (match portWrite p f.port (sendCommandBuffer (CommandData.mk op addr val payload)) with
           | (Res.error e, s1) =>
             (some (Res.error e), WincFlasher.mk s1 f.payloadSize
               (f.sent ++ [sendCommandBuffer (CommandData.mk op addr val payload)]) f.stdout)
           | (Res.ok sent, s1) =>
             if sent = (sendCommandBuffer (CommandData.mk op addr val payload)).length then
               (some (Res.ok ()), WincFlasher.mk s1 f.payloadSize
                 (f.sent ++ [sendCommandBuffer (CommandData.mk op addr val payload)]) f.stdout)
             else
               (match sendCommandLoop p fuel s1
                   ((sendCommandBuffer (CommandData.mk op addr val payload)).drop sent) with
                | (r, s2) => (r, WincFlasher.mk s2 f.payloadSize
                    (f.sent ++ [sendCommandBuffer (CommandData.mk op addr val payload)])
                    f.stdout)))) ∧
      (∀ (δ : Type) (d : Device δ) (fuel : Nat) (f : WincFlasher (δ × List Nat)),
        sendCommand (devicePort d) (fuel + 1) f (CommandData.mk op addr val payload) =
          (some (Res.ok ()),
            WincFlasher.mk
              ((d.reply f.port.1 ([op] ++ specBigEndian 4 addr ++ specBigEndian 4 val ++
                  specBigEndian 2 (payloadBytes payload).length ++ payloadBytes payload)).2,
                f.port.2 ++ (d.reply f.port.1 ([op] ++ specBigEndian 4 addr ++
                  specBigEndian 4 val ++ specBigEndian 2 (payloadBytes payload).length ++
                  payloadBytes payload)).1)
              f.payloadSize
              (f.sent ++ [[op] ++ specBigEndian 4 addr ++ specBigEndian 4 val ++
                specBigEndian 2 (payloadBytes payload).length ++ payloadBytes payload])
              f.stdout)) := by
  have hbuf : sendCommandBuffer (CommandData.mk op addr val payload) =
      [op] ++ specBigEndian 4 addr ++ specBigEndian 4 val ++
        specBigEndian 2 (payloadBytes payload).length ++ payloadBytes payload := by
    rw [sendCommandBuffer_bytes, ← putUint32_eq_specBigEndian, ← putUint32_eq_specBigEndian,
      ← putUint16_eq_specBigEndian]
    simp [uint16, Nat.mod_eq_of_lt hop, Nat.mod_eq_of_lt (Nat.lt_succ_of_le hlen)]
  refine ⟨hbuf, sendCommandBuffer_length _, ?_, ?_, ?_, ?_, ?_, ?_⟩
  · rw [← putUint32_eq_specBigEndian]; exact specBigEndianValue_putUint32 addr haddr
  · rw [← putUint32_eq_specBigEndian]; exact specBigEndianValue_putUint32 val hval
  · rw [← putUint16_eq_specBigEndian]
    exact specBigEndianValue_putUint16 _ (Nat.lt_succ_of_le hlen)
  · intro h
    subst h
    simp [payloadBytes, specBigEndian, List.range_succ]
  · intro σ p fuel f
    simp only [sendCommand, sendCommandLoop]
    rcases hw : portWrite p f.port (sendCommandBuffer (CommandData.mk op addr val payload))
      with ⟨r, s1⟩
    cases r with
    | error e => simp
    | ok sent =>
      by_cases hs : sent = (sendCommandBuffer (CommandData.mk op addr val payload)).length
      · simp [hs]
      · simp [hs]
  · intro δ d fuel f
    rw [sendCommand_devicePort, hbuf]

/-- Witness of C1: the write frame for address 0x01020304 with payload
[7, 8, 9]. -/
theorem C1_sendCommand_wire_format_witness :
    sendCommandBuffer (CommandData.mk 2 16909060 0 (some [7, 8, 9])) =
      [2, 1, 2, 3, 4, 0, 0, 0, 0, 0, 3, 7, 8, 9] :=
  (C1_sendCommand_wire_format 2 16909060 0 (some [7, 8, 9]) (by decide) (by decide)
    (by decide) (by decide)).1.trans (by decide)

/-- C2: the chunk plan of `flashChunk`.  (1) On every port, a run in which
every exchange was acknowledged "OK" (it ended in success or in the
verification error) has sent the erase frame, then one write frame per
chunk of the plan, at address `A + i` with payload `image[i : min(i+P, L)]`,
then one read frame per chunk of the same plan, at address `A + i` and
requesting the chunk's length.  (2) Against a device that answers "OK" to
the erase and to every write, and data followed by "OK" to every read, the
run does end, with these frames sent, for every payload size P >= 1.
(3) The plan has one chunk per offset `k * P < L`, the `k`-th being
`(k * P, min (k * P + P) L - k * P)`; its last chunk has length `L mod P`
when that is nonzero and `P` otherwise.  (4) The payload of the write frame
of a chunk has the chunk's length, which the read frame of the chunk
requests, at the same address (fields as the 32-bit header carries them).
(5) For L = 2500 and P = 1024 the plan is (0, 1024), (1024, 1024),
(2048, 452). -/
theorem C2_chunk_plan :
    (∀ (σ : Type) (p : Port σ) (fuel : Nat) (f f1 : WincFlasher σ) (A : Nat) (image : List Nat)
        (r : Res Unit),
      flashChunk intSize p fuel f A image = (some r, f1) →
      (r = Res.ok () ∨ r = Res.error (Error.plain "flash data does not match written")) →
      f1.sent = f.sent ++ specEraseFrame A image.length ::
        ((specChunkPlan image.length f.payloadSize).map (specWriteFrame A image) ++
          (specChunkPlan image.length f.payloadSize).map (specReadFrame A))) ∧
    (∀ (fuel A P : Nat) (image : List Nat) (datas rest : List (List Nat))
        (sent : List (List Nat)) (out : List Int),
      0 < P →
      datas.map List.length = (specChunkPlan image.length P).map (fun c => uint32 c.2) →
      (specChunkPlan image.length P).length < fuel →
      ∃ r, (r = Res.ok () ∨ r = Res.error (Error.plain "flash data does not match written")) ∧
        flashChunk intSize (devicePort scriptDevice) fuel
          (WincFlasher.mk
            (ackOK :: (List.replicate (specChunkPlan image.length P).length ackOK ++
              (datas.map (fun d => d ++ ackOK) ++ rest)), []) P sent out) A image =
        (some r,
          WincFlasher.mk (rest, []) P
            (sent ++ specEraseFrame A image.length ::
              ((specChunkPlan image.length P).map (specWriteFrame A image) ++
                (specChunkPlan image.length P).map (specReadFrame A)))
            (out ++ (specChunkPlan image.length P).map
              (fun c => percentage intSize c.1 image.length)))) ∧
    (∀ (L P : Nat), 0 < P →
      (∀ k, k * P < L ↔ k < (specChunkPlan L P).length) ∧
      (∀ k, k < (specChunkPlan L P).length →
        (specChunkPlan L P)[k]? = some (k * P, min (k * P + P) L - k * P)) ∧
      (0 < L → ∃ i, (specChunkPlan L P).getLast? =
        some (i, if L % P = 0 then P else L % P))) ∧
    (∀ (A P : Nat) (image : List Nat) (c : Nat × Nat), 0 < P →
      c ∈ specChunkPlan image.length P →
      (specWriteFrame A image c).drop 11 = (image.take (min (c.1 + P) image.length)).drop c.1 ∧
      ((specWriteFrame A image c).drop 11).length = c.2 ∧
      (specParseHeader (specWriteFrame A image c)).opcode = 2 ∧
      (specParseHeader (specReadFrame A c)).opcode = 1 ∧
      (specParseHeader (specWriteFrame A image c)).address = uint32 (A + c.1) ∧
      (specParseHeader (specReadFrame A c)).address = uint32 (A + c.1) ∧
      (specParseHeader (specReadFrame A c)).value = uint32 c.2) ∧
    specChunkPlan 2500 1024 = [(0, 1024), (1024, 1024), (2048, 452)] := by
  refine ⟨?_, ?_, ?_, ?_, by decide⟩
  · intro σ p fuel f f1 A image r h hr
    exact flashChunk_done_sent intSize p fuel f f1 A image r h hr
  · intro fuel A P image datas rest sent out hP hd hfuel
    refine ⟨if image ≠ datas.flatten then
      Res.error (Error.plain "flash data does not match written") else Res.ok (), ?_, ?_⟩
    · by_cases hne : image ≠ datas.flatten
      · rw [if_pos hne]
        exact Or.inr rfl
      · rw [if_neg hne]
        exact Or.inl rfl
    · rw [flashChunk_scripted intSize fuel A P image datas _ rest sent out hP rfl hd hfuel]
      by_cases hne : image ≠ datas.flatten
      · simp only [if_pos hne]
      · simp only [if_neg hne]
  · intro L P hP
    refine ⟨?_, ?_, ?_⟩
    · intro k
      rw [specChunkPlan_length]
      exact (lt_chunks_iff L P k hP).symm
    · intro k hk
      exact specChunkPlan_getElem L P k hk
    · intro hL
      exact ⟨_, specChunkPlan_last L P hP hL⟩
  · intro A P image c hP hc
    obtain ⟨k, rfl, hk⟩ := specChunkPlan_mem image.length P hP c hc
    have hpay : (specWriteFrame A image (k * P, min (k * P + P) image.length - k * P)).drop 11 =
        (image.drop (k * P)).take (min (k * P + P) image.length - k * P) := by
      unfold specWriteFrame
      rw [sendCommandBuffer_drop]
      rfl
    refine ⟨?_, ?_, ?_, ?_, ?_, ?_, ?_⟩
    · rw [hpay, List.drop_take]
    · rw [hpay, List.length_take, List.length_drop]
      dsimp only
      omega
    · unfold specWriteFrame
      rw [specParseHeader_sendCommandBuffer]
      rfl
    · unfold specReadFrame
      rw [specParseHeader_sendCommandBuffer]
      rfl
    · unfold specWriteFrame
      rw [specParseHeader_sendCommandBuffer]
    · unfold specReadFrame
      rw [specParseHeader_sendCommandBuffer]
    · unfold specReadFrame
      rw [specParseHeader_sendCommandBuffer]

/-- Witness of C2: a 7-byte image at base 16 with payload size 3 against
the scripted device; the three chunks are (0, 3), (3, 3), (6, 1). -/
theorem C2_chunk_plan_witness :
    (flashChunk 64 (devicePort scriptDevice) 4
      (WincFlasher.mk
        ([ackOK, ackOK, ackOK, ackOK, [1, 2, 3, 79, 75], [4, 5, 6, 79, 75], [7, 79, 75]], [])
        3 [] []) 16 [1, 2, 3, 4, 5, 6, 7]).2.sent =
      [[3, 0, 0, 0, 16, 0, 0, 0, 7, 0, 0],
        [2, 0, 0, 0, 16, 0, 0, 0, 0, 0, 3, 1, 2, 3],
        [2, 0, 0, 0, 19, 0, 0, 0, 0, 0, 3, 4, 5, 6],
        [2, 0, 0, 0, 22, 0, 0, 0, 0, 0, 1, 7],
        [1, 0, 0, 0, 16, 0, 0, 0, 3, 0, 0],
        [1, 0, 0, 0, 19, 0, 0, 0, 3, 0, 0],
        [1, 0, 0, 0, 22, 0, 0, 0, 1, 0, 0]] :=
  ((C2_chunk_plan 64).1 _ (devicePort scriptDevice) 4
    (WincFlasher.mk
      ([ackOK, ackOK, ackOK, ackOK, [1, 2, 3, 79, 75], [4, 5, 6, 79, 75], [7, 79, 75]], [])
      3 [] [])
    (flashChunk 64 (devicePort scriptDevice) 4
      (WincFlasher.mk
        ([ackOK, ackOK, ackOK, ackOK, [1, 2, 3, 79, 75], [4, 5, 6, 79, 75], [7, 79, 75]], [])
        3 [] []) 16 [1, 2, 3, 4, 5, 6, 7]).2
    16 [1, 2, 3, 4, 5, 6, 7] (Res.ok ()) (by decide) (Or.inl rfl)).trans (by decide)

/-- C3: `serialFillBuffer` on a port whose successive reads return the
successive chunks of a script.  (1) When the reads `cs`, none of them
empty, add up to exactly the length of the buffer, it succeeds, the buffer
holds the bytes of `cs` in order (the first n bytes of the stream) and the
reads after `cs` are left unperformed.  (2) When the reads before the first
empty one add up to less than the length of the buffer, it fails with
"Serial port closed unexpectedly".  (3) On every port, a success returns a
buffer of exactly the requested length.  (4) On every port, at every turn
of the loop with bytes still missing, a read of no byte ends the call with
that error. -/
theorem C3_serialFillBuffer_exact :
    (∀ (cs rest : List (List Nat)) (f : WincFlasher (List (List Nat))) (buffer : List Nat),
      f.port = cs ++ rest → (∀ c ∈ cs, c ≠ []) → cs.flatten.length = buffer.length →
      serialFillBuffer scriptedReads f buffer = (Res.ok cs.flatten, f.setPort rest)) ∧
    (∀ (cs tl : List (List Nat)) (f : WincFlasher (List (List Nat))) (buffer : List Nat),
      f.port = cs ++ tl → (∀ c ∈ cs, c ≠ []) → tl.headD [] = [] →
      cs.flatten.length < buffer.length →
      serialFillBuffer scriptedReads f buffer =
        (Res.error (Error.flasher "Serial port closed unexpectedly" []), f.setPort tl.tail)) ∧
    (∀ (σ : Type) (p : Port σ) (f f1 : WincFlasher σ) (buffer out : List Nat),
      serialFillBuffer p f buffer = (Res.ok out, f1) → out.length = buffer.length) ∧
    (∀ (σ : Type) (p : Port σ) (k : Nat) (s s1 : σ) (read : Nat) (buffer : List Nat),
      read < buffer.length → portRead p s (buffer.length - read) = (Res.ok [], s1) →
      serialFillBufferLoop p (k + 1) s read buffer =
        (Res.error (Error.flasher "Serial port closed unexpectedly" []), s1)) := by
  refine ⟨?_, ?_, ?_, ?_⟩
  · intro cs rest f buffer hport hne hsum
    unfold serialFillBuffer
    rw [hport, serialFillBufferLoop_scripted_full rest cs _ 0 buffer hne (by omega) (by omega)]
    simp
  · intro cs tl f buffer hport hne htl hsum
    unfold serialFillBuffer
    rw [hport, serialFillBufferLoop_scripted_closed tl htl cs _ 0 buffer hne (by omega)
      (by omega)]
  · intro σ p f f1 buffer out h
    exact serialFillBuffer_length p f f1 buffer out h
  · intro σ p k s s1 read buffer hlt hr
    unfold serialFillBufferLoop
    rw [if_pos hlt, hr]
    simp

/-- Witness of C3: five bytes requested, delivered by reads of 2, 1 and 2
bytes, a fourth read left alone; and a closure after three bytes. -/
theorem C3_serialFillBuffer_exact_witness :
    serialFillBuffer scriptedReads (WincFlasher.mk [[1, 2], [3], [4, 5], [6]] 1024 [] [])
        (makeBytes 5) =
      (Res.ok [1, 2, 3, 4, 5], WincFlasher.mk [[6]] 1024 [] []) ∧
    serialFillBuffer scriptedReads (WincFlasher.mk [[1, 2], [3], [], [4, 5]] 1024 [] [])
        (makeBytes 5) =
      (Res.error (Error.flasher "Serial port closed unexpectedly" []),
        WincFlasher.mk [[4, 5]] 1024 [] []) :=
  ⟨C3_serialFillBuffer_exact.1 [[1, 2], [3], [4, 5]] [[6]]
      (WincFlasher.mk [[1, 2], [3], [4, 5], [6]] 1024 [] []) (makeBytes 5) rfl (by decide)
      (by decide),
    C3_serialFillBuffer_exact.2.1 [[1, 2], [3]] [[], [4, 5]]
      (WincFlasher.mk [[1, 2], [3], [], [4, 5]] 1024 [] []) (makeBytes 5) rfl (by decide)
      (by decide) (by decide)⟩

/-- C4: verification.  (1) Against a device that answers "OK" to the
erase and to every write, and the read-back chunks `datas` (each of the
length its read asks for), each followed by "OK", to the reads,
`flashChunk` with payload size P >= 1 returns success if and only if the
concatenation of the read-back chunks equals the image (which then has its
length), and otherwise returns the error "flash data does not match
written".  (2) On every port, when the erase, the write loop and the read
loop returned success, the result is success if the bytes read are the
image and that one error otherwise. -/
theorem C4_verify_iff :
    (∀ (fuel A P : Nat) (image : List Nat) (datas rest : List (List Nat))
        (sent : List (List Nat)) (out : List Int),
      0 < P →
      datas.map List.length = (specChunkPlan image.length P).map (fun c => uint32 c.2) →
      (specChunkPlan image.length P).length < fuel →
      (flashChunk intSize (devicePort scriptDevice) fuel
          (WincFlasher.mk
            (ackOK :: (List.replicate (specChunkPlan image.length P).length ackOK ++
              (datas.map (fun d => d ++ ackOK) ++ rest)), []) P sent out) A image).1 =
          (if datas.flatten = image then some (Res.ok ())
           else some (Res.error (Error.plain "flash data does not match written"))) ∧
        ((flashChunk intSize (devicePort scriptDevice) fuel
          (WincFlasher.mk
            (ackOK :: (List.replicate (specChunkPlan image.length P).length ackOK ++
              (datas.map (fun d => d ++ ackOK) ++ rest)), []) P sent out) A image).1 =
            some (Res.ok ()) ↔ datas.flatten = image) ∧
        (datas.flatten = image → datas.flatten.length = image.length)) ∧
    (∀ (σ : Type) (p : Port σ) (fuel : Nat) (f f1 f2 f3 : WincFlasher σ) (A : Nat)
        (image flashData : List Nat),
      erase p fuel f (uint32 A) (uint32 image.length) = (some (Res.ok ()), f1) →
      flashChunkWriteLoop intSize p fuel A image fuel 0 f1 = (some (Res.ok ()), f2) →
      flashChunkReadLoop p fuel A image fuel 0 [] f2 = (some (Res.ok flashData), f3) →
      flashChunk intSize p fuel f A image =
        (if flashData = image then some (Res.ok ())
         else some (Res.error (Error.plain "flash data does not match written")), f3)) := by
  refine ⟨?_, ?_⟩
  · intro fuel A P image datas rest sent out hP hd hfuel
    rw [flashChunk_scripted intSize fuel A P image datas _ rest sent out hP rfl hd hfuel]
    dsimp only
    by_cases heq : datas.flatten = image
    · have hne : ¬ image ≠ datas.flatten := fun h => h heq.symm
      rw [if_neg hne, if_pos heq]
      exact ⟨rfl, ⟨fun _ => heq, fun _ => rfl⟩, fun h => by rw [h]⟩
    · have hne : image ≠ datas.flatten := fun h => heq h.symm
      rw [if_pos hne, if_neg heq]
      refine ⟨rfl, ⟨fun h => ?_, fun h => absurd h heq⟩, fun h => absurd h heq⟩
      simp at h
  · intro σ p fuel f f1 f2 f3 A image flashData he hw hr
    rw [flashChunk_phases, he]
    dsimp only
    rw [hw]
    dsimp only
    rw [hr]
    dsimp only
    by_cases heq : flashData = image
    · have hne : ¬ image ≠ flashData := fun h => h heq.symm
      rw [if_neg hne, if_pos heq]
    · have hne : image ≠ flashData := fun h => heq h.symm
      rw [if_pos hne, if_neg heq]

/-- Witness of C4: a 7-byte image read back with its fifth byte changed
fails verification. -/
theorem C4_verify_iff_witness :
    (flashChunk 64 (devicePort scriptDevice) 4
      (WincFlasher.mk
        ([ackOK, ackOK, ackOK, ackOK, [1, 2, 3, 79, 75], [4, 9, 6, 79, 75], [7, 79, 75]], [])
        3 [] []) 0 [1, 2, 3, 4, 5, 6, 7]).1 =
      some (Res.error (Error.plain "flash data does not match written")) :=
  ((C4_verify_iff 64).1 4 0 3 [1, 2, 3, 4, 5, 6, 7] [[1, 2, 3], [4, 9, 6], [7]] [] [] []
    (by decide) (by decide) (by decide)).1.trans (by decide)

/-- C5: for write, erase and read, once the frame is sent and the
transport has delivered the response (for read, the data and then the two
acknowledgment bytes `b0`, `b1`), the operation succeeds when the two bytes
are 'O', 'K' and otherwise returns the FlasherError "Missing ack on
write/erase/read: " followed by the two bytes; so it succeeds if and only
if they are exactly 'O', 'K'.  The last part says the same against any
device on a line that loses nothing, in terms of the device's answer. -/
theorem C5_ack_decides {σ : Type} (p : Port σ) (fuel : Nat) (f f1 f2 : WincFlasher σ)
    (b0 b1 : Nat) :
    (∀ (address : Nat) (buffer : List Nat),
      sendCommand p fuel f (CommandData.mk 0x02 address 0 (some buffer)) =
        (some (Res.ok ()), f1) →
      serialFillBuffer p f1 (makeBytes 2) = (Res.ok [b0, b1], f2) →
      write p fuel f address buffer =
          (if b0 = 79 ∧ b1 = 75 then some (Res.ok ())
           else some (Res.error (Error.flasher "Missing ack on write: " [b0, b1])), f2) ∧
        ((write p fuel f address buffer).1 = some (Res.ok ()) ↔ (b0 = 79 ∧ b1 = 75))) ∧
    (∀ (address length : Nat),
      sendCommand p fuel f (CommandData.mk 0x03 address length none) =
        (some (Res.ok ()), f1) →
      serialFillBuffer p f1 (makeBytes 2) = (Res.ok [b0, b1], f2) →
      erase p fuel f address length =
          (if b0 = 79 ∧ b1 = 75 then some (Res.ok ())
           else some (Res.error (Error.flasher "Missing ack on erase: " [b0, b1])), f2) ∧
        ((erase p fuel f address length).1 = some (Res.ok ()) ↔ (b0 = 79 ∧ b1 = 75))) ∧
    (∀ (address length : Nat) (f3 : WincFlasher σ) (result : List Nat),
      sendCommand p fuel f (CommandData.mk 0x01 address length none) =
        (some (Res.ok ()), f1) →
      serialFillBuffer p f1 (makeBytes length) = (Res.ok result, f2) →
      serialFillBuffer p f2 (makeBytes 2) = (Res.ok [b0, b1], f3) →
      read p fuel f address length =
          (if b0 = 79 ∧ b1 = 75 then some (Res.ok result)
           else some (Res.error (Error.flasher "Missing ack on read: " [b0, b1])), f3) ∧
        ((∃ data, (read p fuel f address length).1 = some (Res.ok data)) ↔
          (b0 = 79 ∧ b1 = 75))) ∧
    (∀ (δ : Type) (d : Device δ) (g : WincFlasher (δ × List Nat)) (address length : Nat)
        (buffer data : List Nat),
      g.port.2 = [] →
      ((d.reply g.port.1 (sendCommandBuffer (CommandData.mk 0x02 address 0 (some buffer)))).1 =
          [b0, b1] →
        (write (devicePort d) (fuel + 1) g address buffer).1 =
          (if b0 = 79 ∧ b1 = 75 then some (Res.ok ())
           else some (Res.error (Error.flasher "Missing ack on write: " [b0, b1])))) ∧
      ((d.reply g.port.1 (sendCommandBuffer (CommandData.mk 0x03 address length none))).1 =
          [b0, b1] →
        (erase (devicePort d) (fuel + 1) g address length).1 =
          (if b0 = 79 ∧ b1 = 75 then some (Res.ok ())
           else some (Res.error (Error.flasher "Missing ack on erase: " [b0, b1])))) ∧
      ((d.reply g.port.1 (sendCommandBuffer (CommandData.mk 0x01 address length none))).1 =
          data ++ [b0, b1] → data.length = length →
        (read (devicePort d) (fuel + 1) g address length).1 =
          (if b0 = 79 ∧ b1 = 75 then some (Res.ok data)
           else some (Res.error (Error.flasher "Missing ack on read: " [b0, b1]))))) := by
  have hiff : ([b0, b1] ≠ ackOK) ↔ ¬ (b0 = 79 ∧ b1 = 75) := by
    simp [ackOK]
  refine ⟨?_, ?_, ?_, ?_⟩
  · intro address buffer hsend hfill
    have h : write p fuel f address buffer =
        (if b0 = 79 ∧ b1 = 75 then some (Res.ok ())
         else some (Res.error (Error.flasher "Missing ack on write: " [b0, b1])), f2) := by
      unfold write
      rw [hsend]
      simp only [hfill, ackOK]
      by_cases hb : b0 = 79 ∧ b1 = 75
      · simp [hb]
      · have : ¬ (b0 = 79 ∧ b1 = 75) := hb
        simp [hb]
    refine ⟨h, ?_⟩
    rw [h]
    by_cases hb : b0 = 79 ∧ b1 = 75
    · simp [hb]
    · simp [hb]
  · intro address length hsend hfill
    have h : erase p fuel f address length =
        (if b0 = 79 ∧ b1 = 75 then some (Res.ok ())
         else some (Res.error (Error.flasher "Missing ack on erase: " [b0, b1])), f2) := by
      unfold erase
      rw [hsend]
      simp only [hfill, ackOK]
      by_cases hb : b0 = 79 ∧ b1 = 75
      · simp [hb]
      · simp [hb]
    refine ⟨h, ?_⟩
    rw [h]
    by_cases hb : b0 = 79 ∧ b1 = 75
    · simp [hb]
    · simp [hb]
  · intro address length f3 result hsend hfill hack
    have h : read p fuel f address length =
        (if b0 = 79 ∧ b1 = 75 then some (Res.ok result)
         else some (Res.error (Error.flasher "Missing ack on read: " [b0, b1])), f3) := by
      unfold read
      rw [hsend]
      simp only [hfill, hack, ackOK]
      by_cases hb : b0 = 79 ∧ b1 = 75
      · simp [hb]
      · simp [hb]
    refine ⟨h, ?_⟩
    rw [h]
    by_cases hb : b0 = 79 ∧ b1 = 75
    · simp [hb]
    · simp [hb]
  · intro δ d g address length buffer data hq
    refine ⟨?_, ?_, ?_⟩
    · intro hr
      rw [write_devicePort d fuel g address buffer [b0, b1] hq hr rfl]
      by_cases hb : b0 = 79 ∧ b1 = 75
      · rw [if_neg (fun h => hiff.mp h hb), if_pos hb]
      · rw [if_pos (hiff.mpr hb), if_neg hb]
    · intro hr
      rw [erase_devicePort d fuel g address length [b0, b1] hq hr rfl]
      by_cases hb : b0 = 79 ∧ b1 = 75
      · rw [if_neg (fun h => hiff.mp h hb), if_pos hb]
      · rw [if_pos (hiff.mpr hb), if_neg hb]
    · intro hr hd
      rw [read_devicePort d fuel g address length data [b0, b1] hq hr hd rfl]
      by_cases hb : b0 = 79 ∧ b1 = 75
      · rw [if_neg (fun h => hiff.mp h hb), if_pos hb]
      · rw [if_pos (hiff.mpr hb), if_neg hb]

/-- Witness of C5: a write answered "NO" by a scripted device. -/
theorem C5_ack_decides_witness :
    write (devicePort scriptDevice) 1 (WincFlasher.mk ([[78, 79]], []) 1024 [] []) 0 [7] =
      (some (Res.error (Error.flasher "Missing ack on write: " [78, 79])),
        WincFlasher.mk ([], []) 1024 [[2, 0, 0, 0, 0, 0, 0, 0, 0, 0, 1, 7]] []) :=
  ((C5_ack_decides (devicePort scriptDevice) 1 (WincFlasher.mk ([[78, 79]], []) 1024 [] [])
    (WincFlasher.mk ([], [78, 79]) 1024 [[2, 0, 0, 0, 0, 0, 0, 0, 0, 0, 1, 7]] [])
    (WincFlasher.mk ([], []) 1024 [[2, 0, 0, 0, 0, 0, 0, 0, 0, 0, 1, 7]] []) 78 79).1
      0 [7] (by decide) (by decide)).1

/-- C6: when the capability frame is sent and the response is the two
bytes `b0`, `b1`, `NewWincFlasher` returns a flasher if and only if
256 * b0 + b1 is at least 1024; the flasher returned has exactly that
payloadSize, and on rejection the result is the error alone.  The last
part says the same against any device on a line that loses nothing whose
answer to the capability frame is `b0`, `b1`. -/
theorem C6_NewWincFlasher_threshold {σ : Type} (p : Port σ) (fuel : Nat) (s : σ)
    (f1 f2 : WincFlasher σ) (b0 b1 : Nat) (hb0 : b0 < 256) (hb1 : b1 < 256)
    (hsend : sendCommand p fuel (WincFlasher.mk s 0 [] []) (CommandData.mk 0x50 0 0 none) =
      (some (Res.ok ()), f1))
    (hfill : serialFillBuffer p f1 (makeBytes 2) = (Res.ok [b0, b1], f2)) :
    (1024 ≤ 256 * b0 + b1 →
      (NewWincFlasher p fuel s).1 =
        some (Res.ok (WincFlasher.mk f2.port (256 * b0 + b1) f2.sent f2.stdout))) ∧
    (256 * b0 + b1 < 1024 →
      (NewWincFlasher p fuel s).1 = some (Res.error (Error.payloadTooSmall (256 * b0 + b1)))) ∧
    ((∃ g, (NewWincFlasher p fuel s).1 = some (Res.ok g)) ↔ 1024 ≤ 256 * b0 + b1) ∧
    (∀ g, (NewWincFlasher p fuel s).1 = some (Res.ok g) → g.payloadSize = 256 * b0 + b1) ∧
    (∀ (δ : Type) (d : Device δ) (n : Nat) (t : δ),
      (d.reply t (sendCommandBuffer (CommandData.mk 0x50 0 0 none))).1 = [b0, b1] →
      (NewWincFlasher (devicePort d) (n + 1) (t, [])).1 =
        (if 256 * b0 + b1 < 1024 then
          some (Res.error (Error.payloadTooSmall (256 * b0 + b1)))
         else some (Res.ok (WincFlasher.mk
          ((d.reply t (sendCommandBuffer (CommandData.mk 0x50 0 0 none))).2, [])
          (256 * b0 + b1) [sendCommandBuffer (CommandData.mk 0x50 0 0 none)] [])))) := by
  have hdev : ∀ (δ : Type) (d : Device δ) (n : Nat) (t : δ),
      (d.reply t (sendCommandBuffer (CommandData.mk 0x50 0 0 none))).1 = [b0, b1] →
      (NewWincFlasher (devicePort d) (n + 1) (t, [])).1 =
        (if 256 * b0 + b1 < 1024 then
          some (Res.error (Error.payloadTooSmall (256 * b0 + b1)))
         else some (Res.ok (WincFlasher.mk
          ((d.reply t (sendCommandBuffer (CommandData.mk 0x50 0 0 none))).2, [])
          (256 * b0 + b1) [sendCommandBuffer (CommandData.mk 0x50 0 0 none)] []))) :=
    fun δ d n t h => NewWincFlasher_devicePort d n t b0 b1 hb0 hb1 h
  have hv : uint16 (uint16 (uint16 b0 * 256) + uint16 b1) = 256 * b0 + b1 := by
    simp only [uint16]
    omega
  have h : NewWincFlasher p fuel s =
      (if 256 * b0 + b1 < 1024 then
        (some (Res.error (Error.payloadTooSmall (256 * b0 + b1))), f2)
       else
        (some (Res.ok (WincFlasher.mk f2.port (256 * b0 + b1) f2.sent f2.stdout)),
          WincFlasher.mk f2.port (256 * b0 + b1) f2.sent f2.stdout)) := by
    unfold NewWincFlasher getMaximumPayloadSize
    simp only [hsend, hfill, List.getD_cons_zero, List.getD_cons_succ, hv]
  rw [h]
  by_cases hlt : 256 * b0 + b1 < 1024
  · rw [if_pos hlt]
    refine ⟨fun h1 => absurd hlt (by omega), fun _ => rfl, ?_, ?_, hdev⟩
    · constructor
      · rintro ⟨g, hg⟩
        simp at hg
      · intro h1
        omega
    · intro g hg
      simp at hg
  · rw [if_neg hlt]
    refine ⟨fun _ => rfl, fun h1 => absurd h1 hlt, ?_, ?_, hdev⟩
    · constructor
      · intro _
        omega
      · intro _
        exact ⟨_, rfl⟩
    · intro g hg
      simp only [Option.some.injEq, Res.ok.injEq] at hg
      rw [← hg]

/-- Witness of C6: the response 0x04 0x00 (1024) is accepted, the
responses 0x03 0xFF (1023) and 0x02 0x00 (512) are rejected. -/
theorem C6_NewWincFlasher_threshold_witness :
    (NewWincFlasher (devicePort scriptDevice) 1 ([[4, 0]], [])).1 =
        some (Res.ok (WincFlasher.mk ([], []) 1024 [[80, 0, 0, 0, 0, 0, 0, 0, 0, 0, 0]] [])) ∧
      (NewWincFlasher (devicePort scriptDevice) 1 ([[3, 255]], [])).1 =
        some (Res.error (Error.payloadTooSmall 1023)) ∧
      (NewWincFlasher (devicePort scriptDevice) 1 ([[2, 0]], [])).1 =
        some (Res.error (Error.payloadTooSmall 512)) :=
  ⟨(C6_NewWincFlasher_threshold (devicePort scriptDevice) 1 ([[4, 0]], [])
      (WincFlasher.mk ([], [4, 0]) 0 [[80, 0, 0, 0, 0, 0, 0, 0, 0, 0, 0]] [])
      (WincFlasher.mk ([], []) 0 [[80, 0, 0, 0, 0, 0, 0, 0, 0, 0, 0]] []) 4 0
      (by decide) (by decide) (by decide) (by decide)).1 (by decide),
    (C6_NewWincFlasher_threshold (devicePort scriptDevice) 1 ([[3, 255]], [])
      (WincFlasher.mk ([], [3, 255]) 0 [[80, 0, 0, 0, 0, 0, 0, 0, 0, 0, 0]] [])
      (WincFlasher.mk ([], []) 0 [[80, 0, 0, 0, 0, 0, 0, 0, 0, 0, 0]] []) 3 255
      (by decide) (by decide) (by decide) (by decide)).2.1 (by decide),
    (C6_NewWincFlasher_threshold (devicePort scriptDevice) 1 ([[2, 0]], [])
      (WincFlasher.mk ([], [2, 0]) 0 [[80, 0, 0, 0, 0, 0, 0, 0, 0, 0, 0]] [])
      (WincFlasher.mk ([], []) 0 [[80, 0, 0, 0, 0, 0, 0, 0, 0, 0, 0]] []) 2 0
      (by decide) (by decide) (by decide) (by decide)).2.1 (by decide)⟩

/-- C7: in every run of `flashChunk`, whatever the port does and however
long the run has gone on, the frames sent are the erase frame for address
`A` and length `L` (opcode 3), then write frames (opcode 2), then read
frames (opcode 1): a prefix of erase, write*, read* with exactly one erase
frame, in first place.  No write or read frame is sent unless `erase`
returned success (its acknowledgment was "OK"), and a read frame is sent
only when the write frames of all the chunks have been sent and the write
loop has returned success (each write acknowledged "OK"). -/
theorem C7_erase_write_read_order {σ : Type} (p : Port σ) (fuel : Nat) (f : WincFlasher σ)
    (A : Nat) (image : List Nat) :
    ∃ ws rs : List (List Nat),
      (flashChunk intSize p fuel f A image).2.sent =
        f.sent ++ specEraseFrame A image.length :: (ws ++ rs) ∧
      (specEraseFrame A image.length).head? = some 3 ∧
      specParseHeader (specEraseFrame A image.length) =
        Header.mk 3 (uint32 A) (uint32 image.length) 0 ∧
      (∀ w ∈ ws, w.head? = some 2) ∧
      (∀ x ∈ rs, x.head? = some 1) ∧
      ((erase p fuel f (uint32 A) (uint32 image.length)).1 ≠ some (Res.ok ()) →
        ws = [] ∧ rs = []) ∧
      (rs ≠ [] →
        ws = (specChunkPlan image.length f.payloadSize).map (specWriteFrame A image) ∧
        (flashChunkWriteLoop intSize p fuel A image fuel 0
          (erase p fuel f (uint32 A) (uint32 image.length)).2).1 = some (Res.ok ())) := by
  have hhdr : specParseHeader (specEraseFrame A image.length) =
      Header.mk 3 (uint32 A) (uint32 image.length) 0 := by
    unfold specEraseFrame
    rw [specParseHeader_sendCommandBuffer]
    simp [payloadBytes, uint16]
  rw [flashChunk_phases]
  have he := erase_fields p fuel f (uint32 A) (uint32 image.length)
  rw [erase_frame] at he
  rcases her : erase p fuel f (uint32 A) (uint32 image.length) with ⟨r1, f1⟩
  rw [her] at he
  dsimp only at he
  rcases r1 with _ | r1
  · exact ⟨[], [], by simp [he.1], specEraseFrame_head _ _, hhdr, by simp, by simp,
      fun _ => ⟨rfl, rfl⟩, fun h => absurd rfl h⟩
  · cases r1 with
    | error e =>
      exact ⟨[], [], by simp [he.1], specEraseFrame_head _ _, hhdr, by simp, by simp,
        fun _ => ⟨rfl, rfl⟩, fun h => absurd rfl h⟩
    | ok u =>
      dsimp only
      have hw := flashChunkWriteLoop_sent intSize p fuel A image fuel 0 f1
      rcases hwr : flashChunkWriteLoop intSize p fuel A image fuel 0 f1 with ⟨r2, f2⟩
      rw [hwr] at hw
      dsimp only at hw
      obtain ⟨hwp, ⟨m, hwm⟩, hwok⟩ := hw
      have hwhead : ∀ w ∈ ((chunksFrom image.length f1.payloadSize fuel 0).take m).map
          (specWriteFrame A image), w.head? = some 2 := by
        intro w hmem
        obtain ⟨c, _, rfl⟩ := List.mem_map.mp hmem
        exact specWriteFrame_head _ _ _
      rcases r2 with _ | r2
      · refine ⟨_, [], ?_, specEraseFrame_head _ _, hhdr, hwhead, by simp, ?_,
          fun h => absurd rfl h⟩
        · rw [hwm, he.1]
          simp
        · intro h
          exact absurd rfl h
      · cases r2 with
        | error e =>
          refine ⟨_, [], ?_, specEraseFrame_head _ _, hhdr, hwhead, by simp, ?_,
            fun h => absurd rfl h⟩
          · dsimp only
            rw [hwm, he.1]
            simp
          · intro h
            exact absurd rfl h
        | ok u2 =>
          dsimp only
          obtain ⟨hws, hstab⟩ := hwok rfl
          have hplan := chunksFrom_stable_plan image.length f1.payloadSize fuel hstab
          rw [hplan, he.1] at hws
          have hr := flashChunkReadLoop_sent p fuel A image fuel 0 [] f2 (dvd_zero _)
          rcases hrr : flashChunkReadLoop p fuel A image fuel 0 [] f2 with ⟨r3, f3⟩
          rw [hrr] at hr
          dsimp only at hr
          obtain ⟨_, ⟨k, hrk⟩, _⟩ := hr
          have hsent : f3.sent = f.sent ++ specEraseFrame A image.length ::
              ((specChunkPlan image.length f.payloadSize).map (specWriteFrame A image) ++
                ((chunksFrom image.length f2.payloadSize fuel 0).take k).map
                  (specReadFrame A)) := by
            rw [hrk, hws, he.2.1]
            simp
          have hrhead : ∀ x ∈ ((chunksFrom image.length f2.payloadSize fuel 0).take k).map
              (specReadFrame A), x.head? = some 1 := by
            intro x hmem
            obtain ⟨c, _, rfl⟩ := List.mem_map.mp hmem
            exact specReadFrame_head _ _
          have hwhead2 : ∀ w ∈ (specChunkPlan image.length f.payloadSize).map
              (specWriteFrame A image), w.head? = some 2 := by
            intro w hmem
            obtain ⟨c, _, rfl⟩ := List.mem_map.mp hmem
            exact specWriteFrame_head _ _ _
          have hfin : ∀ (r : Option (Res Unit)), (r, f3).2.sent =
              f.sent ++ specEraseFrame A image.length ::
                ((specChunkPlan image.length f.payloadSize).map (specWriteFrame A image) ++
                  ((chunksFrom image.length f2.payloadSize fuel 0).take k).map
                    (specReadFrame A)) := fun _ => hsent
          refine ⟨_, _, ?_, specEraseFrame_head _ _, hhdr, hwhead2, hrhead, ?_, ?_⟩
          · rcases r3 with _ | r3
            · exact hfin _
            · cases r3 with
              | error e => exact hfin _
              | ok d =>
                dsimp only
                by_cases hne : image ≠ d
                · rw [if_pos hne]
                  exact hfin _
                · rw [if_neg hne]
                  exact hfin _
          · intro h
            exact absurd rfl h
          · intro _
            exact ⟨rfl, rfl⟩

/-- Witness of C7: the statement for a 7-byte image with payload size 3
against a scripted device whose second write is answered "NO". -/
theorem C7_erase_write_read_order_witness :
    ∃ ws rs : List (List Nat),
      (flashChunk 64 (devicePort scriptDevice) 4
          (WincFlasher.mk ([ackOK, ackOK, [78, 79]], []) 3 [] []) 0
          [1, 2, 3, 4, 5, 6, 7]).2.sent =
        [] ++ specEraseFrame 0 7 :: (ws ++ rs) ∧
      (∀ w ∈ ws, w.head? = some 2) ∧ (∀ x ∈ rs, x.head? = some 1) :=
  match C7_erase_write_read_order 64 (devicePort scriptDevice) 4
      (WincFlasher.mk ([ackOK, ackOK, [78, 79]], []) 3 [] []) 0 [1, 2, 3, 4, 5, 6, 7] with
  | ⟨ws, rs, h1, _, _, h4, h5, _, _⟩ => ⟨ws, rs, h1, h4, h5⟩

/-- C8: against a device that answers "OK" to the erase and to the first
`k` write frames and any other two bytes `bad` to the next write frame,
`flashChunk` returns the error "Missing ack on write: " with those bytes;
the frames sent are the erase frame and the first `k + 1` write frames and
nothing else, and the device's later answers are left untouched. -/
theorem C8_write_abort (fuel A P k : Nat) (image bad : List Nat) (rest : List (List Nat))
    (sent : List (List Nat)) (out : List Int)
    (hP : 0 < P) (hbl : bad.length = 2) (hbad : bad ≠ ackOK)
    (hk : k < (specChunkPlan image.length P).length)
    (hfuel : (specChunkPlan image.length P).length ≤ fuel) :
    flashChunk intSize (devicePort scriptDevice) fuel
        (WincFlasher.mk (ackOK :: (List.replicate k ackOK ++ bad :: rest), []) P sent out)
        A image =
      (some (Res.error (Error.flasher "Missing ack on write: " bad)),
        WincFlasher.mk (rest, []) P
          (sent ++ specEraseFrame A image.length ::
            ((specChunkPlan image.length P).take (k + 1)).map (specWriteFrame A image))
          (out ++ ((specChunkPlan image.length P).take (k + 1)).map
            (fun c => percentage intSize c.1 image.length))) ∧
      (((specChunkPlan image.length P).take (k + 1)).map (specWriteFrame A image)).length =
        k + 1 :=
  ⟨flashChunk_scripted_bad intSize fuel A P k image bad _ rest sent out hP hbl hbad rfl hk hfuel,
    by rw [List.length_map, List.length_take]; omega⟩

/-- Witness of C8: the second write chunk of a 7-byte image (payload size
3) is answered "NO"; the third chunk is never sent. -/
theorem C8_write_abort_witness :
    flashChunk 64 (devicePort scriptDevice) 3
        (WincFlasher.mk ([ackOK, ackOK, [78, 79], ackOK], []) 3 [] []) 0
        [1, 2, 3, 4, 5, 6, 7] =
      (some (Res.error (Error.flasher "Missing ack on write: " [78, 79])),
        WincFlasher.mk ([ackOK], []) 3
          [[3, 0, 0, 0, 0, 0, 0, 0, 7, 0, 0],
            [2, 0, 0, 0, 0, 0, 0, 0, 0, 0, 3, 1, 2, 3],
            [2, 0, 0, 0, 3, 0, 0, 0, 0, 0, 3, 4, 5, 6]]
          [0, 42]) :=
  (C8_write_abort 64 3 0 3 1 [1, 2, 3, 4, 5, 6, 7] [78, 79] [ackOK] [] [] (by decide) (by decide)
    (by decide) (by decide) (by decide)).1.trans (by decide)

/-- C9, as stated, fails: for a payload of 65536 bytes the payload-length
field of the frame parses to 0 while 65536 payload bytes follow the
header. -/
theorem C9_counterexample :
    (specParseHeader (sendCommandBuffer
        (CommandData.mk 2 0 0 (some (List.replicate 65536 0))))).length = 0 ∧
      ((sendCommandBuffer
        (CommandData.mk 2 0 0 (some (List.replicate 65536 0)))).drop 11).length = 65536 := by
  exact parse_long_payload (List.replicate 65536 0) (List.length_replicate 65536 0)

/-- C9, amended: for every opcode byte, 32-bit address, 32-bit value and
payload of at most 65535 bytes (or none), parsing the first 11 bytes of the
frame `sendCommand` builds gives back opcode, address and value; the
parsed payload length equals the byte length of what follows the header,
which is the payload; and a frame with a non-empty payload never has
payload length 0. -/
theorem C9_header_roundtrip (op addr val : Nat) (payload : Option (List Nat))
    (hop : op < 256) (haddr : addr < 4294967296) (hval : val < 4294967296)
    (hlen : (payloadBytes payload).length ≤ 65535) :
    specParseHeader (sendCommandBuffer (CommandData.mk op addr val payload)) =
        Header.mk op addr val (payloadBytes payload).length ∧
      (sendCommandBuffer (CommandData.mk op addr val payload)).drop 11 = payloadBytes payload ∧
      (specParseHeader (sendCommandBuffer (CommandData.mk op addr val payload))).length =
        ((sendCommandBuffer (CommandData.mk op addr val payload)).drop 11).length ∧
      (payloadBytes payload ≠ [] →
        (specParseHeader (sendCommandBuffer (CommandData.mk op addr val payload))).length ≠ 0) := by
  have hp : specParseHeader (sendCommandBuffer (CommandData.mk op addr val payload)) =
      Header.mk op addr val (payloadBytes payload).length := by
    rw [specParseHeader_sendCommandBuffer]
    simp [uint16, uint32, Nat.mod_eq_of_lt hop, Nat.mod_eq_of_lt haddr, Nat.mod_eq_of_lt hval,
      Nat.mod_eq_of_lt (Nat.lt_succ_of_le hlen)]
  refine ⟨hp, sendCommandBuffer_drop _, ?_, ?_⟩
  · rw [hp, sendCommandBuffer_drop]
  · intro hne
    rw [hp]
    simpa using hne

/-- Witness of C9 (amended): the read frame for address 0x01020304 and
length 0x0506. -/
theorem C9_header_roundtrip_witness :
    specParseHeader [1, 1, 2, 3, 4, 0, 0, 5, 6, 0, 0] = Header.mk 1 16909060 1286 0 :=
  (C9_header_roundtrip 1 16909060 1286 none (by decide) (by decide) (by decide)
    (by decide)).1

/-- C11: for write, erase and read over a transport whose successive
reads return the chunks of a script: when, while the two acknowledgment
bytes are awaited (for read, after the data has arrived in full), the reads
`cs` deliver fewer than two bytes (none, or one byte, whatever it is) and
the next read returns no byte, the operation returns the error "Serial
port closed unexpectedly", neither success nor a missing-ack error, and
performs no further read.  On every port, an error of `serialFillBuffer`
on the acknowledgment is what the operation returns. -/
theorem C11_closed_mid_ack (fuel : Nat) (f : WincFlasher (List (List Nat)))
    (cs tl : List (List Nat)) (hne : ∀ c ∈ cs, c ≠ []) (hsum : cs.flatten.length < 2)
    (htl : tl.headD [] = []) :
    (∀ (address : Nat) (buffer : List Nat), f.port = cs ++ tl →
      write scriptedReads (fuel + 1) f address buffer =
        (some (Res.error (Error.flasher "Serial port closed unexpectedly" [])),
          WincFlasher.mk tl.tail f.payloadSize
            (f.sent ++ [sendCommandBuffer (CommandData.mk 0x02 address 0 (some buffer))])
            f.stdout)) ∧
    (∀ (address length : Nat), f.port = cs ++ tl →
      erase scriptedReads (fuel + 1) f address length =
        (some (Res.error (Error.flasher "Serial port closed unexpectedly" [])),
          WincFlasher.mk tl.tail f.payloadSize
            (f.sent ++ [sendCommandBuffer (CommandData.mk 0x03 address length none)])
            f.stdout)) ∧
    (∀ (address length : Nat) (ds : List (List Nat)), f.port = ds ++ (cs ++ tl) →
      (∀ d ∈ ds, d ≠ []) → ds.flatten.length = length →
      read scriptedReads (fuel + 1) f address length =
        (some (Res.error (Error.flasher "Serial port closed unexpectedly" [])),
          WincFlasher.mk tl.tail f.payloadSize
            (f.sent ++ [sendCommandBuffer (CommandData.mk 0x01 address length none)])
            f.stdout)) ∧
    (∀ (σ : Type) (p : Port σ) (n : Nat) (g g1 g2 : WincFlasher σ) (address : Nat)
        (buffer : List Nat) (e : Error),
      sendCommand p n g (CommandData.mk 0x02 address 0 (some buffer)) =
        (some (Res.ok ()), g1) →
      serialFillBuffer p g1 (makeBytes 2) = (Res.error e, g2) →
      write p n g address buffer = (some (Res.error e), g2)) := by
  refine ⟨?_, ?_, ?_, ?_⟩
  · intro address buffer hport
    unfold write
    rw [sendCommand_scriptedReads]
    dsimp only
    rw [serialFillBuffer_scripted_closed cs tl
      (WincFlasher.mk f.port f.payloadSize
        (f.sent ++ [sendCommandBuffer (CommandData.mk 0x02 address 0 (some buffer))]) f.stdout)
      (makeBytes 2) hport hne htl (by simpa [makeBytes] using hsum)]
    rfl
  · intro address length hport
    unfold erase
    rw [sendCommand_scriptedReads]
    dsimp only
    rw [serialFillBuffer_scripted_closed cs tl
      (WincFlasher.mk f.port f.payloadSize
        (f.sent ++ [sendCommandBuffer (CommandData.mk 0x03 address length none)]) f.stdout)
      (makeBytes 2) hport hne htl (by simpa [makeBytes] using hsum)]
    rfl
  · intro address length ds hport hds hlen
    unfold read
    rw [sendCommand_scriptedReads]
    dsimp only
    rw [serialFillBuffer_scripted_full ds (cs ++ tl)
      (WincFlasher.mk f.port f.payloadSize
        (f.sent ++ [sendCommandBuffer (CommandData.mk 0x01 address length none)]) f.stdout)
      (makeBytes length) hport hds (by simpa [makeBytes] using hlen)]
    dsimp only
    rw [serialFillBuffer_scripted_closed cs tl
      (WincFlasher.setPort (WincFlasher.mk f.port f.payloadSize
        (f.sent ++ [sendCommandBuffer (CommandData.mk 0x01 address length none)]) f.stdout)
        (cs ++ tl))
      (makeBytes 2) rfl hne htl (by simpa [makeBytes] using hsum)]
    rfl
  · intro σ p n g g1 g2 address buffer e hsend hfill
    unfold write
    rw [hsend]
    dsimp only
    rw [hfill]

/-- Witness of C11: a write whose acknowledgment stops after the byte 'O';
the 'K' that a later read would have returned is never read. -/
theorem C11_closed_mid_ack_witness :
    write scriptedReads 1 (WincFlasher.mk [[79], [], [75]] 1024 [] []) 0 [7] =
      (some (Res.error (Error.flasher "Serial port closed unexpectedly" [])),
        WincFlasher.mk [[75]] 1024 [[2, 0, 0, 0, 0, 0, 0, 0, 0, 0, 1, 7]] []) :=
  ((C11_closed_mid_ack 0 (WincFlasher.mk [[79], [], [75]] 1024 [] []) [[79]] [[], [75]]
    (by decide) (by decide) (by decide)).1 0 [7] rfl).trans (by decide)

/-- C14: `read` over a byte stream delivered in pieces of any sizes (each
read giving at least one byte).  It sends the frame of the command
(opcode 1, the address, the length as value, no payload); when the stream
holds at least `length + 2` bytes it consumes exactly the first
`length + 2` of them and returns the first `length` bytes if the next two
are "OK", and otherwise the missing-ack error without data.  The header of
the frame carries opcode 1, the address and the length, and nothing
follows it.  On every port, data is returned only when the two bytes read
after it were "OK". -/
theorem C14_read_exchange :
    (∀ (fuel : Nat) (f : WincFlasher (List Nat × List Nat)) (address length : Nat),
      (∀ z ∈ f.port.2, 1 ≤ z) → length + 2 ≤ f.port.1.length →
      ∃ sizes1 : List Nat,
        read streamPort (fuel + 1) f address length =
          (if (f.port.1.drop length).take 2 ≠ ackOK then
              some (Res.error (Error.flasher "Missing ack on read: "
                ((f.port.1.drop length).take 2)))
            else some (Res.ok (f.port.1.take length)),
            WincFlasher.mk (f.port.1.drop (length + 2), sizes1) f.payloadSize
              (f.sent ++ [sendCommandBuffer (CommandData.mk 0x01 address length none)])
              f.stdout)) ∧
    (∀ (address length : Nat), address < 4294967296 → length < 4294967296 →
      specParseHeader (sendCommandBuffer (CommandData.mk 0x01 address length none)) =
          Header.mk 1 address length 0 ∧
        (sendCommandBuffer (CommandData.mk 0x01 address length none)).length = 11) ∧
    (∀ (σ : Type) (p : Port σ) (fuel : Nat) (f : WincFlasher σ) (address length : Nat)
        (data : List Nat),
      (read p fuel f address length).1 = some (Res.ok data) →
      ∃ f1 f2 f3 : WincFlasher σ,
        sendCommand p fuel f (CommandData.mk 0x01 address length none) =
          (some (Res.ok ()), f1) ∧
        serialFillBuffer p f1 (makeBytes length) = (Res.ok data, f2) ∧
        serialFillBuffer p f2 (makeBytes 2) = (Res.ok ackOK, f3) ∧
        read p fuel f address length = (some (Res.ok data), f3)) := by
  refine ⟨?_, ?_, ?_⟩
  · intro fuel f address length hs hlen
    obtain ⟨sizes1, _, h⟩ := read_streamPort fuel f address length hs hlen
    exact ⟨sizes1, h⟩
  · intro address length ha hl
    refine ⟨?_, ?_⟩
    · rw [specParseHeader_sendCommandBuffer]
      simp [uint16, uint32, payloadBytes, Nat.mod_eq_of_lt ha, Nat.mod_eq_of_lt hl]
    · rw [sendCommandBuffer_length]
      rfl
  · intro σ p fuel f address length data h
    exact read_ok_checked p fuel f address length data h

/-- Witness of C14: three bytes read from a stream delivered in pieces of
2, 1, 1 and 1 bytes; the byte after "OK" stays in the stream. -/
theorem C14_read_exchange_witness :
    ∃ sizes1 : List Nat,
      read streamPort 1 (WincFlasher.mk ([1, 2, 3, 79, 75, 9], [2, 1, 1, 1]) 1024 [] []) 16 3 =
        (some (Res.ok [1, 2, 3]),
          WincFlasher.mk ([9], sizes1) 1024 [[1, 0, 0, 0, 16, 0, 0, 0, 3, 0, 0]] []) :=
  match C14_read_exchange.1 0
      (WincFlasher.mk ([1, 2, 3, 79, 75, 9], [2, 1, 1, 1]) 1024 [] []) 16 3 (by decide)
      (by decide) with
  | ⟨sizes1, h⟩ => ⟨sizes1, h.trans (by rfl)⟩

/-- C12: during `NewWincFlasher`, on every port and however the
construction ends (success, rejection, an error, or still running), the
frames handed to the port are exactly one: the 11 bytes 0x50 followed by
ten zeros; so no frame with opcode 0x99, 0x03 or 0x02 is sent.  A device
on a line that loses nothing that keeps what it receives has received
exactly that frame when its answer is any two bytes, accepted or
rejected (0x02 0x00, that is 512, included). -/
theorem C12_construction_frame :
    (∀ (σ : Type) (p : Port σ) (fuel : Nat) (s : σ),
      (NewWincFlasher p fuel s).2.sent = [[80, 0, 0, 0, 0, 0, 0, 0, 0, 0, 0]] ∧
      (∀ fr ∈ (NewWincFlasher p fuel s).2.sent,
        fr.length = 11 ∧ fr.head? = some 0x50 ∧ fr.head? ≠ some 0x99 ∧
          fr.head? ≠ some 0x03 ∧ fr.head? ≠ some 0x02) ∧
      (∀ g, (NewWincFlasher p fuel s).1 = some (Res.ok g) →
        g.sent = [[80, 0, 0, 0, 0, 0, 0, 0, 0, 0, 0]])) ∧
    (∀ (n b0 b1 : Nat) (script received : List (List Nat)),
      b0 < 256 → b1 < 256 → script.headD [] = [b0, b1] →
      (NewWincFlasher (devicePort recordingDevice) (n + 1) ((script, received), [])).2.port =
          ((script.tail, received ++ [[80, 0, 0, 0, 0, 0, 0, 0, 0, 0, 0]]), []) ∧
        (NewWincFlasher (devicePort recordingDevice) (n + 1) ((script, received), [])).1 =
          (if 256 * b0 + b1 < 1024 then
            some (Res.error (Error.payloadTooSmall (256 * b0 + b1)))
           else some (Res.ok (WincFlasher.mk
            ((script.tail, received ++ [[80, 0, 0, 0, 0, 0, 0, 0, 0, 0, 0]]), [])
            (256 * b0 + b1) [[80, 0, 0, 0, 0, 0, 0, 0, 0, 0, 0]] [])))) := by
  refine ⟨?_, ?_⟩
  · intro σ p fuel s
    have h := NewWincFlasher_fields p fuel s
    rw [capability_frame] at h
    refine ⟨h.1, ?_, ?_⟩
    · intro fr hfr
      rw [h.1] at hfr
      simp only [List.mem_singleton] at hfr
      subst hfr
      decide
    · intro g hg
      rw [(h.2.2 g hg).1, h.1]
  · intro n b0 b1 script received hb0 hb1 hs
    have hr : (recordingDevice.reply (script, received)
        (sendCommandBuffer (CommandData.mk 0x50 0 0 none))).1 = [b0, b1] := hs
    have h1 := NewWincFlasher_devicePort_port recordingDevice n (script, received) b0 b1 hr
    have h2 := NewWincFlasher_devicePort recordingDevice n (script, received) b0 b1 hb0 hb1 hr
    rw [capability_frame] at h1 h2
    exact ⟨h1, h2⟩

/-- Witness of C12: the capability answer 0x02 0x00 (512); the
construction is rejected and the device has received the one frame. -/
theorem C12_construction_frame_witness :
    (NewWincFlasher (devicePort recordingDevice) 1 (([[2, 0]], []), [])).2.port =
        (([], [[80, 0, 0, 0, 0, 0, 0, 0, 0, 0, 0]]), []) ∧
      (NewWincFlasher (devicePort recordingDevice) 1 (([[2, 0]], []), [])).1 =
        some (Res.error (Error.payloadTooSmall 512)) :=
  ⟨(C12_construction_frame.2 0 2 0 [[2, 0]] [] (by decide) (by decide) rfl).1,
    (C12_construction_frame.2 0 2 0 [[2, 0]] [] (by decide) (by decide) rfl).2.trans
      (by rfl)⟩

/-- C13: `hello` sends the frame 99 11 22 33 44 55 66 77 88 00 00 (opcode
0x99, address 0x11223344, value 0x55667788, no payload) and then performs
one read.  When the frame is sent and the read returns `bytes`, it returns
success if and only if at least 6 bytes were read and the last 6 of them
are "v10000"; a read of no byte gives "Programmer is not responding", a
read of 1 to 5 bytes gives an error, and in every case it returns, the
port having been read once. -/
theorem C13_hello {σ : Type} (p : Port σ) (fuel : Nat) (f f1 : WincFlasher σ) (s2 : σ)
    (bytes : List Nat)
    (hsend : sendCommand p fuel f (CommandData.mk 0x99 0x11223344 0x55667788 none) =
      (some (Res.ok ()), f1))
    (hread : portRead p f1.port 65535 = (Res.ok bytes, s2)) :
    f1.sent = f.sent ++ [[0x99, 0x11, 0x22, 0x33, 0x44, 0x55, 0x66, 0x77, 0x88, 0, 0]] ∧
    (hello p fuel f).2 = f1.setPort s2 ∧
    ((hello p fuel f).1 = some (Res.ok ()) ↔
      (6 ≤ bytes.length ∧ bytes.drop (bytes.length - 6) = [118, 49, 48, 48, 48, 48])) ∧
    (bytes.length = 0 →
      (hello p fuel f).1 = some (Res.error (Error.flasher "Programmer is not responding" []))) ∧
    (1 ≤ bytes.length → bytes.length ≤ 5 → ∃ e, (hello p fuel f).1 = some (Res.error e)) ∧
    (¬ (6 ≤ bytes.length ∧ bytes.drop (bytes.length - 6) = [118, 49, 48, 48, 48, 48]) →
      ∃ e, (hello p fuel f).1 = some (Res.error e)) := by
  have hsent : f1.sent =
      f.sent ++ [[0x99, 0x11, 0x22, 0x33, 0x44, 0x55, 0x66, 0x77, 0x88, 0, 0]] := by
    have h := (sendCommand_sent p fuel f (CommandData.mk 0x99 0x11223344 0x55667788 none)).1
    rw [hsend, hello_frame] at h
    exact h
  have hfail : ¬ (6 ≤ bytes.length ∧ bytes.drop (bytes.length - 6) = [118, 49, 48, 48, 48, 48]) →
      ∃ e, (hello p fuel f).1 = some (Res.error e) := by
    intro hnot
    rw [hello_after_read p fuel f f1 s2 bytes hsend hread]
    dsimp only
    by_cases h6 : 6 ≤ bytes.length
    · rw [if_pos h6]
      by_cases hv : (bytes.drop (bytes.length - 6)).getD 0 0 ≠ 118
      · rw [if_pos hv]
        exact ⟨_, rfl⟩
      · rw [if_neg hv, if_pos (fun h => hnot ⟨h6, h⟩)]
        exact ⟨_, rfl⟩
    · rw [if_neg h6]
      by_cases hv : bytes.getD 0 0 ≠ 118
      · rw [if_pos hv]
        exact ⟨_, rfl⟩
      · rw [if_neg hv]
        exact ⟨_, rfl⟩
  refine ⟨hsent, ?_, ?_, ?_, ?_, hfail⟩
  · rw [hello_after_read p fuel f f1 s2 bytes hsend hread]
  · constructor
    · intro hok
      by_contra hnot
      obtain ⟨e, he⟩ := hfail hnot
      rw [he] at hok
      simp at hok
    · rintro ⟨h6, hv⟩
      rw [hello_after_read p fuel f f1 s2 bytes hsend hread]
      dsimp only
      rw [if_pos h6, hv]
      simp
  · intro h0
    rw [hello_after_read p fuel f f1 s2 bytes hsend hread]
    dsimp only
    have hb : bytes = [] := List.length_eq_zero.mp h0
    subst hb
    rw [if_neg (by simp)]
    simp
  · intro h1 h5
    exact hfail (fun h => by omega)

/-- Witness of C13: two leftover bytes followed by "v10000" are accepted. -/
theorem C13_hello_witness :
    (hello (devicePort scriptDevice) 1
      (WincFlasher.mk ([[9, 9, 118, 49, 48, 48, 48, 48]], []) 0 [] [])).1 =
      some (Res.ok ()) :=
  (C13_hello (devicePort scriptDevice) 1
    (WincFlasher.mk ([[9, 9, 118, 49, 48, 48, 48, 48]], []) 0 [] [])
    (WincFlasher.mk ([], [9, 9, 118, 49, 48, 48, 48, 48]) 0
      [[0x99, 0x11, 0x22, 0x33, 0x44, 0x55, 0x66, 0x77, 0x88, 0, 0]] [])
    ([], []) [9, 9, 118, 49, 48, 48, 48, 48] (by decide) (by decide)).2.2.1.mpr
    ⟨by decide, by decide⟩

/-- C17: in a session whose payloadSize `P` satisfies 1024 <= P <= 65535,
in every run of `flashChunk` on every port (finished or not), the frames
sent after the erase frame are write frames, each with a payload of 1 to
`P` bytes whose length the 16-bit length field carries exactly, followed by
read frames, each requesting 1 to `P` bytes; no chunk of length zero is
sent.  Every flasher `NewWincFlasher` returns has such a payloadSize. -/
theorem C17_chunk_bounds {σ : Type} (p : Port σ) (fuel : Nat) (f : WincFlasher σ) (A : Nat)
    (image : List Nat) (hP1 : 1024 ≤ f.payloadSize) (hP2 : f.payloadSize ≤ 65535) :
    (∃ ws rs : List (List Nat),
      (flashChunk intSize p fuel f A image).2.sent =
        f.sent ++ specEraseFrame A image.length :: (ws ++ rs) ∧
      (∀ w ∈ ws, (specParseHeader w).opcode = 2 ∧
        1 ≤ (w.drop 11).length ∧ (w.drop 11).length ≤ f.payloadSize ∧
        (specParseHeader w).length = (w.drop 11).length) ∧
      (∀ r ∈ rs, (specParseHeader r).opcode = 1 ∧
        1 ≤ (specParseHeader r).value ∧ (specParseHeader r).value ≤ f.payloadSize ∧
        r.drop 11 = [])) ∧
    (∀ (τ : Type) (q : Port τ) (n : Nat) (s : τ) (g : WincFlasher τ),
      (NewWincFlasher q n s).1 = some (Res.ok g) →
        1024 ≤ g.payloadSize ∧ g.payloadSize ≤ 65535) := by
  refine ⟨?_, ?_⟩
  · obtain ⟨m, k, h⟩ := flashChunk_sent_shape intSize p fuel f A image
    refine ⟨_, _, h, ?_, ?_⟩
    · intro w hw
      obtain ⟨c, hc, rfl⟩ := List.mem_map.mp hw
      obtain ⟨h1, h2, h3, _⟩ := chunksFrom_bounds image.length f.payloadSize (by omega) fuel 0 c
        (List.mem_of_mem_take hc)
      have hlen : ((image.drop c.1).take c.2).length = c.2 := by
        rw [List.length_take, List.length_drop]
        omega
      unfold specWriteFrame
      rw [specParseHeader_sendCommandBuffer, sendCommandBuffer_drop]
      simp only [payloadBytes, hlen, uint16]
      refine ⟨trivial, h1, h2, ?_⟩
      exact Nat.mod_eq_of_lt (by omega)
    · intro r hr
      obtain ⟨c, hc, rfl⟩ := List.mem_map.mp hr
      obtain ⟨h1, h2, h3, _⟩ := chunksFrom_bounds image.length f.payloadSize (by omega) fuel 0 c
        (List.mem_of_mem_take hc)
      unfold specReadFrame
      rw [specParseHeader_sendCommandBuffer, sendCommandBuffer_drop]
      simp only [payloadBytes, uint32]
      rw [Nat.mod_eq_of_lt (by omega : c.2 < 4294967296)]
      exact ⟨trivial, h1, h2, trivial⟩
  · intro τ q n s g hg
    exact ((NewWincFlasher_fields q n s).2.2 g hg).2

/-- Witness of C17: a 3-byte image in a session of payload size 1024
against a scripted device. -/
theorem C17_chunk_bounds_witness :
    ∃ ws rs : List (List Nat),
      (flashChunk 64 (devicePort scriptDevice) 2
          (WincFlasher.mk ([ackOK, ackOK, [1, 2, 3, 79, 75]], []) 1024 [] []) 0
          [1, 2, 3]).2.sent = [] ++ specEraseFrame 0 3 :: (ws ++ rs) ∧
      (∀ w ∈ ws, (specParseHeader w).opcode = 2 ∧
        1 ≤ (w.drop 11).length ∧ (w.drop 11).length ≤ 1024 ∧
        (specParseHeader w).length = (w.drop 11).length) :=
  match (C17_chunk_bounds 64 (devicePort scriptDevice) 2
      (WincFlasher.mk ([ackOK, ackOK, [1, 2, 3, 79, 75]], []) 1024 [] []) 0 [1, 2, 3]
      (by decide) (by decide)).1 with
  | ⟨ws, rs, h1, h2, _⟩ => ⟨ws, rs, h1, h2⟩

/-- C19: the send loop of `sendCommand` under partial writes.  (1) On a
transport whose successive writes accept the counts of a script, each at
least 1 (a count larger than what is offered accepts all of it), the loop
ends in success within `max 1 len` turns, and the bytes the transport has
accepted, in order, are exactly the buffer: nothing skipped, nothing
repeated.  (2) The same for `sendCommand` and the frame it builds.  (3) On
every port whose writes return no error and accept at least one byte of a
non-empty offer, the loop ends in success within `max 1 len` turns. -/
theorem C19_send_loop :
    (∀ (n : Nat) (data script wire : List Nat), (∀ k ∈ script, 1 ≤ k) →
      data.length ≤ n + 1 →
      ∃ script1 : List Nat,
        sendCommandLoop scriptedWrites (n + 1) (script, wire) data =
          (some (Res.ok ()), (script1, wire ++ data))) ∧
    (∀ (n : Nat) (f : WincFlasher (List Nat × List Nat)) (cmd : CommandData),
      (∀ k ∈ f.port.1, 1 ≤ k) → (sendCommandBuffer cmd).length ≤ n + 1 →
      ∃ script1 : List Nat,
        sendCommand scriptedWrites (n + 1) f cmd =
          (some (Res.ok ()),
            WincFlasher.mk (script1, f.port.2 ++ sendCommandBuffer cmd) f.payloadSize
              (f.sent ++ [sendCommandBuffer cmd]) f.stdout)) ∧
    (∀ (σ : Type) (p : Port σ) (inv : σ → Prop),
      (∀ s, inv s → ∀ data : List Nat, ∃ k s1, p.Write s data = (PortResult.ok k, s1) ∧
        inv s1 ∧ (data ≠ [] → 1 ≤ k)) →
      ∀ (n : Nat) (s : σ) (data : List Nat), inv s → data.length ≤ n + 1 →
        ∃ s1, sendCommandLoop p (n + 1) s data = (some (Res.ok ()), s1)) := by
  refine ⟨?_, ?_, ?_⟩
  · intro n data script wire hs hlen
    obtain ⟨script1, _, h⟩ := sendCommandLoop_scriptedWrites n data script wire hs hlen
    exact ⟨script1, h⟩
  · intro n f cmd hs hlen
    obtain ⟨script1, _, h⟩ := sendCommandLoop_scriptedWrites n (sendCommandBuffer cmd)
      f.port.1 f.port.2 hs hlen
    refine ⟨script1, ?_⟩
    unfold sendCommand
    dsimp only
    rw [show f.port = (f.port.1, f.port.2) from rfl, h]
  · intro σ p inv hp n s data hs hlen
    obtain ⟨s1, _, h⟩ := sendCommandLoop_progress p inv hp n s data hs hlen
    exact ⟨s1, h⟩

/-- Witness of C19: the 11-byte capability frame accepted in pieces of 3,
1 and 7 bytes. -/
theorem C19_send_loop_witness :
    ∃ script1 : List Nat,
      sendCommandLoop scriptedWrites 11 ([3, 1, 100], [])
          [80, 0, 0, 0, 0, 0, 0, 0, 0, 0, 0] =
        (some (Res.ok ()), (script1, [] ++ [80, 0, 0, 0, 0, 0, 0, 0, 0, 0, 0])) :=
  C19_send_loop.1 10 [80, 0, 0, 0, 0, 0, 0, 0, 0, 0, 0] [3, 1, 100] [] (by decide) (by decide)

/-- C20, as stated, fails: on a build whose `int` has 32 bits, for an image
of 30 MiB and payload size 1024, the percentage printed at the write step of
index 23068672 (22 MiB) is -63, the product `i*100` having wrapped around. -/
theorem C20_counterexample :
    (-63 : Int) ∈ (flashChunk 32 (devicePort (memDevice (fun m _ _ => m))) 30722
        (WincFlasher.mk (fun _ => 0, []) 1024 [] []) 0
        (List.replicate 31457280 0)).2.stdout ∧
      percentage 32 23068672 31457280 = -63 :=
  ⟨percentage_wraps (fun m _ _ => m) (fun _ => 0) (List.replicate 31457280 0)
    (List.length_replicate 31457280 0), by decide⟩

/-- C20, amended: for the empty image and every payload size, against a
device that answers the erase frame with "OK", `flashChunk` returns success
having sent exactly one frame, the erase frame with address `A` and value 0,
and having printed no percentage; on every port and whatever the outcome,
the frames sent for the empty image are that one erase frame, nothing is
printed (the percentage `(i*100)/L` is not evaluated), and the result is
success whenever the erase succeeds.  For every image, the percentages
printed are those of the chunk starts `i` of the write steps performed,
computed in `int` of `intSize` bits; the percentage lies in 0..99 at every
step whose product `i*100` fits `int` (is below `2^(intSize-1)`), hence at
every step when `(L-1)*100` fits. -/
theorem C20_empty_image_and_percentage {δ : Type} (d : Device δ) (fuel : Nat)
    (f : WincFlasher (δ × List Nat)) (A : Nat)
    (hs : 1 ≤ intSize)
    (hq : f.port.2 = [])
    (hr : (d.reply f.port.1 (specEraseFrame A 0)).1 = ackOK) :
    flashChunk intSize (devicePort d) (fuel + 1) f A [] =
        (some (Res.ok ()),
          WincFlasher.mk ((d.reply f.port.1 (specEraseFrame A 0)).2, []) f.payloadSize
            (f.sent ++ [specEraseFrame A 0]) f.stdout) ∧
      specParseHeader (specEraseFrame A 0) = Header.mk 3 (uint32 A) 0 0 ∧
      (∀ (σ : Type) (p : Port σ) (n : Nat) (g : WincFlasher σ),
        (flashChunk intSize p n g A []).2.sent = g.sent ++ [specEraseFrame A 0] ∧
        (flashChunk intSize p n g A []).2.stdout = g.stdout ∧
        ∀ g1, erase p n g (uint32 A) 0 = (some (Res.ok ()), g1) →
          flashChunk intSize p n g A [] = (some (Res.ok ()), g1)) ∧
      (∀ (σ : Type) (p : Port σ) (n : Nat) (g : WincFlasher σ) (image : List Nat),
        ∃ m : Nat,
          (flashChunk intSize p n g A image).2.stdout =
            g.stdout ++ ((chunksFrom image.length g.payloadSize n 0).take m).map
              (fun c => percentage intSize c.1 image.length) ∧
          (∀ c ∈ (chunksFrom image.length g.payloadSize n 0).take m,
            c.1 * 100 < 2 ^ (intSize - 1) →
              0 ≤ percentage intSize c.1 image.length ∧
                percentage intSize c.1 image.length ≤ 99) ∧
          ((image.length - 1) * 100 < 2 ^ (intSize - 1) →
            ∀ x ∈ ((chunksFrom image.length g.payloadSize n 0).take m).map
              (fun c => percentage intSize c.1 image.length), 0 ≤ x ∧ x ≤ 99)) := by
  refine ⟨?_, ?_, ?_, ?_⟩
  · apply flashChunk_empty
    have hfr : sendCommandBuffer (CommandData.mk 0x03 (uint32 A) 0 none) =
        specEraseFrame A 0 := erase_frame A 0
    have h := erase_devicePort d fuel f (uint32 A) 0 ackOK hq (by rw [hfr]; exact hr) rfl
    rw [h, hfr]
    simp
  · unfold specEraseFrame
    rw [specParseHeader_sendCommandBuffer]
    rfl
  · intro σ p n g
    exact ⟨(flashChunk_empty_sent intSize p n g A).1, (flashChunk_empty_sent intSize p n g A).2,
      fun g1 h => flashChunk_empty intSize p n g g1 A h⟩
  · intro σ p n g image
    obtain ⟨m, h⟩ := flashChunk_stdout intSize p n g A image
    refine ⟨m, h, ?_, ?_⟩
    · intro c hc ho
      exact percentage_range intSize c.1 image.length hs
        (chunksFrom_start_lt _ _ _ _ c (List.mem_of_mem_take hc)) ho
    · intro hL x hx
      obtain ⟨c, hc, rfl⟩ := List.mem_map.mp hx
      have hlt := chunksFrom_start_lt _ _ _ _ c (List.mem_of_mem_take hc)
      have hle : c.1 * 100 ≤ (image.length - 1) * 100 :=
        Nat.mul_le_mul_right 100 (by omega)
      exact percentage_range intSize c.1 image.length hs hlt (by omega)

/-- Witness of C20: the empty image at address 0x1000 with payload size 1024,
against the device that answers "OK" once, and the percentages of a 3-byte
image written byte by byte, with `int` of 64 bits. -/
theorem C20_empty_image_and_percentage_witness :
    flashChunk 64 (devicePort scriptDevice) 1
        (WincFlasher.mk ([[79, 75]], []) 1024 [] []) 4096 [] =
      (some (Res.ok ()),
        WincFlasher.mk ([], []) 1024 [[3, 0, 0, 16, 0, 0, 0, 0, 0, 0, 0]] []) ∧
    (flashChunk 64 (devicePort (memDevice (fun _ _ _ => fun _ => 255))) 4
      (WincFlasher.mk (fun _ => 0, []) 1 [] []) 0 [1, 2, 3]).2.stdout = [0, 33, 66] :=
  ⟨(C20_empty_image_and_percentage 64 scriptDevice 0
      (WincFlasher.mk ([[79, 75]], []) 1024 [] []) 4096 (by decide) rfl (by rfl)).1.trans
      (by rfl),
    by rfl⟩

end Flasher

namespace Firmwareindex

/-! ## Lemmas on the firmware index -/

theorem getBoardLoop_some (fqbn : String) :
    ∀ (boards : List IndexBoard) (b : IndexBoard),
      getBoardLoop fqbn boards = some b ↔
        ∃ l1 l2, boards = l1 ++ b :: l2 ∧ b.Fqbn = fqbn ∧ ∀ x ∈ l1, x.Fqbn ≠ fqbn := by
  intro boards
  induction boards with
  | nil =>
    intro b
    simp [getBoardLoop]
  | cons a rest ih =>
    intro b
    unfold getBoardLoop
    by_cases ha : a.Fqbn = fqbn
    · rw [if_pos ha]
      constructor
      · intro h
        simp only [Option.some.injEq] at h
        subst h
        exact ⟨[], rest, rfl, ha, by simp⟩
      · rintro ⟨l1, l2, hl, hb, hx⟩
        cases l1 with
        | nil =>
          simp only [List.nil_append, List.cons.injEq] at hl
          rw [hl.1]
        | cons c l1 =>
          simp only [List.cons_append, List.cons.injEq] at hl
          exact absurd ha (hl.1 ▸ hx c (by simp))
    · rw [if_neg ha, ih]
      constructor
      · rintro ⟨l1, l2, hl, hb, hx⟩
        refine ⟨a :: l1, l2, by rw [hl]; rfl, hb, ?_⟩
        intro x hxm
        rcases List.mem_cons.mp hxm with h | h
        · rw [h]
          exact ha
        · exact hx x h
      · rintro ⟨l1, l2, hl, hb, hx⟩
        cases l1 with
        | nil =>
          simp only [List.nil_append, List.cons.injEq] at hl
          exact absurd (hl.1 ▸ hb) ha
        | cons c l1 =>
          simp only [List.cons_append, List.cons.injEq] at hl
          exact ⟨l1, l2, hl.2, hb, fun x h => hx x (by simp [h])⟩

theorem getBoardLoop_none (fqbn : String) :
    ∀ (boards : List IndexBoard),
      getBoardLoop fqbn boards = none ↔ ∀ b ∈ boards, b.Fqbn ≠ fqbn := by
  intro boards
  induction boards with
  | nil => simp [getBoardLoop]
  | cons a rest ih =>
    unfold getBoardLoop
    by_cases ha : a.Fqbn = fqbn
    · rw [if_pos ha]
      simp [ha]
    · rw [if_neg ha, ih]
      simp [ha]

theorem getFirmwareURLLoop_ok (version : String) :
    ∀ (firmwares : List IndexFirmware) (url : String),
      getFirmwareURLLoop version firmwares = Except.ok url ↔
        ∃ l1 fw l2, firmwares = l1 ++ fw :: l2 ∧ fw.Version = version ∧
          (∀ x ∈ l1, x.Version ≠ version) ∧ url = fw.URL := by
  intro firmwares
  induction firmwares with
  | nil =>
    intro url
    simp [getFirmwareURLLoop]
  | cons a rest ih =>
    intro url
    unfold getFirmwareURLLoop
    by_cases ha : a.Version = version
    · rw [if_pos ha]
      constructor
      · intro h
        simp only [Except.ok.injEq] at h
        exact ⟨[], a, rest, rfl, ha, by simp, h.symm⟩
      · rintro ⟨l1, fw, l2, hl, hb, hx, hu⟩
        cases l1 with
        | nil =>
          simp only [List.nil_append, List.cons.injEq] at hl
          rw [hu, hl.1]
        | cons c l1 =>
          simp only [List.cons_append, List.cons.injEq] at hl
          exact absurd ha (hl.1 ▸ hx c (by simp))
    · rw [if_neg ha, ih]
      constructor
      · rintro ⟨l1, fw, l2, hl, hb, hx, hu⟩
        refine ⟨a :: l1, fw, l2, by rw [hl]; rfl, hb, ?_, hu⟩
        intro x hxm
        rcases List.mem_cons.mp hxm with h | h
        · rw [h]
          exact ha
        · exact hx x h
      · rintro ⟨l1, fw, l2, hl, hb, hx, hu⟩
        cases l1 with
        | nil =>
          simp only [List.nil_append, List.cons.injEq] at hl
          exact absurd (hl.1 ▸ hb) ha
        | cons c l1 =>
          simp only [List.cons_append, List.cons.injEq] at hl
          exact ⟨l1, fw, l2, hl.2, hb, fun x h => hx x (by simp [h]), hu⟩

theorem getFirmwareURLLoop_error (version : String) :
    ∀ (firmwares : List IndexFirmware) (e : Error),
      getFirmwareURLLoop version firmwares = Except.error e ↔
        e = Error.mk "invalid version: %s" [version] ∧
          ∀ fw ∈ firmwares, fw.Version ≠ version := by
  intro firmwares
  induction firmwares with
  | nil =>
    intro e
    simp [getFirmwareURLLoop, eq_comm]
  | cons a rest ih =>
    intro e
    unfold getFirmwareURLLoop
    by_cases ha : a.Version = version
    · rw [if_pos ha]
      simp [ha]
    · rw [if_neg ha, ih]
      simp [ha]

/-- C15: for every index, fqbn and version, `GetBoard` finds the first board
whose Fqbn equals `fqbn`; `GetFirmwareURL` returns the URL `url` exactly when
that board exists and `url` is the URL of its first firmware entry, in list
order, whose Version equals `version`; it returns an error made from
"invalid FQBN: %s" exactly when no board has that fqbn (the error being that
format applied to `fqbn`), and an error made from "invalid version: %s"
exactly when the board exists and none of its firmware entries has that
version (the error being that format applied to `version`); these are its
only outcomes. -/
theorem C15_GetFirmwareURL (i : Index) (fqbn version : String) :
    (∀ b, GetBoard i fqbn = some b ↔
      ∃ l1 l2, i.Boards = l1 ++ b :: l2 ∧ b.Fqbn = fqbn ∧ ∀ x ∈ l1, x.Fqbn ≠ fqbn) ∧
    (∀ url, GetFirmwareURL i fqbn version = Except.ok url ↔
      ∃ b l1 fw l2, GetBoard i fqbn = some b ∧ b.Firmwares = l1 ++ fw :: l2 ∧
        fw.Version = version ∧ (∀ x ∈ l1, x.Version ≠ version) ∧ url = fw.URL) ∧
    (∀ args, GetFirmwareURL i fqbn version = Except.error (Error.mk "invalid FQBN: %s" args) ↔
      args = [fqbn] ∧ ∀ b ∈ i.Boards, b.Fqbn ≠ fqbn) ∧
    (∀ args, GetFirmwareURL i fqbn version =
        Except.error (Error.mk "invalid version: %s" args) ↔
      args = [version] ∧
        ∃ b, GetBoard i fqbn = some b ∧ ∀ fw ∈ b.Firmwares, fw.Version ≠ version) ∧
    (∀ e, GetFirmwareURL i fqbn version = Except.error e →
      e = Error.mk "invalid FQBN: %s" [fqbn] ∨ e = Error.mk "invalid version: %s" [version]) := by
  refine ⟨fun b => getBoardLoop_some fqbn i.Boards b, ?_, ?_, ?_, ?_⟩
  · intro url
    unfold GetFirmwareURL
    rcases hb : GetBoard i fqbn with _ | board
    · simp
    · simp only [getFirmwareURLLoop_ok, Option.some.injEq]
      constructor
      · rintro ⟨l1, fw, l2, h⟩
        exact ⟨board, l1, fw, l2, rfl, h⟩
      · rintro ⟨b, l1, fw, l2, hbb, h⟩
        subst hbb
        exact ⟨l1, fw, l2, h⟩
  · intro args
    unfold GetFirmwareURL
    rcases hb : GetBoard i fqbn with _ | board
    · have hn := (getBoardLoop_none fqbn i.Boards).mp hb
      simp only [Except.error.injEq, Error.mk.injEq, true_and]
      constructor
      · intro h
        exact ⟨h.symm, hn⟩
      · intro h
        exact h.1.symm
    · dsimp only
      rw [getFirmwareURLLoop_error]
      have hs : ¬ ∀ b ∈ i.Boards, b.Fqbn ≠ fqbn := by
        intro hall
        have := (getBoardLoop_none fqbn i.Boards).mpr hall
        unfold GetBoard at hb
        rw [hb] at this
        simp at this
      constructor
      · intro h
        have := h.1
        simp only [Error.mk.injEq] at this
        exact absurd this.1 (by decide)
      · intro h
        exact absurd h.2 hs
  · intro args
    unfold GetFirmwareURL
    rcases hb : GetBoard i fqbn with _ | board
    · simp only [Except.error.injEq, Error.mk.injEq]
      constructor
      · intro h
        exact absurd h.1 (by decide)
      · rintro ⟨_, b, hbb, _⟩
        simp at hbb
    · dsimp only
      rw [getFirmwareURLLoop_error]
      simp only [Error.mk.injEq, true_and, Option.some.injEq]
      constructor
      · rintro ⟨h1, h2⟩
        exact ⟨h1, board, rfl, h2⟩
      · rintro ⟨h1, b, hbb, h2⟩
        subst hbb
        exact ⟨h1, h2⟩
  · intro e
    unfold GetFirmwareURL
    rcases hb : GetBoard i fqbn with _ | board
    · intro h
      simp only [Except.error.injEq] at h
      exact Or.inl h.symm
    · dsimp only
      intro h
      exact Or.inr ((getFirmwareURLLoop_error version board.Firmwares e).mp h).1

/-- C18: what `GetUploaderCommand` returns.  On "darwin" with a non-empty
Macosx command it returns the Macosx command, and in every other case it
returns the Linux command: also on "windows" with a non-empty Windows
command, where the board `exampleBoard` (Linux "linux-command", Windows
"windows-command") gets "linux-command" and not "windows-command". -/
theorem C18_GetUploaderCommand_windows :
    GetUploaderCommand "windows" exampleBoard = "linux-command" ∧
      exampleBoard.UploaderCommand.Windows = "windows-command" ∧
      (∀ b : IndexBoard, GetUploaderCommand "windows" b = b.UploaderCommand.Linux) ∧
      (∀ b : IndexBoard, b.UploaderCommand.Macosx ≠ "" →
        GetUploaderCommand "darwin" b = b.UploaderCommand.Macosx) ∧
      (∀ (GOOS : String) (b : IndexBoard),
        ¬ (GOOS = "darwin" ∧ b.UploaderCommand.Macosx ≠ "") →
        GetUploaderCommand GOOS b = b.UploaderCommand.Linux) := by
  refine ⟨by decide, rfl, ?_, ?_, ?_⟩
  · intro b
    unfold GetUploaderCommand
    have hd : ¬ ("windows" = "darwin" ∧ b.UploaderCommand.Macosx ≠ "") := by
      intro h
      exact absurd h.1 (by decide)
    rw [if_neg hd]
    simp
  · intro b hm
    unfold GetUploaderCommand
    have hw : ¬ ("darwin" = "windows" ∧ b.UploaderCommand.Windows ≠ "") := by
      intro h
      exact absurd h.1 (by decide)
    rw [if_neg hw, if_pos ⟨rfl, hm⟩]
  · intro GOOS b hd
    unfold GetUploaderCommand
    rw [if_neg hd]
    simp

end Firmwareindex
